import Mathlib

/-!
# Battery estimator (`src/modules/systemlib/battery.cpp`)

A shallow embedding of the `Battery` class of `battery.cpp` / `battery.h`.

## Numbers

The source computes in IEEE `float`.  The embedding keeps the *special values*
of IEEE arithmetic (`+inf`, `-inf`, `NaN`), because the source tests for them
(`PX4_ISFINITE`) and because comparisons with `NaN` are false, but it computes
on finite values exactly, in an ordered field `K` (`ℚ` for evaluation, `ℝ`
for the analytic statements).  Rounding, overflow to infinity of finite
operations and the sign of zero are not modelled: every zero is `+0`.

Decimal literals of the source denote the decimal number they spell.

## Library code that is not part of the repository

`logf`, `exp` (libm) and the constant `M_PI_F` are parameters (`Libm`).
The `matrix::Matrix` operations used by the Kalman filter are spelled out on
functions `Fin m → Fin n → FVal K`.

## Members and methods

`State` holds the eleven estimator members and, grouped in `Mbes`, the
`_mbes_*` members of the Kalman filter; the `BlockParam` members are in
`Params`.  A method is a function from the members (and its arguments) to the
new members.  Its body follows the source statement by statement: each `let`
is one assignment, named after the member or local it assigns, a conditional
assignment is the conditional value, and the members are written back in one
record update at the end.  `hrt_abstime` values are natural numbers, their
difference is taken modulo `2^64`.
-/

namespace Battery

/-- A `float` value: a finite number or one of the IEEE special values. -/
inductive FVal (K : Type) where
  | fin (x : K)
  | pinf
  | ninf
  | nan
  deriving DecidableEq, Repr

namespace FVal

variable {K : Type} [LinearOrderedField K]

/-- Unary minus. -/
def neg : FVal K → FVal K
  | fin x => fin (-x)
  | pinf => ninf
  | ninf => pinf
  | nan => nan

/-- IEEE addition (exact on finite values). -/
def add : FVal K → FVal K → FVal K
  | fin x, fin y => fin (x + y)
  | nan, _ => nan
  | _, nan => nan
  | pinf, ninf => nan
  | ninf, pinf => nan
  | pinf, _ => pinf
  | _, pinf => pinf
  | ninf, _ => ninf
  | _, ninf => ninf

/-- IEEE subtraction: `a - b = a + (-b)`. -/
def sub (a b : FVal K) : FVal K := add a (neg b)

/-- The product of an infinity of sign `pos` with the finite value `x`. -/
def infMul (pos : Bool) (x : K) : FVal K :=
  if 0 < x then (if pos then pinf else ninf)
  else if x < 0 then (if pos then ninf else pinf)
  else nan

/-- IEEE multiplication (exact on finite values). -/
def mul : FVal K → FVal K → FVal K
  | fin x, fin y => fin (x * y)
  | nan, _ => nan
  | _, nan => nan
  | pinf, fin y => infMul true y
  | ninf, fin y => infMul false y
  | fin x, pinf => infMul true x
  | fin x, ninf => infMul false x
  | pinf, pinf => pinf
  | ninf, ninf => pinf
  | pinf, ninf => ninf
  | ninf, pinf => ninf

/-- IEEE division (exact on finite values; the zero divisor is `+0`). -/
def div : FVal K → FVal K → FVal K
  | fin x, fin y =>
    if y = 0 then (if 0 < x then pinf else if x < 0 then ninf else nan)
    else fin (x / y)
  | nan, _ => nan
  | _, nan => nan
  | fin _, pinf => fin 0
  | fin _, ninf => fin 0
  | pinf, fin y => if y < 0 then ninf else pinf
  | ninf, fin y => if y < 0 then pinf else ninf
  | pinf, pinf => nan
  | pinf, ninf => nan
  | ninf, pinf => nan
  | ninf, ninf => nan

instance : Neg (FVal K) := ⟨neg⟩
instance : Add (FVal K) := ⟨add⟩
instance : Sub (FVal K) := ⟨sub⟩
instance : Mul (FVal K) := ⟨mul⟩
instance : Div (FVal K) := ⟨div⟩

/-- The C comparison `a < b`: false as soon as one side is `NaN`. -/
def lt : FVal K → FVal K → Bool
  | fin x, fin y => decide (x < y)
  | nan, _ => false
  | _, nan => false
  | ninf, ninf => false
  | ninf, _ => true
  | _, ninf => false
  | pinf, _ => false
  | _, pinf => true

/-- The C comparison `a > b`. -/
def gt (a b : FVal K) : Bool := lt b a

/-- The C comparison `a >= b`: false as soon as one side is `NaN`. -/
def ge : FVal K → FVal K → Bool
  | fin x, fin y => decide (y ≤ x)
  | nan, _ => false
  | _, nan => false
  | pinf, _ => true
  | _, ninf => true
  | ninf, _ => false
  | _, pinf => false

/-- `PX4_ISFINITE`. -/
def isFinite : FVal K → Bool
  | fin _ => true
  | _ => false

/-- `fabsf`. -/
def fabsf : FVal K → FVal K
  | fin x => fin |x|
  | pinf => pinf
  | ninf => pinf
  | nan => nan

/-- Conversion of an integer to `float`. -/
def ofInt (n : Int) : FVal K := fin (n : K)

/-- Conversion of an unsigned integer to `float`. -/
def ofNat (n : Nat) : FVal K := fin (n : K)

/-- The value is finite and lies in the closed interval `[lo, hi]`. -/
def InRange (lo hi : K) : FVal K → Prop
  | fin x => lo ≤ x ∧ x ≤ hi
  | _ => False

end FVal

open FVal

/-- Modelled from the spec: the constants `battery_status_s::BATTERY_WARNING_*`
(their declaration is generated outside the repository's sources); the spec
orders them NONE, LOW, CRITICAL, EMERGENCY. -/
inductive Warning where
  | BATTERY_WARNING_NONE
  | BATTERY_WARNING_LOW
  | BATTERY_WARNING_CRITICAL
  | BATTERY_WARNING_EMERGENCY
  deriving DecidableEq, Repr

/-- Severity of a warning level: NONE = 0 < LOW < CRITICAL < EMERGENCY = 3. -/
def Warning.rank : Warning → Nat
  | BATTERY_WARNING_NONE => 0
  | BATTERY_WARNING_LOW => 1
  | BATTERY_WARNING_CRITICAL => 2
  | BATTERY_WARNING_EMERGENCY => 3

/-- The fields of the topic `battery_status_s` the class writes (the struct is
declared outside the repository's sources). -/
structure battery_status_s (K : Type) where
  timestamp : Nat
  voltage_v : FVal K
  voltage_filtered_v : FVal K
  current_a : FVal K
  current_filtered_a : FVal K
  discharged_mah : FVal K
  remaining : FVal K
  remaining_error : FVal K
  scale : FVal K
  cell_count : Int
  connected : Bool
  system_source : Bool
  priority : Int
  warning : Warning

/-- The `BlockParam` members `_param_*` of the class. -/
structure Params (K : Type) where
  v_empty : FVal K
  v_full : FVal K
  n_cells : Int
  capacity : FVal K
  v_load_drop : FVal K
  r_internal : FVal K
  low_thr : FVal K
  crit_thr : FVal K
  emergency_thr : FVal K

/-- What the source takes from the C library and the platform headers. -/
structure Libm (K : Type) where
  logf : FVal K → FVal K
  exp : FVal K → FVal K
  M_PI_F : FVal K

/-- A `matrix::Matrix<float, m, n>`. -/
abbrev Mat (K : Type) (m n : Nat) := Fin m → Fin n → FVal K

section Model

variable {K : Type} [LinearOrderedField K]

/-- `Battery::model`. -/
def model (L : Libm K) (x : FVal K) : FVal K :=
  let K1 : FVal K := fin (-9267 / 10000)
  let K2 : FVal K := fin (-146 / 10000)
  let K3 : FVal K := fin (1400 / 10000)
  let K4 : FVal K := fin (-16944 / 10000)
  let E0 : FVal K := fin (25632 / 10000)
  let xx := x / fin 100
  E0 + (K1 * L.logf xx) + (K2 * L.logf (fin 1 - xx)) - (K3 / xx) - (K4 * xx)

/-- `Battery::dmodel`. -/
def dmodel (p : FVal K) : FVal K :=
  let K1 : FVal K := fin (-9267 / 10000)
  let K2 : FVal K := fin (-146 / 10000)
  let K3 : FVal K := fin (1400 / 10000)
  let K4 : FVal K := fin (-16944 / 10000)
  let pp := p / fin 100
  let ans := (K1 / pp) - (K2 / (fin 1 - pp)) + (K3 / (pp * pp)) - K4
  ans / fin 100

/-- `Battery::dSOC2OCV`. -/
def dSOC2OCV (soc : FVal K) : FVal K :=
  if gt soc (fin 98) then dmodel (fin 98)
  else if lt soc (fin 2) then dmodel (fin 2)
  else dmodel soc

/-- `Battery::SOC2OCV`. -/
def SOC2OCV (L : Libm K) (soc : FVal K) : FVal K :=
  if gt soc (fin 98) then dSOC2OCV soc * (soc - fin 98) + model L (fin 98)
  else if lt soc (fin 2) then dSOC2OCV soc * (soc - fin 2) + model L (fin 2)
  else model L soc

/-- The `for` loop of `Battery::OCV2SOC`, entered with loop counter `i` and
current iterate `a`; `n` bounds the iterations still allowed by `i < max`
(`n = max - i`).  When the loop condition fails the last `newa` is `a`. -/
def OCV2SOC_loop (L : Libm K) (ocv : FVal K) : Nat → Nat → FVal K → FVal K
  | 0, _, a => a
  | n + 1, i, a =>
    let eps : FVal K := fin (1 / 100)
    let max : Nat := 1000
    let soc_temp : FVal K := fin 50
    let newa := a - ((SOC2OCV L a - ocv) / dSOC2OCV a)
    if lt (fabsf (newa - a)) eps then newa
    else if i = max - 1 then soc_temp
    else OCV2SOC_loop L ocv n (i + 1) newa

/-- `Battery::OCV2SOC`: Newton iteration from `a = 90`, `i = 1 .. max - 1`. -/
def OCV2SOC (L : Libm K) (ocv : FVal K) : FVal K :=
  OCV2SOC_loop L ocv 999 1 (fin 90)

/-! ### The `matrix::Matrix` operations used by the filter -/

/-- Assignment `A(i, j) = v`. -/
def Mat.set {m n : Nat} (A : Mat K m n) (i : Fin m) (j : Fin n) (v : FVal K) : Mat K m n :=
  fun i2 j2 => if i2 = i ∧ j2 = j then v else A i2 j2

/-- `Matrix::operator*(const Matrix &)`: each entry accumulates from zero. -/
def Mat.mul {m n p : Nat} (A : Mat K m n) (B : Mat K n p) : Mat K m p :=
  fun i j => (List.finRange n).foldl (fun acc k => acc + A i k * B k j) (fin 0)

/-- `Matrix::operator+`. -/
def Mat.add {m n : Nat} (A B : Mat K m n) : Mat K m n := fun i j => A i j + B i j

/-- `Matrix::operator-`. -/
def Mat.sub {m n : Nat} (A B : Mat K m n) : Mat K m n := fun i j => A i j - B i j

/-- `Matrix::operator*(Type scalar)`. -/
def Mat.smul {m n : Nat} (A : Mat K m n) (c : FVal K) : Mat K m n := fun i j => A i j * c

/-- `Matrix::operator/(Type scalar)`, which multiplies by `1 / scalar`. -/
def Mat.sdiv {m n : Nat} (A : Mat K m n) (c : FVal K) : Mat K m n := Mat.smul A (fin 1 / c)

/-- `Matrix::T()`. -/
def Mat.T {m n : Nat} (A : Mat K m n) : Mat K n m := fun i j => A j i

/-- `matrix::ones<float, m, n>()`. -/
def Mat.ones (m n : Nat) : Mat K m n := fun _ _ => fin 1

/-- `matrix::eye<float, n>()`. -/
def Mat.eye (n : Nat) : Mat K n n := fun i j => if i = j then fin 1 else fin 0

/-- The members `_mbes_*` of `class Battery` (the Kalman filter's variables). -/
structure Mbes (K : Type) where
  _mbes_u : FVal K
  _mbes_um : FVal K
  _mbes_y : FVal K
  _mbes_xhat : Mat K 4 1
  _mbes_xhatm : Mat K 4 1
  _mbes_yhat : Mat K 1 1
  _mbes_yhatm : Mat K 1 1
  _mbes_th : Fin 4 → FVal K
  _mbes_Ts : FVal K
  _mbes_SOC0 : FVal K
  _mbes_FCC : FVal K
  _mbes_R0 : FVal K
  _mbes_Rd : FVal K
  _mbes_Cd : FVal K
  _mbes_aR0 : FVal K
  _mbes_aRd : FVal K
  _mbes_aCd : FVal K
  _mbes_Q : Mat K 4 4
  _mbes_P : Mat K 4 4
  _mbes_R : FVal K
  _mbes_G : Mat K 4 1
  _mbes_Pm : Mat K 4 4
  _mbes_C : Mat K 1 4
  _mbes_A : Mat K 4 4
  _mbes_A0 : Mat K 4 4
  _mbes_B0 : Mat K 4 1
  _mbes_Ad : Mat K 4 4
  _mbes_Rl : Fin 4 → FVal K
  _mbes_Cl : Fin 4 → FVal K
  _mbes_tomato : Mat K 1 4
  _mbes_cheeze : Mat K 4 4
  _mbes_pasta : Mat K 1 1
  _mbes_basil : Mat K 1 1
  _mbes_initial_set : Int
  _mbes_flag : Int
  _mbes_dt : FVal K
  _mbes_tm : Nat

/-- The data members of `class Battery`: the eleven estimator members and,
grouped in `mbes`, the `_mbes_*` members (the parameters are in `Params`). -/
structure State (K : Type) where
  _voltage_filtered_v : FVal K
  _current_est : FVal K
  _current_filtered_a : FVal K
  _discharged_mah : FVal K
  _remaining_voltage : FVal K
  _remaining_capacity : FVal K
  _remaining : FVal K
  _remaining_error : FVal K
  _scale : FVal K
  _warning : Warning
  _last_timestamp : Nat
  mbes : Mbes K

/-- `Battery::Battery()`.  The constructor initialises the eleven members of
its initialiser list and `_mbes_initial_set` (default member initialiser);
every other `_mbes_*` member keeps whatever `junk` holds. -/
def State.new (junk : Mbes K) : State K :=
  { _voltage_filtered_v := fin (-1)
    _current_est := fin (-1)
    _current_filtered_a := fin (-1)
    _discharged_mah := fin 0
    _remaining_voltage := fin 1
    _remaining_capacity := fin 1
    _remaining := fin 1
    _remaining_error := fin 0
    _scale := fin 1
    _warning := Warning.BATTERY_WARNING_NONE
    _last_timestamp := 0
    mbes := { junk with _mbes_initial_set := 0 } }

/-- `Battery::reset`: the record after `memset` and the assignments. -/
def reset (p : Params K) : battery_status_s K :=
  { timestamp := 0
    voltage_v := fin 0
    voltage_filtered_v := fin 0
    current_a := fin (-1)
    current_filtered_a := fin 0
    discharged_mah := fin 0
    remaining := fin 1
    remaining_error := fin 0
    scale := fin 1
    cell_count := p.n_cells
    connected := false
    system_source := false
    priority := 0
    warning := Warning.BATTERY_WARNING_NONE }

/-- `Battery::filterVoltage`. -/
def filterVoltage (s : State K) (voltage_v : FVal K) : State K :=
  let _voltage_filtered_v :=
    if lt s._voltage_filtered_v (fin 0) then voltage_v else s._voltage_filtered_v
  let filtered_next := _voltage_filtered_v * fin (99 / 100) + voltage_v * fin (1 / 100)
  let _voltage_filtered_v := if isFinite filtered_next then filtered_next else _voltage_filtered_v
  { s with _voltage_filtered_v := _voltage_filtered_v }

/-- The unsigned 64-bit difference `a - b` of two `hrt_abstime` values. -/
def hrt_sub (a b : Nat) : Nat := (a + 2 ^ 64 - b % 2 ^ 64) % 2 ^ 64

/-- The arrays and matrices written by the first `for (int i = 1; i < 4; i++)`
loop of the initialisation branch of `Battery::MBES_EKF`. -/
structure BranchVars (K : Type) where
  _mbes_Rl : Fin 4 → FVal K
  _mbes_Cl : Fin 4 → FVal K
  _mbes_A : Mat K 4 4
  _mbes_A0 : Mat K 4 4
  _mbes_B0 : Mat K 4 1
  _mbes_C : Mat K 1 4

/-- Body of the first `for (int i = 1; i < 4; i++)` loop of the
initialisation branch of `Battery::MBES_EKF`. -/
def MBES_EKF_branch (L : Libm K) (_mbes_th : Fin 4 → FVal K) (_mbes_Ts : FVal K)
    (b : BranchVars K) (i : Fin 4) : BranchVars K :=
  let _mbes_Rl := Function.update b._mbes_Rl i
    (fin 8 * _mbes_th 1 / ofInt (2 * (i : Int) - 1) / ofInt (2 * (i : Int) - 1)
      / L.M_PI_F / L.M_PI_F)
  let _mbes_Cl := Function.update b._mbes_Cl i (_mbes_th 2 / fin 2)
  let _mbes_A := Mat.set b._mbes_A i i (fin (-1) / (_mbes_Rl i * _mbes_Cl i))
  let _mbes_A0 := Mat.set b._mbes_A0 i i (fin 1 + _mbes_Ts * _mbes_A i i)
  let _mbes_B0 := Mat.set b._mbes_B0 i 0 (_mbes_Ts / _mbes_Cl i)
  let _mbes_C := Mat.set b._mbes_C 0 i (fin 1)
  { _mbes_Rl := _mbes_Rl, _mbes_Cl := _mbes_Cl, _mbes_A := _mbes_A, _mbes_A0 := _mbes_A0,
    _mbes_B0 := _mbes_B0, _mbes_C := _mbes_C }

/-- The branch `if (_mbes_initial_set == 0)` of `Battery::MBES_EKF`
(coefficient set "Bat1x").  Each `let` is one assignment of the source, in
source order; the members are written back at the end. -/
def MBES_EKF_init (L : Libm K) (p : Params K) (m : Mbes K) (voltage_v : FVal K) : Mbes K :=
  let _mbes_SOC0 := OCV2SOC L (voltage_v / ofInt p.n_cells)
  let _mbes_FCC : FVal K := fin 2700 * fin (36 / 10)
  let _mbes_aR0 : FVal K := fin (-85457 / 10000)
  let _mbes_aRd : FVal K := fin (-33752 / 10000)
  let _mbes_aCd : FVal K := fin (61933 / 10000)
  let _mbes_R0 := L.exp _mbes_aR0
  let _mbes_Rd := L.exp _mbes_aRd
  let _mbes_Cd := L.exp _mbes_aCd
  let _mbes_Ts : FVal K := fin (1 / 2)
  let _mbes_th := Function.update m._mbes_th 0 _mbes_R0
  let _mbes_th := Function.update _mbes_th 1 _mbes_Rd
  let _mbes_th := Function.update _mbes_th 2 _mbes_Cd
  let _mbes_th := Function.update _mbes_th 3 _mbes_FCC
  let _mbes_A := Mat.set m._mbes_A 0 0 (fin 0)
  let _mbes_A0 := Mat.set m._mbes_A0 0 0 (fin 1)
  let _mbes_B0 := Mat.set m._mbes_B0 0 0 (fin 100 * _mbes_Ts / _mbes_th 3)
  let _mbes_C := Mat.set m._mbes_C 0 0 (fin 0)
  let b := [1, 2, 3].foldl (MBES_EKF_branch L _mbes_th _mbes_Ts)
    { _mbes_Rl := m._mbes_Rl, _mbes_Cl := m._mbes_Cl, _mbes_A := _mbes_A, _mbes_A0 := _mbes_A0,
      _mbes_B0 := _mbes_B0, _mbes_C := _mbes_C }
  let _mbes_Ad := Mat.smul b._mbes_A _mbes_Ts
  let _mbes_Q := Mat.set m._mbes_Q 0 0 (fin (1 / 100) * _mbes_Ts * _mbes_Ts)
  let _mbes_Q := [1, 2, 3].foldl
    (fun (Q : Mat K 4 4) (i : Fin 4) => Mat.set Q i i (fin (1 / 1000000))) _mbes_Q
  let _mbes_Ad := [0, 1, 2, 3].foldl
    (fun (Ad : Mat K 4 4) (i : Fin 4) => Mat.set Ad i i (L.exp (Ad i i))) _mbes_Ad
  let _mbes_R : FVal K := fin (75 / 1000)
  let _mbes_xhat := Mat.set m._mbes_xhat 0 0 _mbes_SOC0
  let _mbes_P := Mat.set m._mbes_P 0 0 (fin 100)
  let _mbes_P := Mat.set _mbes_P 1 1 (fin (1 / 10000))
  let _mbes_P := Mat.set _mbes_P 2 2 (fin (1 / 10000))
  let _mbes_P := Mat.set _mbes_P 3 3 (fin (1 / 10000))
  let _mbes_initial_set : Int := 1
  let _mbes_tomato : Mat K 1 4 := Mat.ones 1 4
  let _mbes_pasta : Mat K 1 1 := Mat.ones 1 1
  let _mbes_cheeze : Mat K 4 4 := Mat.eye 4
  let _mbes_tomato := Mat.set _mbes_tomato 0 0 (fin 0)
  { m with
    _mbes_SOC0 := _mbes_SOC0, _mbes_FCC := _mbes_FCC, _mbes_aR0 := _mbes_aR0,
    _mbes_aRd := _mbes_aRd, _mbes_aCd := _mbes_aCd, _mbes_R0 := _mbes_R0, _mbes_Rd := _mbes_Rd,
    _mbes_Cd := _mbes_Cd, _mbes_Ts := _mbes_Ts, _mbes_th := _mbes_th, _mbes_A := b._mbes_A,
    _mbes_A0 := b._mbes_A0, _mbes_B0 := b._mbes_B0, _mbes_C := b._mbes_C,
    _mbes_Rl := b._mbes_Rl, _mbes_Cl := b._mbes_Cl, _mbes_Ad := _mbes_Ad, _mbes_Q := _mbes_Q,
    _mbes_R := _mbes_R, _mbes_xhat := _mbes_xhat, _mbes_P := _mbes_P,
    _mbes_initial_set := _mbes_initial_set, _mbes_tomato := _mbes_tomato,
    _mbes_pasta := _mbes_pasta, _mbes_cheeze := _mbes_cheeze }

/-- The branch `else if (_mbes_flag == 1)` of `Battery::MBES_EKF`: one
predict/update step of the filter.  Each `let` is one assignment of the
source, in source order; the members are written back at the end. -/
def MBES_EKF_correct (L : Libm K) (m : Mbes K) : Mbes K :=
  let _mbes_flag : Int := 0
  let _mbes_xhatm := Mat.add (Mat.mul m._mbes_A0 m._mbes_xhat) (Mat.smul m._mbes_B0 m._mbes_um)
  let _mbes_yhatm := Mat.add
    (Mat.add (Mat.smul m._mbes_pasta (SOC2OCV L (_mbes_xhatm 0 0)))
      (Mat.mul m._mbes_tomato _mbes_xhatm))
    (Mat.smul m._mbes_pasta (m._mbes_th 0 * m._mbes_u))
  let _mbes_Pm := Mat.add (Mat.mul (Mat.mul m._mbes_Ad m._mbes_P) (Mat.T m._mbes_Ad)) m._mbes_Q
  let _mbes_C := Mat.set m._mbes_C 0 0 (dSOC2OCV (_mbes_xhatm 0 0))
  let _mbes_basil := Mat.mul (Mat.mul _mbes_C _mbes_Pm) (Mat.T _mbes_C)
  let _mbes_G := Mat.sdiv (Mat.mul _mbes_Pm (Mat.T _mbes_C)) (_mbes_basil 0 0 + m._mbes_R)
  let _mbes_xhat := Mat.add _mbes_xhatm
    (Mat.mul _mbes_G (Mat.sub (Mat.smul m._mbes_pasta m._mbes_y) _mbes_yhatm))
  let _mbes_P := Mat.mul (Mat.sub m._mbes_cheeze (Mat.mul _mbes_G _mbes_C)) _mbes_Pm
  { m with
    _mbes_flag := _mbes_flag, _mbes_xhatm := _mbes_xhatm, _mbes_yhatm := _mbes_yhatm,
    _mbes_Pm := _mbes_Pm, _mbes_C := _mbes_C, _mbes_basil := _mbes_basil, _mbes_G := _mbes_G,
    _mbes_xhat := _mbes_xhat, _mbes_P := _mbes_P }

/-- What `Battery::MBES_EKF` does to the `_mbes_*` members when the estimated
current `_current_est` is not negative. -/
def MBES_EKF_valid (L : Libm K) (p : Params K) (m : Mbes K) (_current_est : FVal K)
    (timestamp : Nat) (voltage_v : FVal K) : Mbes K :=
  let _mbes_dt :=
    if m._mbes_tm ≠ 0 then m._mbes_dt + ofNat (hrt_sub timestamp m._mbes_tm) / fin 1000000
    else m._mbes_dt
  let _mbes_tm := timestamp
  let due := gt _mbes_dt (fin (1 / 2))
  let _mbes_flag : Int := if due then 1 else m._mbes_flag
  let _mbes_dt := if due then fin 0 else _mbes_dt
  let _mbes_u := fin (-1) * _current_est
  let _mbes_y := voltage_v / ofInt p.n_cells
  let m : Mbes K :=
    { m with
      _mbes_dt := _mbes_dt, _mbes_tm := _mbes_tm, _mbes_flag := _mbes_flag, _mbes_u := _mbes_u,
      _mbes_y := _mbes_y }
  let m :=
    if m._mbes_initial_set = 0 then MBES_EKF_init L p m voltage_v
    else if m._mbes_flag = 1 then MBES_EKF_correct L m
    else m
  { m with _mbes_um := m._mbes_u }

/-- `Battery::MBES_EKF`. -/
def MBES_EKF (L : Libm K) (p : Params K) (s : State K) (timestamp : Nat)
    (voltage_v _current_a : FVal K) : State K :=
  if lt s._current_est (fin 0) then { s with mbes := { s.mbes with _mbes_tm := 0 } }
  else { s with mbes := MBES_EKF_valid L p s.mbes s._current_est timestamp voltage_v }

/-- `Battery::estCurrent` (not called by `updateBatteryStatus`). -/
def estCurrent (s : State K) (_current_a throttle_normalized : FVal K) : State K :=
  let _current_est : FVal K :=
    if gt throttle_normalized (fin 0) then
      let wp_a : FVal K := fin (-622186 / 100000000000000)
      let wp_b : FVal K := fin (32145 / 1000000000)
      let wp_c : FVal K := fin (-414685 / 10000000)
      let wp_d : FVal K := fin (168119 / 10000)
      let x := fin 800 * throttle_normalized + fin 800
      wp_a * x * x * x + wp_b * x * x + wp_c * x + wp_d
    else fin 0
  let _current_est := fin 4 * _current_est
  { s with _current_est := _current_est }

/-- Body of the loop of `Battery::estCurrentQ`: the new `_current_est`. -/
def estCurrentQ_body (mot : Fin 4 → FVal K) (_current_est : FVal K) (i : Fin 4) : FVal K :=
  let wp_a : FVal K := fin (-622186 / 100000000000000)
  let wp_b : FVal K := fin (32145 / 1000000000)
  let wp_c : FVal K := fin (-414685 / 10000000)
  let wp_d : FVal K := fin (168119 / 10000)
  let x_i := fin 800 * mot i + fin 800
  let y_i :=
    if gt x_i (fin 900) then wp_a * x_i * x_i * x_i + wp_b * x_i * x_i + wp_c * x_i + wp_d
    else fin (34 / 100)
  _current_est + y_i

/-- `Battery::estCurrentQ`. -/
def estCurrentQ (s : State K) (_current_a _throttle_normalized : FVal K)
    (mot : Fin 4 → FVal K) : State K :=
  let _current_est : FVal K := fin 0
  let _current_est := [0, 1, 2, 3].foldl (estCurrentQ_body mot) _current_est
  { s with _current_est := _current_est }

/-- `Battery::filterCurrent`. -/
def filterCurrent (s : State K) (_current_a : FVal K) : State K :=
  let _current_filtered_a :=
    if lt s._current_filtered_a (fin 0) then s._current_est else s._current_filtered_a
  let filtered_next := _current_filtered_a * fin (98 / 100) + s._current_est * fin (2 / 100)
  let _current_filtered_a := if isFinite filtered_next then filtered_next else _current_filtered_a
  { s with _current_filtered_a := _current_filtered_a }

/-- `Battery::sumDischarged`. -/
def sumDischarged (s : State K) (timestamp : Nat) (_current_a : FVal K) : State K :=
  if lt s._current_est (fin 0) then { s with _last_timestamp := 0 }
  else
    let _discharged_mah :=
      if s._last_timestamp ≠ 0 then
        s._discharged_mah
          + s._current_est * ofNat (hrt_sub timestamp s._last_timestamp) / fin 1000 / fin 3600
      else s._discharged_mah
    let _last_timestamp := timestamp
    { s with _discharged_mah := _discharged_mah, _last_timestamp := _last_timestamp }

/-- `Battery::estimateRemaining`.  Each `let` is one assignment of the source,
in source order; the members are written back at the end. -/
def estimateRemaining (L : Libm K) (p : Params K) (s : State K)
    (voltage_v current_a throttle_normalized : FVal K) (armed : Bool) : State K :=
  let bat_r := p.r_internal
  let bat_v_empty_dynamic : FVal K :=
    if ge bat_r (fin 0) then p.v_empty - current_a * bat_r
    else
      let thr : FVal K :=
        if armed then (fabsf throttle_normalized + fin (1 / 10)) / fin (11 / 10) else fin 0
      p.v_empty - p.v_load_drop * thr
  let voltage_range := p.v_full - p.v_empty
  let rvoltage := (voltage_v - (ofInt p.n_cells * bat_v_empty_dynamic))
    / (ofInt p.n_cells * voltage_range)
  let rvoltage_filt := s._remaining_voltage * fin (99 / 100) + rvoltage * fin (1 / 100)
  let _remaining_voltage := if isFinite rvoltage_filt then rvoltage_filt else s._remaining_voltage
  let _discharged_mah :=
    if !armed then
      p.capacity * (fin 100 - OCV2SOC L (voltage_v / ofInt p.n_cells)) / fin 100
    else s._discharged_mah
  let rcap := fin 1 - _discharged_mah / p.capacity
  let rcap_filt := s._remaining_capacity * fin (99 / 100) + rcap * fin (1 / 100)
  let _remaining_capacity := if isFinite rcap_filt then rcap_filt else s._remaining_capacity
  let _remaining_voltage := if lt _remaining_voltage (fin 0) then fin 0 else _remaining_voltage
  let _remaining_voltage := if gt _remaining_voltage (fin 1) then fin 1 else _remaining_voltage
  let _remaining_capacity := if lt _remaining_capacity (fin 0) then fin 0 else _remaining_capacity
  let _remaining_capacity := if gt _remaining_capacity (fin 1) then fin 1 else _remaining_capacity
  let _remaining := if gt p.capacity (fin 0) then _remaining_capacity else _remaining_voltage
  { s with
    _remaining_voltage := _remaining_voltage, _discharged_mah := _discharged_mah,
    _remaining_capacity := _remaining_capacity, _remaining := _remaining }

/-- `Battery::determineWarning`. -/
def determineWarning (p : Params K) (s : State K) (connected : Bool) : State K :=
  if connected then
    if lt s._remaining p.emergency_thr || s._warning = Warning.BATTERY_WARNING_EMERGENCY then
      { s with _warning := Warning.BATTERY_WARNING_EMERGENCY }
    else if lt s._remaining p.crit_thr || s._warning = Warning.BATTERY_WARNING_CRITICAL then
      { s with _warning := Warning.BATTERY_WARNING_CRITICAL }
    else if lt s._remaining p.low_thr || s._warning = Warning.BATTERY_WARNING_LOW then
      { s with _warning := Warning.BATTERY_WARNING_LOW }
    else s
  else s

/-- `Battery::computeScale`. -/
def computeScale (p : Params K) (s : State K) : State K :=
  let voltage_range := p.v_full - p.v_empty
  let bat_v := p.v_empty + (voltage_range * s._remaining_voltage)
  let _scale := p.v_full / bat_v
  let _scale :=
    if gt _scale (fin (13 / 10)) then fin (13 / 10)
    else if !isFinite _scale || lt _scale (fin 1) then fin 1
    else _scale
  { s with _scale := _scale }

/-- The arguments of one `Battery::updateBatteryStatus` call. -/
structure UpdateArgs (K : Type) where
  timestamp : Nat
  voltage_v : FVal K
  current_a : FVal K
  connected : Bool
  selected_source : Bool
  priority : Int
  throttle_normalized : FVal K
  motor_out : Fin 4 → FVal K
  armed : Bool

/-- The member updates of `Battery::updateBatteryStatus`, in call order. -/
def updateState (L : Libm K) (p : Params K) (s : State K) (a : UpdateArgs K) : State K :=
  let s := filterVoltage s a.voltage_v
  let s := estCurrentQ s a.current_a a.throttle_normalized a.motor_out
  let s := filterCurrent s a.current_a
  let s := sumDischarged s a.timestamp a.current_a
  let s := MBES_EKF L p s a.timestamp a.voltage_v a.current_a
  let s := estimateRemaining L p s a.voltage_v a.current_a a.throttle_normalized a.armed
  let s := determineWarning p s a.connected
  computeScale p s

/-- `Battery::updateBatteryStatus`: the new members and the record written to
`*battery_status`. -/
def updateBatteryStatus (L : Libm K) (p : Params K) (s : State K) (a : UpdateArgs K) :
    State K × battery_status_s K :=
  let battery_status := reset p
  let battery_status := { battery_status with timestamp := a.timestamp }
  let s := updateState L p s a
  if gt s._voltage_filtered_v (fin (21 / 10)) then
    (s, { battery_status with
            voltage_v := a.voltage_v
            voltage_filtered_v := s._voltage_filtered_v
            scale := s._scale
            current_a := s._current_est
            current_filtered_a := s._current_filtered_a
            discharged_mah := s._discharged_mah
            warning := s._warning
            remaining := s._remaining
            remaining_error := s._remaining_error
            connected := a.connected
            system_source := a.selected_source
            priority := a.priority })
  else (s, battery_status)

/-- The estimator after a sequence of `updateBatteryStatus` calls; each call
comes with the parameter values in force when it is made. -/
def runUpdates (L : Libm K) (s : State K) : List (Params K × UpdateArgs K) → State K
  | [] => s
  | (p, a) :: rest => runUpdates L (updateBatteryStatus L p s a).1 rest

/-- The records written by a sequence of `updateBatteryStatus` calls. -/
def runRecords (L : Libm K) (s : State K) :
    List (Params K × UpdateArgs K) → List (battery_status_s K)
  | [] => []
  | (p, a) :: rest =>
    (updateBatteryStatus L p s a).2 :: runRecords L (updateBatteryStatus L p s a).1 rest

end Model

/-! ## Spec-side definitions and sample inputs -/

section SpecSide

variable {K : Type} [LinearOrderedField K]

/-- The value `Battery::estCurrentQ` leaves in `_current_est`: the sum, from
zero, of the four per-motor currents. -/
def motorCurrent (mot : Fin 4 → FVal K) : FVal K :=
  [0, 1, 2, 3].foldl (estCurrentQ_body mot) (fin 0)

/-- The timestamp of the last call of a sequence, `t` if there is none. -/
def lastTimestamp : Nat → List (Params K × UpdateArgs K) → Nat
  | t, [] => t
  | _, c :: rest => lastTimestamp c.2.timestamp rest

/-- The states after each call of a sequence of `updateBatteryStatus` calls. -/
def runStates (L : Libm K) (s : State K) : List (Params K × UpdateArgs K) → List (State K)
  | [] => []
  | (p, a) :: rest =>
    (updateBatteryStatus L p s a).1 :: runStates L (updateBatteryStatus L p s a).1 rest

/-- The transition rule of the warning state machine in the words of the
spec (section 4.7): EMERGENCY if `remaining < emergency_thr` or already
EMERGENCY, else CRITICAL if `remaining < crit_thr` or already CRITICAL, else
LOW if `remaining < low_thr` or already LOW, else NONE. -/
def warningRule (p : Params K) (remaining : FVal K) (previous : Warning) : Warning :=
  if lt remaining p.emergency_thr = true ∨ previous = Warning.BATTERY_WARNING_EMERGENCY then
    Warning.BATTERY_WARNING_EMERGENCY
  else if lt remaining p.crit_thr = true ∨ previous = Warning.BATTERY_WARNING_CRITICAL then
    Warning.BATTERY_WARNING_CRITICAL
  else if lt remaining p.low_thr = true ∨ previous = Warning.BATTERY_WARNING_LOW then
    Warning.BATTERY_WARNING_LOW
  else Warning.BATTERY_WARNING_NONE

/-- The level the thresholds alone assign to a remaining fraction. -/
def thresholdLevel (p : Params K) (remaining : FVal K) : Warning :=
  if lt remaining p.emergency_thr then Warning.BATTERY_WARNING_EMERGENCY
  else if lt remaining p.crit_thr then Warning.BATTERY_WARNING_CRITICAL
  else if lt remaining p.low_thr then Warning.BATTERY_WARNING_LOW
  else Warning.BATTERY_WARNING_NONE

/-! ### The OCV curve on finite values

The same formulas as `model`, `dmodel`, `dSOC2OCV`, `SOC2OCV` and the loop of
`OCV2SOC`, on numbers instead of `float` values; the lemmas of the section on
the round trip show that the embedded functions compute them on finite
arguments. -/

/-- The formula of `Battery::model` on a number, `log` standing for `logf`. -/
def ocvModel (log : K → K) (s : K) : K :=
  25632 / 10000 + (-9267 / 10000) * log (s / 100) + (-146 / 10000) * log (1 - s / 100)
    - (1400 / 10000) / (s / 100) - (-16944 / 10000) * (s / 100)

/-- The formula of `Battery::dmodel` on a number. -/
def ocvSlope (s : K) : K :=
  ((-9267 / 10000) / (s / 100) - (-146 / 10000) / (1 - s / 100)
    + (1400 / 10000) / (s / 100 * (s / 100)) - (-16944 / 10000)) / 100

/-- The branches of `Battery::dSOC2OCV` on a number. -/
def ocvCurveSlope (s : K) : K :=
  if 98 < s then ocvSlope 98 else if s < 2 then ocvSlope 2 else ocvSlope s

/-- The branches of `Battery::SOC2OCV` on a number. -/
def ocvCurve (log : K → K) (s : K) : K :=
  if 98 < s then ocvCurveSlope s * (s - 98) + ocvModel log 98
  else if s < 2 then ocvCurveSlope s * (s - 2) + ocvModel log 2
  else ocvModel log s

/-- The loop of `Battery::OCV2SOC` on numbers, for a curve `F` with slope `D`:
the same tolerance, counter test and fallback as `OCV2SOC_loop`. -/
def newtonLoop (F D : K → K) (y : K) : Nat → Nat → K → K
  | 0, _, a => a
  | n + 1, i, a =>
    let newa := a - (F a - y) / D a
    if |newa - a| < 1 / 100 then newa
    else if i = 999 then 50
    else newtonLoop F D y n (i + 1) newa

/-- The members the spec bounds: the three remaining fractions in `[0, 1]`
and the scale in `[1, 1.3]`. -/
def Bounded (s : State K) : Prop :=
  InRange 0 1 s._remaining_voltage ∧ InRange 0 1 s._remaining_capacity
    ∧ InRange 0 1 s._remaining ∧ InRange 1 (13 / 10) s._scale

/-- A libm on the rationals, for evaluating the model: `logf` and `exp` are
rational approximations of the logarithm and the exponential (as the `float`
functions are), `M_PI_F` is the decimal literal of the platform header. -/
def approxLibm : Libm ℚ where
  logf := fun x =>
    match x with
    | fin q =>
      if 0 < q then
        let z := (q - 1) / (q + 1)
        fin (2 * z * (1 + z ^ 2 / 3 + z ^ 4 / 5))
      else if q = 0 then ninf
      else nan
    | pinf => pinf
    | ninf => nan
    | nan => nan
  exp := fun x =>
    match x with
    | fin q => fin ((1 + q / 16) ^ 16)
    | pinf => pinf
    | ninf => fin 0
    | nan => nan
  M_PI_F := fin (314159265358979323846 / 100000000000000000000)

/-- All `_mbes_*` members zero: a value the uninitialised members may hold. -/
def zeroMbes : Mbes ℚ where
  _mbes_u := fin 0
  _mbes_um := fin 0
  _mbes_y := fin 0
  _mbes_xhat := fun _ _ => fin 0
  _mbes_xhatm := fun _ _ => fin 0
  _mbes_yhat := fun _ _ => fin 0
  _mbes_yhatm := fun _ _ => fin 0
  _mbes_th := fun _ => fin 0
  _mbes_Ts := fin 0
  _mbes_SOC0 := fin 0
  _mbes_FCC := fin 0
  _mbes_R0 := fin 0
  _mbes_Rd := fin 0
  _mbes_Cd := fin 0
  _mbes_aR0 := fin 0
  _mbes_aRd := fin 0
  _mbes_aCd := fin 0
  _mbes_Q := fun _ _ => fin 0
  _mbes_P := fun _ _ => fin 0
  _mbes_R := fin 0
  _mbes_G := fun _ _ => fin 0
  _mbes_Pm := fun _ _ => fin 0
  _mbes_C := fun _ _ => fin 0
  _mbes_A := fun _ _ => fin 0
  _mbes_A0 := fun _ _ => fin 0
  _mbes_B0 := fun _ _ => fin 0
  _mbes_Ad := fun _ _ => fin 0
  _mbes_Rl := fun _ => fin 0
  _mbes_Cl := fun _ => fin 0
  _mbes_tomato := fun _ _ => fin 0
  _mbes_cheeze := fun _ _ => fin 0
  _mbes_pasta := fun _ _ => fin 0
  _mbes_basil := fun _ _ => fin 0
  _mbes_initial_set := 0
  _mbes_flag := 0
  _mbes_dt := fin 0
  _mbes_tm := 0

/-- A four-cell pack (3.5 V empty, 4.2 V full per cell) of unknown capacity
and unknown internal resistance, with the low threshold at 96 %. -/
def packParams : Params ℚ where
  v_empty := fin (35 / 10)
  v_full := fin (42 / 10)
  n_cells := 4
  capacity := fin 0
  v_load_drop := fin 0
  r_internal := fin (-1)
  low_thr := fin (96 / 100)
  crit_thr := fin (10 / 100)
  emergency_thr := fin (5 / 100)

/-- A four-cell pack of 5000 mAh with a known internal resistance of 10 mOhm
and the usual thresholds. -/
def loadedPack : Params ℚ where
  v_empty := fin (35 / 10)
  v_full := fin (42 / 10)
  n_cells := 4
  capacity := fin 5000
  v_load_drop := fin (3 / 10)
  r_internal := fin (1 / 100)
  low_thr := fin (15 / 100)
  crit_thr := fin (7 / 100)
  emergency_thr := fin (5 / 100)

/-- A call at time `t` reading `v` volts: connected, armed, motors idle. -/
def idleCall (t : Nat) (v : ℚ) : UpdateArgs ℚ where
  timestamp := t
  voltage_v := fin v
  current_a := fin 0
  connected := true
  selected_source := true
  priority := 0
  throttle_normalized := fin 0
  motor_out := fun _ => fin 0
  armed := true

/-- What the convergence proof of Newton's iteration uses of a curve `F` with
slope `D`: the slope lies in `[m, M]` with `m > 0`, increments of `F` lie
between the bounds of `D` times the length, `D` decreases up to `c` and
increases from `c` on, and `D` at most doubles over a distance of 0.02. -/
structure NewtonCurve (F D : ℝ → ℝ) (m M c : ℝ) : Prop where
  m_pos : 0 < m
  lower : ∀ x, m ≤ D x
  upper : ∀ x, D x ≤ M
  mvi_lower : ∀ a b lo, a ≤ b → (∀ x, a ≤ x → x ≤ b → lo ≤ D x) → lo * (b - a) ≤ F b - F a
  mvi_upper : ∀ a b hi, a ≤ b → (∀ x, a ≤ x → x ≤ b → D x ≤ hi) → F b - F a ≤ hi * (b - a)
  anti : ∀ x z, x ≤ z → z ≤ c → D z ≤ D x
  mono : ∀ x z, c ≤ x → x ≤ z → D x ≤ D z
  reg : ∀ a x, |x - a| ≤ 2 / 100 → D a ≤ 2 * D x

/-- The settled phase of the iteration: the root `r` lies between the bottom
`c` of the slope and the iterate `a`. -/
def Settled (c r a : ℝ) : Prop := (c ≤ r ∧ r ≤ a) ∨ (a ≤ r ∧ r ≤ c)

/-- The inward phase of the iteration: the iterate `a` lies between the bottom
`c` of the slope and the root `r`. -/
def Inward (c r a : ℝ) : Prop := (c ≤ a ∧ a ≤ r) ∨ (r ≤ a ∧ a ≤ c)

/-- On `[a, b]` the increment of the curve lies between the bounds of its
slope times the length. -/
def Sandwich (a b : ℝ) : Prop :=
  ∀ lo hi : ℝ, (∀ x, a ≤ x → x ≤ b → lo ≤ ocvCurveSlope x ∧ ocvCurveSlope x ≤ hi) →
    lo * (b - a) ≤ ocvCurve Real.log b - ocvCurve Real.log a
      ∧ ocvCurve Real.log b - ocvCurve Real.log a ≤ hi * (b - a)

/-! ### The Newton iteration of `OCV2SOC`, iterate by iterate -/

/-- The value `Battery::OCV2SOC` assigns to `newa` from the iterate `a`. -/
def newtonStep (L : Libm K) (ocv a : FVal K) : FVal K :=
  a - ((SOC2OCV L a - ocv) / dSOC2OCV a)

/-- The iterates of `Battery::OCV2SOC`: the guess 90, then one Newton step
after the other. -/
def newtonIterate (L : Libm K) (ocv : FVal K) : Nat → FVal K
  | 0 => fin 90
  | k + 1 => newtonStep L ocv (newtonIterate L ocv k)

/-- The test `fabsf(newa - a) < eps` of `Battery::OCV2SOC` on iterate `k + 1`
and its predecessor, iterate `k`. -/
def closeStep (L : Libm K) (ocv : FVal K) (k : Nat) : Bool :=
  lt (fabsf (newtonIterate L ocv (k + 1) - newtonIterate L ocv k)) (fin (1 / 100))

/-! ### Scale and remaining-by-voltage in the words of the spec -/

/-- The scale for a quotient `v_full / bat_v`: a finite quotient is clamped to
`[1, 1.3]`, `+inf` goes to 1.3, `-inf` and `NaN` go to 1. -/
def clampScale : FVal K → FVal K
  | fin x => fin (max 1 (min x (13 / 10)))
  | pinf => fin (13 / 10)
  | ninf => fin 1
  | nan => fin 1

/-- The dynamic empty voltage of section 4.6: `v_empty - current * r_internal`
if the resistance is known (`>= 0`), otherwise `v_empty - v_load_drop * thr`
with `thr = (|throttle| + 0.1) / 1.1` when armed and 0 when disarmed. -/
def dynamicEmpty (p : Params K) (current throttle : FVal K) (armed : Bool) : FVal K :=
  if ge p.r_internal (fin 0) then p.v_empty - current * p.r_internal
  else
    p.v_empty
      - p.v_load_drop * (if armed then (fabsf throttle + fin (1 / 10)) / fin (11 / 10) else fin 0)

/-- The voltage `v` normalised into the pack range:
`(v - n_cells * empty_dyn) / (n_cells * (v_full - v_empty))`. -/
def voltageFraction (p : Params K) (v current throttle : FVal K) (armed : Bool) : FVal K :=
  (v - ofInt p.n_cells * dynamicEmpty p current throttle armed)
    / (ofInt p.n_cells * (p.v_full - p.v_empty))

/-- The slow filter of section 4.6: `0.99 * old + 0.01 * x`. -/
def slowBlend (old x : FVal K) : FVal K := old * fin (99 / 100) + x * fin (1 / 100)

/-- Clamp to `[0, 1]`: below 0 gives 0, above 1 gives 1 (`NaN` stays). -/
def clamp01 (x : FVal K) : FVal K :=
  if gt (if lt x (fin 0) then fin 0 else x) (fin 1) then fin 1
  else if lt x (fin 0) then fin 0 else x

/-! ### The cadence of the Kalman filter -/

/-- The value of `_mbes_dt` after the statement `_mbes_dt += ...` of
`Battery::MBES_EKF` in a call at `timestamp`: the time accumulated since the
accumulator was last reset. -/
def accumulatedTime (m : Mbes K) (timestamp : Nat) : FVal K :=
  if m._mbes_tm ≠ 0 then m._mbes_dt + ofNat (hrt_sub timestamp m._mbes_tm) / fin 1000000
  else m._mbes_dt

/-- The members `_mbes_*` when `Battery::MBES_EKF` reaches its
`if (_mbes_initial_set == 0)`, in a call with a valid estimate that started
from the members `m`. -/
def sampledMbes (p : Params K) (m : Mbes K) (a : UpdateArgs K) : Mbes K :=
  { m with
    _mbes_dt :=
      if gt (accumulatedTime m a.timestamp) (fin (1 / 2)) then fin 0
      else accumulatedTime m a.timestamp
    _mbes_tm := a.timestamp
    _mbes_flag := if gt (accumulatedTime m a.timestamp) (fin (1 / 2)) then 1 else m._mbes_flag
    _mbes_u := fin (-1) * motorCurrent a.motor_out
    _mbes_y := a.voltage_v / ofInt p.n_cells }

/-- Whether a call of `updateBatteryStatus` from the members `s` executes the
branch `else if (_mbes_flag == 1)` of `Battery::MBES_EKF`, the correction
step: the estimate is valid, the filter is initialised and the flag, after the
timer update, is 1. -/
def correctionRuns (s : State K) (a : UpdateArgs K) : Bool :=
  !lt (motorCurrent a.motor_out) (fin 0) && decide (s.mbes._mbes_initial_set ≠ 0)
    && decide ((if gt (accumulatedTime s.mbes a.timestamp) (fin (1 / 2)) then 1
        else s.mbes._mbes_flag) = 1)

/-- The timestamps of the calls of a sequence that execute the correction
step. -/
def correctionTimes (L : Libm K) (s : State K) : List (Params K × UpdateArgs K) → List Nat
  | [] => []
  | (p, a) :: rest =>
    if correctionRuns s a then
      a.timestamp :: correctionTimes L (updateBatteryStatus L p s a).1 rest
    else correctionTimes L (updateBatteryStatus L p s a).1 rest

/-- Invariant of the filter's timers along a run: the flag is down, the
accumulator is a number in `[0, 0.5]` that does not exceed the time from the
last correction (at `last`) to the last call (at `now`), `_mbes_tm` is 0 or
`now`, and it is 0 as long as the filter is not initialised. -/
def TimerInv (s : State K) (last now : Nat) : Prop :=
  s.mbes._mbes_flag = 0 ∧ last ≤ now ∧ (s.mbes._mbes_tm = 0 ∨ s.mbes._mbes_tm = now)
    ∧ (s.mbes._mbes_initial_set = 0 → s.mbes._mbes_tm = 0)
    ∧ ∃ d : K, s.mbes._mbes_dt = fin d ∧ 0 ≤ d ∧ d ≤ 1 / 2
        ∧ d * 1000000 ≤ (now : K) - (last : K)

/-- What holds of the timers after any calls whatever their timestamps: the
flag is down, the accumulator is not above 0.5, and `_mbes_tm` is 0 as long as
the filter is not initialised. -/
def FlagDown (s : State K) : Prop :=
  s.mbes._mbes_flag = 0 ∧ gt s.mbes._mbes_dt (fin (1 / 2)) = false
    ∧ (s.mbes._mbes_initial_set = 0 → s.mbes._mbes_tm = 0)

/-! ### The branches of the equivalent circuit -/

/-- Branch resistance `Rl_i = 8 * Rd / ((2 i - 1)^2 * pi^2)` of section 4.5. -/
def branchRl (Rd pi : K) (i : Nat) : K := 8 * Rd / ((2 * (i : K) - 1) ^ 2 * pi ^ 2)

/-- Branch capacitance `Cl_i = Cd / 2` of section 4.5. -/
def branchCl (Cd : K) : K := Cd / 2

/-- All `_mbes_*` members zero, over any field: what zero-filled storage
holds. -/
def clearedMbes : Mbes K where
  _mbes_u := fin 0
  _mbes_um := fin 0
  _mbes_y := fin 0
  _mbes_xhat := fun _ _ => fin 0
  _mbes_xhatm := fun _ _ => fin 0
  _mbes_yhat := fun _ _ => fin 0
  _mbes_yhatm := fun _ _ => fin 0
  _mbes_th := fun _ => fin 0
  _mbes_Ts := fin 0
  _mbes_SOC0 := fin 0
  _mbes_FCC := fin 0
  _mbes_R0 := fin 0
  _mbes_Rd := fin 0
  _mbes_Cd := fin 0
  _mbes_aR0 := fin 0
  _mbes_aRd := fin 0
  _mbes_aCd := fin 0
  _mbes_Q := fun _ _ => fin 0
  _mbes_P := fun _ _ => fin 0
  _mbes_R := fin 0
  _mbes_G := fun _ _ => fin 0
  _mbes_Pm := fun _ _ => fin 0
  _mbes_C := fun _ _ => fin 0
  _mbes_A := fun _ _ => fin 0
  _mbes_A0 := fun _ _ => fin 0
  _mbes_B0 := fun _ _ => fin 0
  _mbes_Ad := fun _ _ => fin 0
  _mbes_Rl := fun _ => fin 0
  _mbes_Cl := fun _ => fin 0
  _mbes_tomato := fun _ _ => fin 0
  _mbes_cheeze := fun _ _ => fin 0
  _mbes_pasta := fun _ _ => fin 0
  _mbes_basil := fun _ _ => fin 0
  _mbes_initial_set := 0
  _mbes_flag := 0
  _mbes_dt := fin 0
  _mbes_tm := 0

/-- A pack whose empty voltage is set to 0 V (4.2 V full per cell, four cells,
unknown capacity and resistance, no load drop). -/
def zeroEmptyPack : Params ℚ where
  v_empty := fin 0
  v_full := fin (42 / 10)
  n_cells := 4
  capacity := fin 0
  v_load_drop := fin 0
  r_internal := fin (-1)
  low_thr := fin (15 / 100)
  crit_thr := fin (7 / 100)
  emergency_thr := fin (5 / 100)


end SpecSide

/-! ## Arithmetic on finite values -/

section FinArith

variable {K : Type} [LinearOrderedField K]

@[simp] theorem fin_add_fin (a b : K) : (fin a + fin b : FVal K) = fin (a + b) := rfl

@[simp] theorem fin_sub_fin (a b : K) : (fin a - fin b : FVal K) = fin (a - b) := by
  show fin (a + -b) = fin (a - b)
  rw [sub_eq_add_neg]

@[simp] theorem fin_mul_fin (a b : K) : (fin a * fin b : FVal K) = fin (a * b) := rfl

theorem fin_div_fin (a b : K) (h : b ≠ 0) : (fin a / fin b : FVal K) = fin (a / b) := by
  show FVal.div (fin a) (fin b) = fin (a / b)
  simp [FVal.div, h]

@[simp] theorem fin_div_fin_eq (a b : K) :
    (fin a / fin b : FVal K)
      = if b = 0 then (if 0 < a then pinf else if a < 0 then ninf else nan) else fin (a / b) :=
  rfl

@[simp] theorem lt_fin_fin (a b : K) : FVal.lt (fin a) (fin b) = decide (a < b) := rfl

@[simp] theorem gt_fin_fin (a b : K) : FVal.gt (fin a) (fin b) = decide (b < a) := rfl

@[simp] theorem ge_fin_fin (a b : K) : FVal.ge (fin a) (fin b) = decide (b ≤ a) := rfl

omit [LinearOrderedField K] in
@[simp] theorem isFinite_fin (a : K) : FVal.isFinite (fin a) = true := rfl

@[simp] theorem fabsf_fin (a : K) : FVal.fabsf (fin a) = fin |a| := rfl

@[simp] theorem add_nan (x : FVal K) : x + nan = nan := by
  cases x <;> rfl

@[simp] theorem nan_add (x : FVal K) : nan + x = nan := by
  cases x <;> rfl

@[simp] theorem sub_nan (x : FVal K) : x - nan = nan := by
  cases x <;> rfl

@[simp] theorem nan_sub (x : FVal K) : nan - x = nan := by
  cases x <;> rfl

@[simp] theorem mul_nan (x : FVal K) : x * nan = nan := by
  cases x <;> rfl

@[simp] theorem nan_mul (x : FVal K) : nan * x = nan := by
  cases x <;> rfl

@[simp] theorem div_nan (x : FVal K) : x / nan = nan := by
  cases x <;> rfl

@[simp] theorem nan_div (x : FVal K) : nan / x = nan := by
  cases x <;> rfl

omit [LinearOrderedField K] in
@[simp] theorem isFinite_nan : FVal.isFinite (nan : FVal K) = false := rfl

omit [LinearOrderedField K] in
@[simp] theorem isFinite_pinf : FVal.isFinite (pinf : FVal K) = false := rfl

omit [LinearOrderedField K] in
@[simp] theorem isFinite_ninf : FVal.isFinite (ninf : FVal K) = false := rfl

@[simp] theorem lt_nan (x : FVal K) : FVal.lt x nan = false := by
  cases x <;> rfl

@[simp] theorem nan_lt (x : FVal K) : FVal.lt nan x = false := by
  cases x <;> rfl

@[simp] theorem gt_nan (x : FVal K) : FVal.gt x nan = false := nan_lt x

@[simp] theorem nan_gt (x : FVal K) : FVal.gt nan x = false := lt_nan x

theorem isFinite_iff (x : FVal K) : FVal.isFinite x = true ↔ ∃ a, x = fin a := by
  cases x <;> simp [FVal.isFinite]

end FinArith

/-! ## Frame lemmas: the members a method leaves alone -/

section Frame

variable {K : Type} [LinearOrderedField K]

@[simp] theorem filterVoltage_current_est (s : State K) (v : FVal K) :
    (filterVoltage s v)._current_est = s._current_est := rfl

@[simp] theorem filterVoltage_current_filtered_a (s : State K) (v : FVal K) :
    (filterVoltage s v)._current_filtered_a = s._current_filtered_a := rfl

@[simp] theorem filterVoltage_discharged_mah (s : State K) (v : FVal K) :
    (filterVoltage s v)._discharged_mah = s._discharged_mah := rfl

@[simp] theorem filterVoltage_remaining_voltage (s : State K) (v : FVal K) :
    (filterVoltage s v)._remaining_voltage = s._remaining_voltage := rfl

@[simp] theorem filterVoltage_remaining_capacity (s : State K) (v : FVal K) :
    (filterVoltage s v)._remaining_capacity = s._remaining_capacity := rfl

@[simp] theorem filterVoltage_remaining (s : State K) (v : FVal K) :
    (filterVoltage s v)._remaining = s._remaining := rfl

@[simp] theorem filterVoltage_remaining_error (s : State K) (v : FVal K) :
    (filterVoltage s v)._remaining_error = s._remaining_error := rfl

@[simp] theorem filterVoltage_scale (s : State K) (v : FVal K) :
    (filterVoltage s v)._scale = s._scale := rfl

@[simp] theorem filterVoltage_warning (s : State K) (v : FVal K) :
    (filterVoltage s v)._warning = s._warning := rfl

@[simp] theorem filterVoltage_last_timestamp (s : State K) (v : FVal K) :
    (filterVoltage s v)._last_timestamp = s._last_timestamp := rfl

@[simp] theorem filterVoltage_mbes (s : State K) (v : FVal K) :
    (filterVoltage s v).mbes = s.mbes := rfl

@[simp] theorem estCurrentQ_voltage_filtered_v (s : State K) (c t : FVal K) (mot : Fin 4 → FVal K) :
    (estCurrentQ s c t mot)._voltage_filtered_v = s._voltage_filtered_v := rfl

@[simp] theorem estCurrentQ_current_filtered_a (s : State K) (c t : FVal K) (mot : Fin 4 → FVal K) :
    (estCurrentQ s c t mot)._current_filtered_a = s._current_filtered_a := rfl

@[simp] theorem estCurrentQ_discharged_mah (s : State K) (c t : FVal K) (mot : Fin 4 → FVal K) :
    (estCurrentQ s c t mot)._discharged_mah = s._discharged_mah := rfl

@[simp] theorem estCurrentQ_remaining_voltage (s : State K) (c t : FVal K) (mot : Fin 4 → FVal K) :
    (estCurrentQ s c t mot)._remaining_voltage = s._remaining_voltage := rfl

@[simp] theorem estCurrentQ_remaining_capacity (s : State K) (c t : FVal K) (mot : Fin 4 → FVal K) :
    (estCurrentQ s c t mot)._remaining_capacity = s._remaining_capacity := rfl

@[simp] theorem estCurrentQ_remaining (s : State K) (c t : FVal K) (mot : Fin 4 → FVal K) :
    (estCurrentQ s c t mot)._remaining = s._remaining := rfl

@[simp] theorem estCurrentQ_remaining_error (s : State K) (c t : FVal K) (mot : Fin 4 → FVal K) :
    (estCurrentQ s c t mot)._remaining_error = s._remaining_error := rfl

@[simp] theorem estCurrentQ_scale (s : State K) (c t : FVal K) (mot : Fin 4 → FVal K) :
    (estCurrentQ s c t mot)._scale = s._scale := rfl

@[simp] theorem estCurrentQ_warning (s : State K) (c t : FVal K) (mot : Fin 4 → FVal K) :
    (estCurrentQ s c t mot)._warning = s._warning := rfl

@[simp] theorem estCurrentQ_last_timestamp (s : State K) (c t : FVal K) (mot : Fin 4 → FVal K) :
    (estCurrentQ s c t mot)._last_timestamp = s._last_timestamp := rfl

@[simp] theorem estCurrentQ_mbes (s : State K) (c t : FVal K) (mot : Fin 4 → FVal K) :
    (estCurrentQ s c t mot).mbes = s.mbes := rfl

@[simp] theorem filterCurrent_voltage_filtered_v (s : State K) (c : FVal K) :
    (filterCurrent s c)._voltage_filtered_v = s._voltage_filtered_v := rfl

@[simp] theorem filterCurrent_current_est (s : State K) (c : FVal K) :
    (filterCurrent s c)._current_est = s._current_est := rfl

@[simp] theorem filterCurrent_discharged_mah (s : State K) (c : FVal K) :
    (filterCurrent s c)._discharged_mah = s._discharged_mah := rfl

@[simp] theorem filterCurrent_remaining_voltage (s : State K) (c : FVal K) :
    (filterCurrent s c)._remaining_voltage = s._remaining_voltage := rfl

@[simp] theorem filterCurrent_remaining_capacity (s : State K) (c : FVal K) :
    (filterCurrent s c)._remaining_capacity = s._remaining_capacity := rfl

@[simp] theorem filterCurrent_remaining (s : State K) (c : FVal K) :
    (filterCurrent s c)._remaining = s._remaining := rfl

@[simp] theorem filterCurrent_remaining_error (s : State K) (c : FVal K) :
    (filterCurrent s c)._remaining_error = s._remaining_error := rfl

@[simp] theorem filterCurrent_scale (s : State K) (c : FVal K) :
    (filterCurrent s c)._scale = s._scale := rfl

@[simp] theorem filterCurrent_warning (s : State K) (c : FVal K) :
    (filterCurrent s c)._warning = s._warning := rfl

@[simp] theorem filterCurrent_last_timestamp (s : State K) (c : FVal K) :
    (filterCurrent s c)._last_timestamp = s._last_timestamp := rfl

@[simp] theorem filterCurrent_mbes (s : State K) (c : FVal K) :
    (filterCurrent s c).mbes = s.mbes := rfl

@[simp] theorem sumDischarged_voltage_filtered_v (s : State K) (t : Nat) (c : FVal K) :
    (sumDischarged s t c)._voltage_filtered_v = s._voltage_filtered_v := by
  unfold sumDischarged
  split_ifs <;> rfl

@[simp] theorem sumDischarged_current_est (s : State K) (t : Nat) (c : FVal K) :
    (sumDischarged s t c)._current_est = s._current_est := by
  unfold sumDischarged
  split_ifs <;> rfl

@[simp] theorem sumDischarged_current_filtered_a (s : State K) (t : Nat) (c : FVal K) :
    (sumDischarged s t c)._current_filtered_a = s._current_filtered_a := by
  unfold sumDischarged
  split_ifs <;> rfl

@[simp] theorem sumDischarged_remaining_voltage (s : State K) (t : Nat) (c : FVal K) :
    (sumDischarged s t c)._remaining_voltage = s._remaining_voltage := by
  unfold sumDischarged
  split_ifs <;> rfl

@[simp] theorem sumDischarged_remaining_capacity (s : State K) (t : Nat) (c : FVal K) :
    (sumDischarged s t c)._remaining_capacity = s._remaining_capacity := by
  unfold sumDischarged
  split_ifs <;> rfl

@[simp] theorem sumDischarged_remaining (s : State K) (t : Nat) (c : FVal K) :
    (sumDischarged s t c)._remaining = s._remaining := by
  unfold sumDischarged
  split_ifs <;> rfl

@[simp] theorem sumDischarged_remaining_error (s : State K) (t : Nat) (c : FVal K) :
    (sumDischarged s t c)._remaining_error = s._remaining_error := by
  unfold sumDischarged
  split_ifs <;> rfl

@[simp] theorem sumDischarged_scale (s : State K) (t : Nat) (c : FVal K) :
    (sumDischarged s t c)._scale = s._scale := by
  unfold sumDischarged
  split_ifs <;> rfl

@[simp] theorem sumDischarged_warning (s : State K) (t : Nat) (c : FVal K) :
    (sumDischarged s t c)._warning = s._warning := by
  unfold sumDischarged
  split_ifs <;> rfl

@[simp] theorem sumDischarged_mbes (s : State K) (t : Nat) (c : FVal K) :
    (sumDischarged s t c).mbes = s.mbes := by
  unfold sumDischarged
  split_ifs <;> rfl

@[simp] theorem MBES_EKF_voltage_filtered_v (L : Libm K) (p : Params K) (s : State K) (t : Nat) (v c : FVal K) :
    (MBES_EKF L p s t v c)._voltage_filtered_v = s._voltage_filtered_v := by
  unfold MBES_EKF
  split_ifs <;> rfl

@[simp] theorem MBES_EKF_current_est (L : Libm K) (p : Params K) (s : State K) (t : Nat) (v c : FVal K) :
    (MBES_EKF L p s t v c)._current_est = s._current_est := by
  unfold MBES_EKF
  split_ifs <;> rfl

@[simp] theorem MBES_EKF_current_filtered_a (L : Libm K) (p : Params K) (s : State K) (t : Nat) (v c : FVal K) :
    (MBES_EKF L p s t v c)._current_filtered_a = s._current_filtered_a := by
  unfold MBES_EKF
  split_ifs <;> rfl

@[simp] theorem MBES_EKF_discharged_mah (L : Libm K) (p : Params K) (s : State K) (t : Nat) (v c : FVal K) :
    (MBES_EKF L p s t v c)._discharged_mah = s._discharged_mah := by
  unfold MBES_EKF
  split_ifs <;> rfl

@[simp] theorem MBES_EKF_remaining_voltage (L : Libm K) (p : Params K) (s : State K) (t : Nat) (v c : FVal K) :
    (MBES_EKF L p s t v c)._remaining_voltage = s._remaining_voltage := by
  unfold MBES_EKF
  split_ifs <;> rfl

@[simp] theorem MBES_EKF_remaining_capacity (L : Libm K) (p : Params K) (s : State K) (t : Nat) (v c : FVal K) :
    (MBES_EKF L p s t v c)._remaining_capacity = s._remaining_capacity := by
  unfold MBES_EKF
  split_ifs <;> rfl

@[simp] theorem MBES_EKF_remaining (L : Libm K) (p : Params K) (s : State K) (t : Nat) (v c : FVal K) :
    (MBES_EKF L p s t v c)._remaining = s._remaining := by
  unfold MBES_EKF
  split_ifs <;> rfl

@[simp] theorem MBES_EKF_remaining_error (L : Libm K) (p : Params K) (s : State K) (t : Nat) (v c : FVal K) :
    (MBES_EKF L p s t v c)._remaining_error = s._remaining_error := by
  unfold MBES_EKF
  split_ifs <;> rfl

@[simp] theorem MBES_EKF_scale (L : Libm K) (p : Params K) (s : State K) (t : Nat) (v c : FVal K) :
    (MBES_EKF L p s t v c)._scale = s._scale := by
  unfold MBES_EKF
  split_ifs <;> rfl

@[simp] theorem MBES_EKF_warning (L : Libm K) (p : Params K) (s : State K) (t : Nat) (v c : FVal K) :
    (MBES_EKF L p s t v c)._warning = s._warning := by
  unfold MBES_EKF
  split_ifs <;> rfl

@[simp] theorem MBES_EKF_last_timestamp (L : Libm K) (p : Params K) (s : State K) (t : Nat) (v c : FVal K) :
    (MBES_EKF L p s t v c)._last_timestamp = s._last_timestamp := by
  unfold MBES_EKF
  split_ifs <;> rfl

@[simp] theorem estimateRemaining_voltage_filtered_v (L : Libm K) (p : Params K) (s : State K) (v c t : FVal K) (armed : Bool) :
    (estimateRemaining L p s v c t armed)._voltage_filtered_v = s._voltage_filtered_v := rfl

@[simp] theorem estimateRemaining_current_est (L : Libm K) (p : Params K) (s : State K) (v c t : FVal K) (armed : Bool) :
    (estimateRemaining L p s v c t armed)._current_est = s._current_est := rfl

@[simp] theorem estimateRemaining_current_filtered_a (L : Libm K) (p : Params K) (s : State K) (v c t : FVal K) (armed : Bool) :
    (estimateRemaining L p s v c t armed)._current_filtered_a = s._current_filtered_a := rfl

@[simp] theorem estimateRemaining_remaining_error (L : Libm K) (p : Params K) (s : State K) (v c t : FVal K) (armed : Bool) :
    (estimateRemaining L p s v c t armed)._remaining_error = s._remaining_error := rfl

@[simp] theorem estimateRemaining_scale (L : Libm K) (p : Params K) (s : State K) (v c t : FVal K) (armed : Bool) :
    (estimateRemaining L p s v c t armed)._scale = s._scale := rfl

@[simp] theorem estimateRemaining_warning (L : Libm K) (p : Params K) (s : State K) (v c t : FVal K) (armed : Bool) :
    (estimateRemaining L p s v c t armed)._warning = s._warning := rfl

@[simp] theorem estimateRemaining_last_timestamp (L : Libm K) (p : Params K) (s : State K) (v c t : FVal K) (armed : Bool) :
    (estimateRemaining L p s v c t armed)._last_timestamp = s._last_timestamp := rfl

@[simp] theorem estimateRemaining_mbes (L : Libm K) (p : Params K) (s : State K) (v c t : FVal K) (armed : Bool) :
    (estimateRemaining L p s v c t armed).mbes = s.mbes := rfl

@[simp] theorem determineWarning_voltage_filtered_v (p : Params K) (s : State K) (connected : Bool) :
    (determineWarning p s connected)._voltage_filtered_v = s._voltage_filtered_v := by
  unfold determineWarning
  split_ifs <;> rfl

@[simp] theorem determineWarning_current_est (p : Params K) (s : State K) (connected : Bool) :
    (determineWarning p s connected)._current_est = s._current_est := by
  unfold determineWarning
  split_ifs <;> rfl

@[simp] theorem determineWarning_current_filtered_a (p : Params K) (s : State K) (connected : Bool) :
    (determineWarning p s connected)._current_filtered_a = s._current_filtered_a := by
  unfold determineWarning
  split_ifs <;> rfl

@[simp] theorem determineWarning_discharged_mah (p : Params K) (s : State K) (connected : Bool) :
    (determineWarning p s connected)._discharged_mah = s._discharged_mah := by
  unfold determineWarning
  split_ifs <;> rfl

@[simp] theorem determineWarning_remaining_voltage (p : Params K) (s : State K) (connected : Bool) :
    (determineWarning p s connected)._remaining_voltage = s._remaining_voltage := by
  unfold determineWarning
  split_ifs <;> rfl

@[simp] theorem determineWarning_remaining_capacity (p : Params K) (s : State K) (connected : Bool) :
    (determineWarning p s connected)._remaining_capacity = s._remaining_capacity := by
  unfold determineWarning
  split_ifs <;> rfl

@[simp] theorem determineWarning_remaining (p : Params K) (s : State K) (connected : Bool) :
    (determineWarning p s connected)._remaining = s._remaining := by
  unfold determineWarning
  split_ifs <;> rfl

@[simp] theorem determineWarning_remaining_error (p : Params K) (s : State K) (connected : Bool) :
    (determineWarning p s connected)._remaining_error = s._remaining_error := by
  unfold determineWarning
  split_ifs <;> rfl

@[simp] theorem determineWarning_scale (p : Params K) (s : State K) (connected : Bool) :
    (determineWarning p s connected)._scale = s._scale := by
  unfold determineWarning
  split_ifs <;> rfl

@[simp] theorem determineWarning_last_timestamp (p : Params K) (s : State K) (connected : Bool) :
    (determineWarning p s connected)._last_timestamp = s._last_timestamp := by
  unfold determineWarning
  split_ifs <;> rfl

@[simp] theorem determineWarning_mbes (p : Params K) (s : State K) (connected : Bool) :
    (determineWarning p s connected).mbes = s.mbes := by
  unfold determineWarning
  split_ifs <;> rfl

@[simp] theorem computeScale_voltage_filtered_v (p : Params K) (s : State K) :
    (computeScale p s)._voltage_filtered_v = s._voltage_filtered_v := rfl

@[simp] theorem computeScale_current_est (p : Params K) (s : State K) :
    (computeScale p s)._current_est = s._current_est := rfl

@[simp] theorem computeScale_current_filtered_a (p : Params K) (s : State K) :
    (computeScale p s)._current_filtered_a = s._current_filtered_a := rfl

@[simp] theorem computeScale_discharged_mah (p : Params K) (s : State K) :
    (computeScale p s)._discharged_mah = s._discharged_mah := rfl

@[simp] theorem computeScale_remaining_voltage (p : Params K) (s : State K) :
    (computeScale p s)._remaining_voltage = s._remaining_voltage := rfl

@[simp] theorem computeScale_remaining_capacity (p : Params K) (s : State K) :
    (computeScale p s)._remaining_capacity = s._remaining_capacity := rfl

@[simp] theorem computeScale_remaining (p : Params K) (s : State K) :
    (computeScale p s)._remaining = s._remaining := rfl

@[simp] theorem computeScale_remaining_error (p : Params K) (s : State K) :
    (computeScale p s)._remaining_error = s._remaining_error := rfl

@[simp] theorem computeScale_warning (p : Params K) (s : State K) :
    (computeScale p s)._warning = s._warning := rfl

@[simp] theorem computeScale_last_timestamp (p : Params K) (s : State K) :
    (computeScale p s)._last_timestamp = s._last_timestamp := rfl

@[simp] theorem computeScale_mbes (p : Params K) (s : State K) :
    (computeScale p s).mbes = s.mbes := rfl

theorem sumDischarged_discharged_mah_eq (s : State K) (t : Nat) (c : FVal K) :
    (sumDischarged s t c)._discharged_mah
      = if lt s._current_est (fin 0) then s._discharged_mah
        else if s._last_timestamp ≠ 0 then
          s._discharged_mah
            + s._current_est * ofNat (hrt_sub t s._last_timestamp) / fin 1000 / fin 3600
        else s._discharged_mah := by
  unfold sumDischarged
  split_ifs <;> rfl

theorem sumDischarged_last_timestamp_eq (s : State K) (t : Nat) (c : FVal K) :
    (sumDischarged s t c)._last_timestamp = if lt s._current_est (fin 0) then 0 else t := by
  unfold sumDischarged
  split_ifs <;> rfl

@[simp] theorem estCurrentQ_current_est (s : State K) (c t : FVal K) (mot : Fin 4 → FVal K) :
    (estCurrentQ s c t mot)._current_est = motorCurrent mot := rfl

end Frame

/-! ## The warning state machine -/

section WarningLevel

variable {K : Type} [LinearOrderedField K]

theorem determineWarning_rule (p : Params K) (s : State K) :
    (determineWarning p s true)._warning = warningRule p s._remaining s._warning := by
  unfold determineWarning warningRule
  cases hw : s._warning <;> cases h1 : lt s._remaining p.emergency_thr <;>
    cases h2 : lt s._remaining p.crit_thr <;> cases h3 : lt s._remaining p.low_thr <;> simp [hw]

theorem warningRule_rank (p : Params K) (r : FVal K) (w : Warning) :
    (warningRule p r w).rank = max w.rank (thresholdLevel p r).rank := by
  unfold warningRule thresholdLevel
  cases w <;> cases h1 : lt r p.emergency_thr <;> cases h2 : lt r p.crit_thr <;>
    cases h3 : lt r p.low_thr <;> simp [Warning.rank]

theorem determineWarning_not_connected (p : Params K) (s : State K) :
    determineWarning p s false = s := by
  simp [determineWarning]

theorem determineWarning_rank_le (p : Params K) (s : State K) (connected : Bool) :
    s._warning.rank ≤ (determineWarning p s connected)._warning.rank := by
  cases connected
  · rw [determineWarning_not_connected]
  · rw [determineWarning_rule, warningRule_rank]
    exact le_max_left _ _

theorem updateState_warning (L : Libm K) (p : Params K) (s : State K) (a : UpdateArgs K) :
    (updateState L p s a)._warning
      = (determineWarning p
          (estimateRemaining L p
            (MBES_EKF L p
              (sumDischarged
                (filterCurrent
                  (estCurrentQ (filterVoltage s a.voltage_v) a.current_a a.throttle_normalized
                    a.motor_out)
                  a.current_a)
                a.timestamp a.current_a)
              a.timestamp a.voltage_v a.current_a)
            a.voltage_v a.current_a a.throttle_normalized a.armed)
          a.connected)._warning := rfl

theorem updateBatteryStatus_fst (L : Libm K) (p : Params K) (s : State K) (a : UpdateArgs K) :
    (updateBatteryStatus L p s a).1 = updateState L p s a := by
  unfold updateBatteryStatus
  dsimp only
  split_ifs <;> rfl

theorem updateState_warning_rank_le (L : Libm K) (p : Params K) (s : State K)
    (a : UpdateArgs K) : s._warning.rank ≤ (updateState L p s a)._warning.rank := by
  rw [updateState_warning]
  refine le_trans ?_ (determineWarning_rank_le _ _ _)
  simp

theorem updateState_warning_not_connected (L : Libm K) (p : Params K) (s : State K)
    (a : UpdateArgs K) (h : a.connected = false) :
    (updateState L p s a)._warning = s._warning := by
  rw [updateState_warning, h, determineWarning_not_connected]
  simp

theorem runUpdates_warning_rank_le (L : Libm K) (calls : List (Params K × UpdateArgs K)) :
    ∀ s : State K, s._warning.rank ≤ (runUpdates L s calls)._warning.rank := by
  induction calls with
  | nil => intro s; exact le_rfl
  | cons c rest ih =>
    intro s
    obtain ⟨p, a⟩ := c
    simp only [runUpdates]
    refine le_trans ?_ (ih _)
    rw [updateBatteryStatus_fst]
    exact updateState_warning_rank_le L p s a

/-- C1: from every estimator state, one `updateBatteryStatus` call never lowers
the warning level (`rank`: NONE < LOW < CRITICAL < EMERGENCY), whatever the
inputs; with `connected = false` the level is unchanged; hence after any
sequence of calls the level is at least the level before it. -/
theorem C1_warning_never_decreases (L : Libm K) (p : Params K) (s : State K)
    (a : UpdateArgs K) :
    s._warning.rank ≤ (updateBatteryStatus L p s a).1._warning.rank
      ∧ (a.connected = false → (updateBatteryStatus L p s a).1._warning = s._warning)
      ∧ ∀ calls : List (Params K × UpdateArgs K),
          s._warning.rank ≤ (runUpdates L s calls)._warning.rank := by
  refine ⟨?_, ?_, fun calls => runUpdates_warning_rank_le L calls s⟩
  · rw [updateBatteryStatus_fst]
    exact updateState_warning_rank_le L p s a
  · intro h
    rw [updateBatteryStatus_fst]
    exact updateState_warning_not_connected L p s a h

/-- C3: with `connected = true`, `determineWarning` sets the level the
transition rule of the spec prescribes (EMERGENCY if `remaining <
emergency_thr` or already EMERGENCY, else CRITICAL if `remaining < crit_thr` or
already CRITICAL, else LOW if `remaining < low_thr` or already LOW, else NONE),
and that level is the maximum of the previous level and the level the
thresholds assign to `remaining`. -/
theorem C3_determineWarning_rule (p : Params K) (s : State K) :
    (determineWarning p s true)._warning = warningRule p s._remaining s._warning
      ∧ (determineWarning p s true)._warning.rank
          = max s._warning.rank (thresholdLevel p s._remaining).rank := by
  refine ⟨determineWarning_rule p s, ?_⟩
  rw [determineWarning_rule, warningRule_rank]

end WarningLevel

/-! ## The output record -/

section Record

variable {K : Type} [LinearOrderedField K]

@[simp] theorem updateState_voltage_filtered_v (L : Libm K) (p : Params K) (s : State K)
    (a : UpdateArgs K) :
    (updateState L p s a)._voltage_filtered_v = (filterVoltage s a.voltage_v)._voltage_filtered_v := by
  simp [updateState]

@[simp] theorem updateState_current_est (L : Libm K) (p : Params K) (s : State K)
    (a : UpdateArgs K) :
    (updateState L p s a)._current_est = motorCurrent a.motor_out := by
  simp [updateState]

theorem updateState_current_filtered_a (L : Libm K) (p : Params K) (s : State K)
    (a : UpdateArgs K) :
    (updateState L p s a)._current_filtered_a
      = (filterCurrent (estCurrentQ s a.current_a a.throttle_normalized a.motor_out)
          a.current_a)._current_filtered_a := by
  simp [updateState, filterCurrent]

theorem updateState_last_timestamp (L : Libm K) (p : Params K) (s : State K)
    (a : UpdateArgs K) :
    (updateState L p s a)._last_timestamp
      = (sumDischarged (estCurrentQ s a.current_a a.throttle_normalized a.motor_out)
          a.timestamp a.current_a)._last_timestamp := by
  simp [updateState, sumDischarged_last_timestamp_eq]

theorem updateState_discharged_mah (L : Libm K) (p : Params K) (s : State K)
    (a : UpdateArgs K) :
    (updateState L p s a)._discharged_mah
      = (estimateRemaining L p
          (sumDischarged (estCurrentQ s a.current_a a.throttle_normalized a.motor_out)
            a.timestamp a.current_a)
          a.voltage_v a.current_a a.throttle_normalized a.armed)._discharged_mah := by
  simp only [updateState, computeScale_discharged_mah, determineWarning_discharged_mah]
  unfold estimateRemaining
  simp [sumDischarged_discharged_mah_eq]

theorem updateState_remaining_voltage (L : Libm K) (p : Params K) (s : State K)
    (a : UpdateArgs K) :
    (updateState L p s a)._remaining_voltage
      = (estimateRemaining L p s a.voltage_v a.current_a a.throttle_normalized
          a.armed)._remaining_voltage := by
  simp [updateState, estimateRemaining]

theorem updateState_remaining_capacity (L : Libm K) (p : Params K) (s : State K)
    (a : UpdateArgs K) :
    (updateState L p s a)._remaining_capacity
      = (estimateRemaining L p
          (sumDischarged (estCurrentQ s a.current_a a.throttle_normalized a.motor_out)
            a.timestamp a.current_a)
          a.voltage_v a.current_a a.throttle_normalized a.armed)._remaining_capacity := by
  simp only [updateState, computeScale_remaining_capacity, determineWarning_remaining_capacity]
  unfold estimateRemaining
  simp [sumDischarged_discharged_mah_eq]

theorem updateState_remaining (L : Libm K) (p : Params K) (s : State K) (a : UpdateArgs K) :
    (updateState L p s a)._remaining
      = if gt p.capacity (fin 0) then (updateState L p s a)._remaining_capacity
        else (updateState L p s a)._remaining_voltage := by
  simp only [updateState, computeScale_remaining, determineWarning_remaining,
    computeScale_remaining_capacity, determineWarning_remaining_capacity,
    computeScale_remaining_voltage, determineWarning_remaining_voltage]
  unfold estimateRemaining
  dsimp only

theorem updateState_scale (L : Libm K) (p : Params K) (s : State K) (a : UpdateArgs K) :
    (updateState L p s a)._scale
      = (computeScale p
          (estimateRemaining L p s a.voltage_v a.current_a a.throttle_normalized
            a.armed))._scale := by
  simp [updateState, computeScale, estimateRemaining]

theorem determineWarning_warning (p : Params K) (s : State K) (connected : Bool) :
    (determineWarning p s connected)._warning
      = if connected then warningRule p s._remaining s._warning else s._warning := by
  cases connected
  · rw [determineWarning_not_connected]; rfl
  · rw [determineWarning_rule]; rfl

theorem updateState_warning_eq (L : Libm K) (p : Params K) (s : State K) (a : UpdateArgs K) :
    (updateState L p s a)._warning
      = if a.connected then warningRule p (updateState L p s a)._remaining s._warning
        else s._warning := by
  rw [updateState_warning, determineWarning_warning]
  simp [updateState]

theorem updateBatteryStatus_snd_populated (L : Libm K) (p : Params K) (s : State K)
    (a : UpdateArgs K)
    (h : gt (updateBatteryStatus L p s a).1._voltage_filtered_v (fin (21 / 10)) = true) :
    (updateBatteryStatus L p s a).2.warning = (updateBatteryStatus L p s a).1._warning := by
  rw [updateBatteryStatus_fst] at h ⊢
  unfold updateBatteryStatus
  simp only [h, if_true]

theorem updateBatteryStatus_snd_withheld (L : Libm K) (p : Params K) (s : State K)
    (a : UpdateArgs K)
    (h : gt (updateBatteryStatus L p s a).1._voltage_filtered_v (fin (21 / 10)) = false) :
    (updateBatteryStatus L p s a).2 = { reset p with timestamp := a.timestamp } := by
  rw [updateBatteryStatus_fst] at h
  unfold updateBatteryStatus
  simp only [h]
  rfl

theorem runRecords_warning_chain (L : Libm K) (calls : List (Params K × UpdateArgs K)) :
    ∀ s : State K,
      (∀ st ∈ runStates L s calls, gt st._voltage_filtered_v (fin (21 / 10)) = true) →
      List.Pairwise (fun r1 r2 : battery_status_s K => r1.warning.rank ≤ r2.warning.rank)
          (runRecords L s calls)
        ∧ ∀ r ∈ runRecords L s calls, s._warning.rank ≤ r.warning.rank := by
  induction calls with
  | nil => intro s _; simp [runRecords]
  | cons c rest ih =>
    intro s h
    obtain ⟨p, a⟩ := c
    simp only [runStates, List.mem_cons, forall_eq_or_imp] at h
    obtain ⟨h1, hrest⟩ := h
    obtain ⟨ihp, ihle⟩ := ih _ hrest
    have hw := updateBatteryStatus_snd_populated L p s a h1
    have hstep : s._warning.rank ≤ (updateBatteryStatus L p s a).1._warning.rank := by
      rw [updateBatteryStatus_fst]
      exact updateState_warning_rank_le L p s a
    simp only [runRecords, List.pairwise_cons, List.mem_cons, forall_eq_or_imp]
    refine ⟨⟨fun r hr => ?_, ihp⟩, ?_, fun r hr => le_trans hstep (ihle r hr)⟩
    · rw [hw]
      exact ihle r hr
    · rw [hw]
      exact hstep

/-- C5: the record written by `updateBatteryStatus`.  When the filtered
voltage after the call is not above 2.1 V (`NaN` included) the record is the
reset record with only the timestamp and the cell count filled: voltage,
filtered voltage, filtered current, discharged charge, remaining error, source
flag and priority 0, current -1, remaining 1, scale 1, warning NONE, connected
false.  When it is above 2.1 V the fields carry the estimator's members and
the input flags. -/
theorem C5_record_withheld_below_validity_floor (L : Libm K) (p : Params K) (s : State K)
    (a : UpdateArgs K) :
    (updateBatteryStatus L p s a).2
      = if gt (updateBatteryStatus L p s a).1._voltage_filtered_v (fin (21 / 10)) then
          { timestamp := a.timestamp
            voltage_v := a.voltage_v
            voltage_filtered_v := (updateBatteryStatus L p s a).1._voltage_filtered_v
            current_a := (updateBatteryStatus L p s a).1._current_est
            current_filtered_a := (updateBatteryStatus L p s a).1._current_filtered_a
            discharged_mah := (updateBatteryStatus L p s a).1._discharged_mah
            remaining := (updateBatteryStatus L p s a).1._remaining
            remaining_error := (updateBatteryStatus L p s a).1._remaining_error
            scale := (updateBatteryStatus L p s a).1._scale
            cell_count := p.n_cells
            connected := a.connected
            system_source := a.selected_source
            priority := a.priority
            warning := (updateBatteryStatus L p s a).1._warning }
        else
          { timestamp := a.timestamp
            voltage_v := fin 0
            voltage_filtered_v := fin 0
            current_a := fin (-1)
            current_filtered_a := fin 0
            discharged_mah := fin 0
            remaining := fin 1
            remaining_error := fin 0
            scale := fin 1
            cell_count := p.n_cells
            connected := false
            system_source := false
            priority := 0
            warning := Warning.BATTERY_WARNING_NONE } := by
  rw [updateBatteryStatus_fst]
  unfold updateBatteryStatus
  dsimp only
  split_ifs <;> rfl

/-- C2 (amended): in every sequence of `updateBatteryStatus` calls after each
of which the filtered voltage is above 2.1 V (so that every record is
populated), the warning level written to the output record never decreases
from an earlier call to a later one, whatever the other inputs; a call after
which the filtered voltage is not above 2.1 V writes NONE, whatever the
estimator's level. -/
theorem C2_record_warning_monotone_while_populated (L : Libm K) (s : State K)
    (calls : List (Params K × UpdateArgs K))
    (h : ∀ st ∈ runStates L s calls, gt st._voltage_filtered_v (fin (21 / 10)) = true) :
    List.Pairwise (fun r1 r2 : battery_status_s K => r1.warning.rank ≤ r2.warning.rank)
        (runRecords L s calls)
      ∧ ∀ (p : Params K) (s2 : State K) (a : UpdateArgs K),
          gt (updateBatteryStatus L p s2 a).1._voltage_filtered_v (fin (21 / 10)) = false →
          (updateBatteryStatus L p s2 a).2.warning = Warning.BATTERY_WARNING_NONE := by
  refine ⟨(runRecords_warning_chain L calls s h).1, fun p s2 a hlow => ?_⟩
  rw [updateBatteryStatus_snd_withheld L p s2 a hlow]
  rfl

end Record

/-! ## C2: a populated record followed by a withheld one -/

section RecordWarningDrop

theorem motorCurrent_idle : motorCurrent (fun _ => (fin 0 : FVal ℚ)) = fin (136 / 100) := by
  simp [motorCurrent, estCurrentQ_body]
  norm_num

theorem lowPack_first_voltage (L : Libm ℚ) (junk : Mbes ℚ) :
    (updateState L packParams (State.new junk) (idleCall 1000 (211 / 100)))._voltage_filtered_v
      = fin (211 / 100) := by
  simp [filterVoltage, State.new, idleCall]
  norm_num

theorem lowPack_first_remaining (L : Libm ℚ) (junk : Mbes ℚ) :
    (updateState L packParams (State.new junk) (idleCall 1000 (211 / 100)))._remaining
      = fin (26531 / 28000) := by
  rw [updateState_remaining, updateState_remaining_voltage]
  simp [estimateRemaining, State.new, idleCall, packParams, FVal.ofInt]
  norm_num

theorem lowPack_first_warning (L : Libm ℚ) (junk : Mbes ℚ) :
    (updateState L packParams (State.new junk) (idleCall 1000 (211 / 100)))._warning
      = Warning.BATTERY_WARNING_LOW := by
  rw [updateState_warning_eq, lowPack_first_remaining]
  simp [warningRule, State.new, idleCall, packParams]
  norm_num

theorem lowPack_second_voltage (L : Libm ℚ) (junk : Mbes ℚ) :
    (updateState L packParams
        (updateState L packParams (State.new junk) (idleCall 1000 (211 / 100)))
        (idleCall 2000 0))._voltage_filtered_v
      = fin (20889 / 10000) := by
  rw [updateState_voltage_filtered_v]
  simp only [filterVoltage, lowPack_first_voltage]
  simp [idleCall]
  norm_num

/-- C2, counterexample: a fresh estimator of a four-cell pack, two calls with
`connected = true`.  The first reads 2.11 V: the record is populated and
carries LOW.  The second reads 0 V: the filtered voltage falls to 2.0889 V,
the record is withheld and its warning is NONE, below the previous record's. -/
theorem C2_counterexample :
    (idleCall 1000 (211 / 100)).connected = true ∧ (idleCall 2000 0).connected = true
      ∧ (runRecords approxLibm (State.new zeroMbes)
          [(packParams, idleCall 1000 (211 / 100)), (packParams, idleCall 2000 0)]).map
            (fun r => r.warning)
        = [Warning.BATTERY_WARNING_LOW, Warning.BATTERY_WARNING_NONE] := by
  refine ⟨rfl, rfl, ?_⟩
  have h1 : gt (updateBatteryStatus approxLibm packParams (State.new zeroMbes)
      (idleCall 1000 (211 / 100))).1._voltage_filtered_v (fin (21 / 10)) = true := by
    rw [updateBatteryStatus_fst, lowPack_first_voltage]
    simp
    norm_num
  have h2 : gt (updateBatteryStatus approxLibm packParams
      (updateBatteryStatus approxLibm packParams (State.new zeroMbes)
        (idleCall 1000 (211 / 100))).1 (idleCall 2000 0)).1._voltage_filtered_v
      (fin (21 / 10)) = false := by
    rw [updateBatteryStatus_fst, updateBatteryStatus_fst, lowPack_second_voltage]
    simp
    norm_num
  simp only [runRecords, List.map_cons, List.map_nil]
  rw [updateBatteryStatus_snd_populated _ _ _ _ h1, updateBatteryStatus_snd_withheld _ _ _ _ h2,
    updateBatteryStatus_fst, lowPack_first_warning]
  rfl

/-- Witness for C2 (amended): two calls reading 15 V on a fresh estimator keep
the filtered voltage at 15 V, above 2.1 V, and the records' warnings are
ordered. -/
theorem C2_witness :
    (∀ st ∈ runStates approxLibm (State.new zeroMbes)
        [(packParams, idleCall 1000 15), (packParams, idleCall 2000 15)],
        gt st._voltage_filtered_v (fin (21 / 10)) = true)
      ∧ List.Pairwise (fun r1 r2 : battery_status_s ℚ => r1.warning.rank ≤ r2.warning.rank)
          (runRecords approxLibm (State.new zeroMbes)
            [(packParams, idleCall 1000 15), (packParams, idleCall 2000 15)]) := by
  have h : ∀ st ∈ runStates approxLibm (State.new zeroMbes)
      [(packParams, idleCall 1000 15), (packParams, idleCall 2000 15)],
      gt st._voltage_filtered_v (fin (21 / 10)) = true := by
    have e1 : (updateState approxLibm packParams (State.new zeroMbes)
        (idleCall 1000 15))._voltage_filtered_v = fin 15 := by
      simp [filterVoltage, State.new, idleCall]
      norm_num
    intro st hst
    simp only [runStates, List.mem_cons, List.mem_nil_iff, or_false, updateBatteryStatus_fst]
      at hst
    rcases hst with rfl | rfl
    · rw [e1]
      simp
      norm_num
    · rw [updateState_voltage_filtered_v]
      simp only [filterVoltage, e1]
      simp [idleCall]
      norm_num
  exact ⟨h, (C2_record_warning_monotone_while_populated _ _ _ h).1⟩

end RecordWarningDrop

/-! ## C4: the clamped members stay in range -/

section Ranges

variable {K : Type} [LinearOrderedField K]

theorem inRange_finite {lo hi : K} {x : FVal K} (h : InRange lo hi x) : isFinite x = true := by
  cases x <;> simp_all [InRange, FVal.isFinite]

/-- The two-sided clamp of `estimateRemaining` applied to a finite value. -/
theorem clamp01_inRange (y : FVal K) (hy : isFinite y = true) :
    InRange 0 1
      (if gt (if lt y (fin 0) then fin 0 else y) (fin 1) then fin 1
        else (if lt y (fin 0) then fin 0 else y)) := by
  obtain ⟨v, rfl⟩ := (isFinite_iff y).1 hy
  by_cases h0 : v < 0
  · simp [h0, InRange]
    norm_num [InRange]
  · by_cases h1 : 1 < v
    · simp [h0, h1, InRange]
    · simp [h0, h1, InRange]
      exact ⟨not_lt.1 h0, not_lt.1 h1⟩

omit [LinearOrderedField K] in
/-- A filter stage keeps a finite member finite: the new value is taken only
if it is finite. -/
theorem keep_finite (x old : FVal K) (h : isFinite old = true) :
    isFinite (if isFinite x then x else old) = true := by
  by_cases hx : isFinite x = true
  · simp [hx]
  · simp [hx, h]

theorem estimateRemaining_remaining_voltage_inRange (L : Libm K) (p : Params K) (s : State K)
    (v c t : FVal K) (armed : Bool) (h : isFinite s._remaining_voltage = true) :
    InRange 0 1 (estimateRemaining L p s v c t armed)._remaining_voltage := by
  unfold estimateRemaining
  exact clamp01_inRange _ (keep_finite _ _ h)

theorem estimateRemaining_remaining_capacity_inRange (L : Libm K) (p : Params K) (s : State K)
    (v c t : FVal K) (armed : Bool) (h : isFinite s._remaining_capacity = true) :
    InRange 0 1 (estimateRemaining L p s v c t armed)._remaining_capacity := by
  unfold estimateRemaining
  exact clamp01_inRange _ (keep_finite _ _ h)

theorem computeScale_scale_inRange (p : Params K) (s : State K) :
    InRange 1 (13 / 10) (computeScale p s)._scale := by
  unfold computeScale
  dsimp only
  generalize p.v_full / (p.v_empty + (p.v_full - p.v_empty) * s._remaining_voltage) = x
  cases x with
  | fin v =>
    by_cases h1 : 13 / 10 < v
    · simp [h1, InRange]
      norm_num
    · by_cases h2 : v < 1
      · simp [h1, h2, InRange]
        norm_num
      · simp [h1, h2, InRange]
        exact ⟨not_lt.1 h2, not_lt.1 h1⟩
  | pinf =>
    simp [FVal.gt, FVal.lt, InRange]
    norm_num
  | ninf =>
    simp [FVal.gt, FVal.lt, InRange]
    norm_num
  | nan =>
    simp [InRange]
    norm_num

theorem bounded_new (junk : Mbes K) : Bounded (State.new junk) := by
  simp [Bounded, State.new, InRange]
  norm_num

theorem updateState_bounded (L : Libm K) (p : Params K) (s : State K) (a : UpdateArgs K)
    (h : Bounded s) : Bounded (updateState L p s a) := by
  obtain ⟨hv, hc, -, -⟩ := h
  have hv2 : InRange 0 1 (updateState L p s a)._remaining_voltage := by
    rw [updateState_remaining_voltage]
    exact estimateRemaining_remaining_voltage_inRange _ _ _ _ _ _ _ (inRange_finite hv)
  have hc2 : InRange 0 1 (updateState L p s a)._remaining_capacity := by
    rw [updateState_remaining_capacity]
    refine estimateRemaining_remaining_capacity_inRange _ _ _ _ _ _ _ ?_
    simpa using inRange_finite hc
  refine ⟨hv2, hc2, ?_, ?_⟩
  · rw [updateState_remaining]
    split_ifs
    · exact hc2
    · exact hv2
  · rw [updateState_scale]
    exact computeScale_scale_inRange _ _

theorem updateBatteryStatus_record_bounded (L : Libm K) (p : Params K) (s : State K)
    (a : UpdateArgs K) (h : Bounded (updateState L p s a)) :
    InRange 0 1 (updateBatteryStatus L p s a).2.remaining
      ∧ InRange 1 (13 / 10) (updateBatteryStatus L p s a).2.scale := by
  unfold updateBatteryStatus
  dsimp only
  split_ifs
  · exact ⟨h.2.2.1, h.2.2.2⟩
  · simp [reset, InRange]
    norm_num

theorem runUpdates_bounded (L : Libm K) (calls : List (Params K × UpdateArgs K)) :
    ∀ s : State K, Bounded s →
      Bounded (runUpdates L s calls)
        ∧ ∀ r ∈ runRecords L s calls, InRange 0 1 r.remaining ∧ InRange 1 (13 / 10) r.scale := by
  induction calls with
  | nil => intro s h; simpa [runUpdates, runRecords] using h
  | cons c rest ih =>
    intro s h
    obtain ⟨p, a⟩ := c
    have h1 : Bounded (updateState L p s a) := updateState_bounded L p s a h
    have hr := updateBatteryStatus_record_bounded L p s a h1
    simp only [runUpdates, runRecords, List.mem_cons, forall_eq_or_imp, updateBatteryStatus_fst]
    obtain ⟨ih1, ih2⟩ := ih _ h1
    exact ⟨ih1, hr, ih2⟩

/-- C4: starting from a freshly constructed estimator (whatever the
uninitialised filter members hold), after every sequence of
`updateBatteryStatus` calls, with any parameters and any inputs (finite or
not), remaining-by-voltage, remaining-by-capacity and the chosen remaining
fraction are finite and in `[0, 1]` and the scale is finite and in `[1, 1.3]`;
the `remaining` and `scale` fields of every record written obey the same
bounds. -/
theorem C4_remaining_and_scale_in_range (L : Libm K) (junk : Mbes K)
    (calls : List (Params K × UpdateArgs K)) :
    InRange 0 1 (runUpdates L (State.new junk) calls)._remaining_voltage
      ∧ InRange 0 1 (runUpdates L (State.new junk) calls)._remaining_capacity
      ∧ InRange 0 1 (runUpdates L (State.new junk) calls)._remaining
      ∧ InRange 1 (13 / 10) (runUpdates L (State.new junk) calls)._scale
      ∧ ∀ r ∈ runRecords L (State.new junk) calls,
          InRange 0 1 r.remaining ∧ InRange 1 (13 / 10) r.scale := by
  obtain ⟨⟨h1, h2, h3, h4⟩, h5⟩ := runUpdates_bounded L calls (State.new junk) (bounded_new junk)
  exact ⟨h1, h2, h3, h4, h5⟩

end Ranges

/-! ## The discharged-charge accumulator -/

section Coulomb

variable {K : Type} [LinearOrderedField K]

theorem hrt_sub_of_lt {a b : Nat} (hab : b ≤ a) (ha : a < 2 ^ 64) : hrt_sub a b = a - b := by
  unfold hrt_sub
  have hb : b % 2 ^ 64 = b := Nat.mod_eq_of_lt (lt_of_le_of_lt hab ha)
  rw [hb]
  have h2 : a + 2 ^ 64 - b = (a - b) + 2 ^ 64 := by omega
  rw [h2, Nat.add_mod_right]
  exact Nat.mod_eq_of_lt (lt_of_le_of_lt (Nat.sub_le a b) ha)

theorem add_fin_add_fin (d : FVal K) (x y : K) : d + fin x + fin y = d + fin (x + y) := by
  cases d
  · simp [add_assoc]
  · rfl
  · rfl
  · rfl

theorem add_fin_zero (d : FVal K) : d + fin 0 = d := by
  cases d
  · simp
  · rfl
  · rfl
  · rfl

/-- One armed call with a valid estimate `I` on a running baseline integrates
`I` over the time since the baseline. -/
theorem updateState_integrates (L : Libm K) (p : Params K) (s : State K) (a : UpdateArgs K)
    (I : K) (hI : 0 ≤ I) (hcur : motorCurrent a.motor_out = fin I) (harmed : a.armed = true)
    (h0 : s._last_timestamp ≠ 0) (hlt : s._last_timestamp ≤ a.timestamp)
    (hb : a.timestamp < 2 ^ 64) :
    (updateState L p s a)._discharged_mah
        = s._discharged_mah
          + fin (I * ((a.timestamp : K) - (s._last_timestamp : K)) / 1000 / 3600)
      ∧ (updateState L p s a)._last_timestamp = a.timestamp := by
  have hv : ¬ I < 0 := not_lt.2 hI
  constructor
  · rw [updateState_discharged_mah]
    unfold estimateRemaining
    simp only [harmed, sumDischarged_discharged_mah_eq, estCurrentQ_current_est, hcur,
      estCurrentQ_last_timestamp, estCurrentQ_discharged_mah]
    simp [hv, h0, hrt_sub_of_lt hlt hb, FVal.ofNat, Nat.cast_sub hlt]
  · rw [updateState_last_timestamp, sumDischarged_last_timestamp_eq]
    simp [hcur, hv]

/-- The first armed call with a valid estimate at a non-zero time sets the
baseline to its timestamp. -/
theorem updateState_sets_baseline (L : Libm K) (p : Params K) (s : State K) (a : UpdateArgs K)
    (I : K) (hI : 0 ≤ I) (hcur : motorCurrent a.motor_out = fin I) :
    (updateState L p s a)._last_timestamp = a.timestamp := by
  have hv : ¬ I < 0 := not_lt.2 hI
  rw [updateState_last_timestamp, sumDischarged_last_timestamp_eq]
  simp [hcur, hv]

theorem runUpdates_integrates (L : Libm K) (I : K) (hI : 0 ≤ I)
    (calls : List (Params K × UpdateArgs K)) :
    ∀ s : State K,
      (∀ c ∈ calls, motorCurrent c.2.motor_out = fin I) →
      (∀ c ∈ calls, c.2.armed = true) →
      s._last_timestamp ≠ 0 →
      List.Chain (fun t1 t2 : Nat => t1 < t2) s._last_timestamp
        (calls.map (fun c => c.2.timestamp)) →
      (∀ c ∈ calls, c.2.timestamp < 2 ^ 64) →
      (runUpdates L s calls)._discharged_mah
        = s._discharged_mah
          + fin (I * ((lastTimestamp s._last_timestamp calls : K) - (s._last_timestamp : K))
              / 1000 / 3600) := by
  induction calls with
  | nil =>
    intro s _ _ _ _ _
    simp [runUpdates, lastTimestamp, add_fin_zero]
  | cons c rest ih =>
    intro s hcur harmed h0 hts hb
    obtain ⟨p, a⟩ := c
    simp only [List.map_cons, List.chain_cons] at hts
    obtain ⟨hlt, hts⟩ := hts
    simp only [List.mem_cons, forall_eq_or_imp] at hcur harmed hb
    obtain ⟨hstep, hbase⟩ :=
      updateState_integrates L p s a I hI hcur.1 harmed.1 h0 (le_of_lt hlt) hb.1
    have hne : (updateState L p s a)._last_timestamp ≠ 0 := by
      rw [hbase]; omega
    have ih2 := ih (updateState L p s a) hcur.2 harmed.2 hne (by rw [hbase]; exact hts) hb.2
    simp only [runUpdates, lastTimestamp, updateBatteryStatus_fst]
    rw [ih2, hstep, hbase, add_fin_add_fin]
    congr 2
    ring

/-- C7: in a sequence of calls at non-zero, strictly increasing timestamps
`t0 < t1 < ... < tn` (microseconds, below `2^64`) in which the current
estimated from the motor commands is the same value `I >= 0` at every call and
the vehicle stays armed, the discharged-charge accumulator after the last call
is its value after the first call plus exactly `I * (tn - t0) / 1e3 / 3600`,
however the interval is split into calls. -/
theorem C7_discharged_is_current_times_time (L : Libm K) (s : State K) (I : K)
    (p0 : Params K) (a0 : UpdateArgs K) (calls : List (Params K × UpdateArgs K))
    (hI : 0 ≤ I)
    (hcur : ∀ c ∈ (p0, a0) :: calls, motorCurrent c.2.motor_out = fin I)
    (harmed : ∀ c ∈ (p0, a0) :: calls, c.2.armed = true)
    (hpos : a0.timestamp ≠ 0)
    (hts : List.Chain (fun t1 t2 : Nat => t1 < t2) a0.timestamp
      (calls.map (fun c => c.2.timestamp)))
    (hb : ∀ c ∈ (p0, a0) :: calls, c.2.timestamp < 2 ^ 64) :
    (runUpdates L s ((p0, a0) :: calls))._discharged_mah
      = (updateBatteryStatus L p0 s a0).1._discharged_mah
        + fin (I * ((lastTimestamp a0.timestamp calls : K) - (a0.timestamp : K))
            / 1000 / 3600) := by
  simp only [List.mem_cons, forall_eq_or_imp] at hcur harmed hb
  have hbase := updateState_sets_baseline L p0 s a0 I hI hcur.1
  have h := runUpdates_integrates L I hI calls (updateState L p0 s a0) hcur.2 harmed.2
    (by rw [hbase]; exact hpos) (by rw [hbase]; exact hts) hb.2
  simp only [runUpdates, updateBatteryStatus_fst]
  rw [h, hbase]

/-- C8: `sumDischarged` and the baseline, for a valid estimate `est` (not
negative) computed from the motor commands `mot`.  On the first call after
construction (`sumDischarged` runs after `filterVoltage`, `estCurrentQ` and
`filterCurrent`) it only records the timestamp.  A call with an invalid
(negative) estimate only sets the baseline to 0, and the next valid call only
records its timestamp: the accumulator is the one before the invalid call and
the gap is never integrated. -/
theorem C8_sumDischarged_skips_first_and_gap (s : State K) (junk : Mbes K) (t1 t2 : Nat)
    (v c1 c2 th est : FVal K) (mot : Fin 4 → FVal K) (hval : lt est (fin 0) = false)
    (hmot : motorCurrent mot = est) :
    sumDischarged (filterCurrent (estCurrentQ (filterVoltage (State.new junk) v) c2 th mot) c2)
          t2 c2
        = { filterCurrent (estCurrentQ (filterVoltage (State.new junk) v) c2 th mot) c2 with
            _last_timestamp := t2 }
      ∧ (sumDischarged
            (filterCurrent (estCurrentQ (filterVoltage (State.new junk) v) c2 th mot) c2)
            t2 c2)._discharged_mah = fin 0
      ∧ (lt s._current_est (fin 0) = true →
          sumDischarged s t1 c1 = { s with _last_timestamp := 0 }
            ∧ sumDischarged { sumDischarged s t1 c1 with _current_est := est } t2 c2
                = { s with _current_est := est, _last_timestamp := t2 }) := by
  have hfirst : sumDischarged
      (filterCurrent (estCurrentQ (filterVoltage (State.new junk) v) c2 th mot) c2) t2 c2
      = { filterCurrent (estCurrentQ (filterVoltage (State.new junk) v) c2 th mot) c2 with
          _last_timestamp := t2 } := by
    unfold sumDischarged
    simp only [filterCurrent_current_est, estCurrentQ_current_est, hmot, hval,
      filterCurrent_last_timestamp, estCurrentQ_last_timestamp, filterVoltage_last_timestamp,
      filterCurrent_discharged_mah, estCurrentQ_discharged_mah, filterVoltage_discharged_mah]
    simp [State.new]
  refine ⟨hfirst, ?_, ?_⟩
  · rw [hfirst]
    simp [State.new]
  · intro hinv
    have h1 : sumDischarged s t1 c1 = { s with _last_timestamp := 0 } := by
      simp [sumDischarged, hinv]
    refine ⟨h1, ?_⟩
    rw [h1]
    simp [sumDischarged, hval]

/-- C9: a call with `armed = false` leaves in the discharged accumulator
`capacity * (100 - OCV2SOC(voltage_v / n_cells)) / 100`, whatever it held
before, and a populated record carries that value; with `armed = true`
`estimateRemaining` leaves the accumulator as it was. -/
theorem C9_disarmed_recalibrates_discharged (L : Libm K) (p : Params K) (s : State K)
    (a : UpdateArgs K) (hdis : a.armed = false) :
    (updateBatteryStatus L p s a).1._discharged_mah
        = p.capacity * (fin 100 - OCV2SOC L (a.voltage_v / ofInt p.n_cells)) / fin 100
      ∧ (gt (updateBatteryStatus L p s a).1._voltage_filtered_v (fin (21 / 10)) = true →
          (updateBatteryStatus L p s a).2.discharged_mah
            = p.capacity * (fin 100 - OCV2SOC L (a.voltage_v / ofInt p.n_cells)) / fin 100)
      ∧ ∀ (s2 : State K) (v c t : FVal K),
          (estimateRemaining L p s2 v c t true)._discharged_mah = s2._discharged_mah := by
  have h1 : (updateState L p s a)._discharged_mah
      = p.capacity * (fin 100 - OCV2SOC L (a.voltage_v / ofInt p.n_cells)) / fin 100 := by
    rw [updateState_discharged_mah]
    unfold estimateRemaining
    simp [hdis]
  refine ⟨by rw [updateBatteryStatus_fst]; exact h1, ?_, fun s2 v c t => rfl⟩
  intro hpop
  rw [updateBatteryStatus_fst] at hpop
  unfold updateBatteryStatus
  simp only [hpop, if_true]
  exact h1

end Coulomb

/-! ## Evaluations on sample inputs -/

section Samples

/-- Witness for C7: three idle calls (1.36 A estimated) at 1000, 2000 and
4000 microseconds. -/
theorem C7_witness :
    (0 : ℚ) ≤ 136 / 100
      ∧ (runUpdates approxLibm (State.new zeroMbes)
          [(packParams, idleCall 1000 15), (packParams, idleCall 2000 15),
            (packParams, idleCall 4000 15)])._discharged_mah
        = (updateBatteryStatus approxLibm packParams (State.new zeroMbes)
            (idleCall 1000 15)).1._discharged_mah
          + fin ((136 / 100 : ℚ)
              * (((lastTimestamp (idleCall 1000 15).timestamp
                    [(packParams, idleCall 2000 15), (packParams, idleCall 4000 15)] : Nat) : ℚ)
                  - (((idleCall 1000 15).timestamp : Nat) : ℚ))
              / 1000 / 3600) := by
  have hI : (0 : ℚ) ≤ 136 / 100 := by norm_num
  refine ⟨hI, ?_⟩
  refine C7_discharged_is_current_times_time approxLibm (State.new zeroMbes) (136 / 100)
    packParams (idleCall 1000 15) [(packParams, idleCall 2000 15), (packParams, idleCall 4000 15)]
    hI ?_ ?_ ?_ ?_ ?_
  · intro c hc
    simp only [List.mem_cons, List.mem_nil_iff, or_false] at hc
    rcases hc with rfl | rfl | rfl <;> exact motorCurrent_idle
  · intro c hc
    simp only [List.mem_cons, List.mem_nil_iff, or_false] at hc
    rcases hc with rfl | rfl | rfl <;> rfl
  · simp [idleCall]
  · simp [idleCall]
  · intro c hc
    simp only [List.mem_cons, List.mem_nil_iff, or_false] at hc
    rcases hc with rfl | rfl | rfl <;> simp [idleCall]

/-- Witness for C8: idle motors give the valid estimate 1.36 A; the fresh
estimator holds the invalid estimate -1. -/
theorem C8_witness :
    lt (fin (136 / 100) : FVal ℚ) (fin 0) = false
      ∧ motorCurrent (fun _ => (fin 0 : FVal ℚ)) = fin (136 / 100)
      ∧ lt (State.new zeroMbes)._current_est (fin 0) = true
      ∧ sumDischarged
          { sumDischarged (State.new zeroMbes) 1000 (fin 0) with _current_est := fin (136 / 100) }
          2000 (fin 0)
        = { State.new zeroMbes with _current_est := fin (136 / 100), _last_timestamp := 2000 } := by
  have hval : lt (fin (136 / 100) : FVal ℚ) (fin 0) = false := by
    simp
    norm_num
  have hinv : lt (State.new zeroMbes)._current_est (fin 0) = true := by
    simp [State.new]
  exact ⟨hval, motorCurrent_idle, hinv,
    ((C8_sumDischarged_skips_first_and_gap (State.new zeroMbes) zeroMbes 1000 2000 (fin 15)
      (fin 0) (fin 0) (fin 0) (fin (136 / 100)) (fun _ => fin 0) hval
      motorCurrent_idle).2.2 hinv).2⟩

/-- Witness for C9: a disarmed call on a fresh estimator. -/
theorem C9_witness :
    ({ idleCall 1000 15 with armed := false } : UpdateArgs ℚ).armed = false
      ∧ (updateBatteryStatus approxLibm loadedPack (State.new zeroMbes)
          { idleCall 1000 15 with armed := false }).1._discharged_mah
        = loadedPack.capacity
            * (fin 100
                - OCV2SOC approxLibm
                    (({ idleCall 1000 15 with armed := false } : UpdateArgs ℚ).voltage_v
                      / ofInt loadedPack.n_cells))
            / fin 100 :=
  ⟨rfl, (C9_disarmed_recalibrates_discharged approxLibm loadedPack (State.new zeroMbes)
    { idleCall 1000 15 with armed := false } rfl).1⟩

/-- C6, the code at a failing input: on a pack with known internal resistance
(10 mOhm) two first calls that differ only in the measured current (0 A and
100 A) leave different values in `_remaining_voltage` and write different
`scale` fields: `estimateRemaining` lowers the empty voltage by
`current_a * r_internal` with the measured current. -/
theorem C6_measured_current_reaches_the_estimate :
    (updateBatteryStatus approxLibm loadedPack (State.new zeroMbes)
        (idleCall 1000 15)).1._remaining_voltage = fin (1391 / 1400)
      ∧ (updateBatteryStatus approxLibm loadedPack (State.new zeroMbes)
          { idleCall 1000 15 with current_a := fin 100 }).1._remaining_voltage = fin 1
      ∧ (updateBatteryStatus approxLibm loadedPack (State.new zeroMbes)
          (idleCall 1000 15)).2.scale = fin (2800 / 2797)
      ∧ (updateBatteryStatus approxLibm loadedPack (State.new zeroMbes)
          { idleCall 1000 15 with current_a := fin 100 }).2.scale = fin 1 := by
  have e1 : (updateState approxLibm loadedPack (State.new zeroMbes)
      (idleCall 1000 15))._remaining_voltage = fin (1391 / 1400) := by
    rw [updateState_remaining_voltage]
    simp [estimateRemaining, State.new, idleCall, loadedPack, FVal.ofInt]
    norm_num
  have e2 : (updateState approxLibm loadedPack (State.new zeroMbes)
      { idleCall 1000 15 with current_a := fin 100 })._remaining_voltage = fin 1 := by
    rw [updateState_remaining_voltage]
    simp [estimateRemaining, State.new, idleCall, loadedPack, FVal.ofInt]
    norm_num
  have v1 : gt (updateState approxLibm loadedPack (State.new zeroMbes)
      (idleCall 1000 15))._voltage_filtered_v (fin (21 / 10)) = true := by
    simp [filterVoltage, State.new, idleCall]
    norm_num
  have v2 : gt (updateState approxLibm loadedPack (State.new zeroMbes)
      { idleCall 1000 15 with current_a := fin 100 })._voltage_filtered_v (fin (21 / 10))
      = true := by
    simp [filterVoltage, State.new, idleCall]
    norm_num
  have s1 : (updateState approxLibm loadedPack (State.new zeroMbes)
      (idleCall 1000 15))._scale = fin (2800 / 2797) := by
    rw [updateState_scale]
    unfold computeScale
    rw [← updateState_remaining_voltage, e1]
    simp [loadedPack]
    norm_num
  have s2 : (updateState approxLibm loadedPack (State.new zeroMbes)
      { idleCall 1000 15 with current_a := fin 100 })._scale = fin 1 := by
    rw [updateState_scale]
    unfold computeScale
    rw [← updateState_remaining_voltage, e2]
    simp [loadedPack]
    norm_num
  refine ⟨by rw [updateBatteryStatus_fst]; exact e1, by rw [updateBatteryStatus_fst]; exact e2,
    ?_, ?_⟩
  · unfold updateBatteryStatus
    simp only [v1, if_true]
    exact s1
  · unfold updateBatteryStatus
    simp only [v2, if_true]
    exact s2

end Samples

/-! ## Newton's iteration on a curve with a valley-shaped slope -/

namespace NewtonCurve

variable {F D : ℝ → ℝ} {m M c : ℝ} (h : NewtonCurve F D m M c)
include h

theorem D_pos (x : ℝ) : 0 < D x := lt_of_lt_of_le h.m_pos (h.lower x)

theorem M_pos : 0 < M := lt_of_lt_of_le (h.D_pos 0) (h.upper 0)

theorem m_le_M : m ≤ M := le_trans (h.lower 0) (h.upper 0)

theorem F_mono {a b : ℝ} (hab : a ≤ b) : F a ≤ F b := by
  have h1 := h.mvi_lower a b m hab (fun x _ _ => h.lower x)
  have h2 : 0 ≤ m * (b - a) := mul_nonneg h.m_pos.le (sub_nonneg.2 hab)
  linarith

theorem F_lower {a b : ℝ} (hab : a ≤ b) : m * (b - a) ≤ F b - F a :=
  h.mvi_lower a b m hab (fun x _ _ => h.lower x)

theorem F_upper {a b : ℝ} (hab : a ≤ b) : F b - F a ≤ M * (b - a) :=
  h.mvi_upper a b M hab (fun x _ _ => h.upper x)

/-- The Newton step times the slope is the residual. -/
theorem step_mul (y a : ℝ) : (F a - y) / D a * D a = F a - y :=
  div_mul_cancel₀ _ (h.D_pos a).ne'


/-- A step shorter than the tolerance ends within the tolerance of the root. -/
theorem accurate {r y a : ℝ} (hr : F r = y)
    (hs : |a - (F a - y) / D a - a| < 1 / 100) :
    |a - (F a - y) / D a - r| < 1 / 100 := by
  have hD := h.D_pos a
  have hmul := h.step_mul y a
  set s := (F a - y) / D a with hsdef
  have hs2 : |s| < 1 / 100 := by
    have : a - s - a = -s := by ring
    rw [this, abs_neg] at hs
    exact hs
  obtain ⟨hs3, hs4⟩ := abs_lt.1 hs2
  rcases le_total r a with hra | har
  · -- the iterate is right of the root
    have hg : 0 ≤ F a - y := by
      have := h.F_mono hra
      linarith
    have hs0 : 0 ≤ s := div_nonneg hg hD.le
    rw [abs_lt]
    refine ⟨by linarith, ?_⟩
    by_contra hcon
    have hcon : 1 / 100 ≤ a - s - r := not_lt.1 hcon
    have hb : r ≤ a - s - 1 / 100 := by linarith
    have h1 := h.mvi_lower (a - s - 1 / 100) a (D a / 2) (by linarith) (fun x hx1 hx2 => by
      have hx : |x - a| ≤ 2 / 100 := by
        rw [abs_le]
        constructor <;> linarith
      have := h.reg a x hx
      linarith)
    have h2 := h.F_mono hb
    have h3 : D a / 2 * (s + 1 / 100) ≤ s * D a := by
      have e : a - (a - s - 1 / 100) = s + 1 / 100 := by ring
      rw [e] at h1
      linarith
    nlinarith
  · -- the iterate is left of the root
    have hg : F a - y ≤ 0 := by
      have := h.F_mono har
      linarith
    have hs0 : s ≤ 0 := div_nonpos_of_nonpos_of_nonneg hg hD.le
    rw [abs_lt]
    refine ⟨?_, by linarith⟩
    by_contra hcon
    have hcon : a - s - r ≤ -(1 / 100) := not_lt.1 hcon
    have hb : a - s + 1 / 100 ≤ r := by linarith
    have h1 := h.mvi_lower a (a - s + 1 / 100) (D a / 2) (by linarith) (fun x hx1 hx2 => by
      have hx : |x - a| ≤ 2 / 100 := by
        rw [abs_le]
        constructor <;> linarith
      have := h.reg a x hx
      linarith)
    have h2 := h.F_mono hb
    have h3 : D a / 2 * (-s + 1 / 100) ≤ -s * D a := by
      have e : a - s + 1 / 100 - a = -s + 1 / 100 := by ring
      rw [e] at h1
      linarith
    nlinarith

/-- While the loop goes on, the potential `|F a - y| * D a` is at least `m ^ 2 / 100`. -/
theorem potential_ge {y a : ℝ} (hs : ¬ |a - (F a - y) / D a - a| < 1 / 100) :
    m ^ 2 / 100 ≤ |F a - y| * D a := by
  have hD := h.D_pos a
  have hm := h.lower a
  have e : a - (F a - y) / D a - a = -((F a - y) / D a) := by ring
  rw [e, abs_neg, abs_div, abs_of_pos hD, not_lt, le_div_iff₀ hD] at hs
  have : m ^ 2 ≤ D a ^ 2 := by
    have := h.m_pos
    nlinarith
  nlinarith

/-- No step multiplies the potential by more than `(M / m) ^ 2`. -/
theorem potential_any {r y a : ℝ} (hr : F r = y) :
    |F (a - (F a - y) / D a) - y| * D (a - (F a - y) / D a)
      ≤ (M / m) ^ 2 * (|F a - y| * D a) := by
  have hD := h.D_pos a
  have hmul := h.step_mul y a
  have hmp := h.m_pos
  set s := (F a - y) / D a with hsdef
  -- the new iterate is within `|F a - y| / m` of the root
  have hdist : |a - s - r| ≤ |F a - y| / m := by
    rw [le_div_iff₀ hmp]
    rcases le_total r a with hra | har
    · have hg : 0 ≤ F a - y := by
        have := h.F_mono hra
        linarith
      have hs0 : 0 ≤ s := div_nonneg hg hD.le
      have hl := h.F_lower hra
      have hsm : s * m ≤ F a - y := by
        have := h.lower a
        nlinarith
      rw [abs_of_nonneg hg]
      rcases le_total r (a - s) with h1 | h1
      · rw [abs_of_nonneg (by linarith)]
        rw [hr] at hl
        nlinarith
      · rw [abs_of_nonpos (by linarith)]
        nlinarith
    · have hg : F a - y ≤ 0 := by
        have := h.F_mono har
        linarith
      have hs0 : s ≤ 0 := div_nonpos_of_nonpos_of_nonneg hg hD.le
      have hl := h.F_lower har
      have hsm : F a - y ≤ s * m := by
        have := h.lower a
        nlinarith
      rw [abs_of_nonpos hg]
      rcases le_total r (a - s) with h1 | h1
      · rw [abs_of_nonneg (by linarith)]
        nlinarith
      · rw [abs_of_nonpos (by linarith)]
        rw [hr] at hl
        nlinarith
  -- hence the new residual is at most `M / m` times the old one
  have hres : |F (a - s) - y| ≤ M * |a - s - r| := by
    rcases le_total r (a - s) with h1 | h1
    · have hu := h.F_upper h1
      have hmo := h.F_mono h1
      rw [hr] at hu hmo
      rw [abs_of_nonneg (by linarith), abs_of_nonneg (by linarith)]
      exact hu
    · have hu := h.F_upper h1
      have hmo := h.F_mono h1
      rw [hr] at hu hmo
      rw [abs_of_nonpos (by linarith), abs_of_nonpos (by linarith)]
      linarith
  have hM := h.M_pos
  have hup := h.upper (a - s)
  have hlo := h.lower a
  have habs : 0 ≤ |F a - y| := abs_nonneg _
  have h1 : |F (a - s) - y| ≤ M * (|F a - y| / m) :=
    le_trans hres (mul_le_mul_of_nonneg_left hdist hM.le)
  have h2 : |F (a - s) - y| * D (a - s) ≤ M * (|F a - y| / m) * M :=
    mul_le_mul h1 hup (h.D_pos _).le (by positivity)
  have h3 : M * (|F a - y| / m) * M ≤ (M / m) ^ 2 * (|F a - y| * D a) := by
    have e : (M / m) ^ 2 * (|F a - y| * D a) = M * (|F a - y| / m) * M * (D a / m) := by
      field_simp
      ring
    rw [e]
    have : 1 ≤ D a / m := by
      rw [le_div_iff₀ hmp]
      linarith
    have hnn : 0 ≤ M * (|F a - y| / m) * M := by positivity
    nlinarith
  linarith


omit h in
/-- A step that stays on the side of the root, towards a smaller slope, divides
the potential by four. -/
theorem potential_quarter {y a : ℝ} (s g2 d2 : ℝ) (hs0 : 0 ≤ s) (hd2 : 0 < d2)
    (_hg2 : 0 ≤ g2) (hsD : s * D a = |F a - y|) (hle : g2 ≤ s * (D a - d2)) :
    g2 * d2 ≤ |F a - y| * D a / 4 := by
  have h1 : g2 * d2 ≤ s * (D a - d2) * d2 := mul_le_mul_of_nonneg_right hle hd2.le
  have h2 : s * (D a - d2) * d2 ≤ s * (D a * D a) / 4 := by
    have : (D a - d2) * d2 ≤ D a * D a / 4 := by nlinarith [sq_nonneg (D a / 2 - d2)]
    nlinarith
  have h3 : s * (D a * D a) = |F a - y| * D a := by rw [← hsD]; ring
  linarith

theorem settled_step {r y a : ℝ} (hr : F r = y) (hp : Settled c r a) :
    Settled c r (a - (F a - y) / D a)
      ∧ |F (a - (F a - y) / D a) - y| * D (a - (F a - y) / D a) ≤ |F a - y| * D a / 4 := by
  have hD := h.D_pos a
  have hmul := h.step_mul y a
  set s := (F a - y) / D a with hsdef
  rcases hp with ⟨hcr, hra⟩ | ⟨har, hrc⟩
  · have hg : 0 ≤ F a - y := by
      have := h.F_mono hra
      linarith
    have hs0 : 0 ≤ s := div_nonneg hg hD.le
    have hup := h.mvi_upper r a (D a) hra (fun x hx1 hx2 => h.mono x a (le_trans hcr hx1) hx2)
    have hsr : r ≤ a - s := by
      rw [hr] at hup
      have : s * D a ≤ D a * (a - r) := by linarith
      nlinarith
    refine ⟨Or.inl ⟨hcr, hsr⟩, ?_⟩
    have hlo := h.mvi_lower (a - s) a (D (a - s)) (by linarith)
      (fun x hx1 hx2 => h.mono (a - s) x (le_trans hcr hsr) hx1)
    have hg2 : 0 ≤ F (a - s) - y := by
      have := h.F_mono hsr
      linarith
    rw [abs_of_nonneg hg2]
    refine potential_quarter s _ _ hs0 (h.D_pos _) hg2 (by rw [abs_of_nonneg hg]; exact hmul) ?_
    have e : a - (a - s) = s := by ring
    rw [e] at hlo
    nlinarith
  · have hg : F a - y ≤ 0 := by
      have := h.F_mono har
      linarith
    have hs0 : s ≤ 0 := div_nonpos_of_nonpos_of_nonneg hg hD.le
    have hup := h.mvi_upper a r (D a) har (fun x hx1 hx2 => h.anti a x hx1 (le_trans hx2 hrc))
    have hsr : a - s ≤ r := by
      rw [hr] at hup
      have : -s * D a ≤ D a * (r - a) := by linarith
      nlinarith
    refine ⟨Or.inr ⟨hsr, hrc⟩, ?_⟩
    have hlo := h.mvi_lower a (a - s) (D (a - s)) (by linarith)
      (fun x hx1 hx2 => h.anti x (a - s) hx2 (le_trans hsr hrc))
    have hg2 : F (a - s) - y ≤ 0 := by
      have := h.F_mono hsr
      linarith
    rw [abs_of_nonpos hg2]
    refine potential_quarter (-s) _ _ (by linarith) (h.D_pos _) (by linarith)
      (by rw [abs_of_nonpos hg]; linarith) ?_
    have e : a - s - a = -s := by ring
    rw [e] at hlo
    nlinarith

theorem inward_step {r y a : ℝ} (hr : F r = y) (hp : Inward c r a) :
    Settled c r (a - (F a - y) / D a) := by
  have hD := h.D_pos a
  have hmul := h.step_mul y a
  set s := (F a - y) / D a with hsdef
  rcases hp with ⟨hca, har⟩ | ⟨hra, hac⟩
  · have hlo := h.mvi_lower a r (D a) har (fun x hx1 hx2 => h.mono a x hca hx1)
    rw [hr] at hlo
    refine Or.inl ⟨le_trans hca har, ?_⟩
    have : D a * (r - a) ≤ -s * D a := by linarith
    nlinarith
  · have hlo := h.mvi_lower r a (D a) hra (fun x hx1 hx2 => h.anti x a hx2 hac)
    rw [hr] at hlo
    refine Or.inr ⟨?_, le_trans hra hac⟩
    have : D a * (a - r) ≤ s * D a := by linarith
    nlinarith

theorem outer_step {r y a : ℝ} (hr : F r = y) (hrc : r ≤ c) (hca : c ≤ a) :
    (c ≤ a - (F a - y) / D a
        ∧ |F (a - (F a - y) / D a) - y| * D (a - (F a - y) / D a) ≤ |F a - y| * D a / 4)
      ∨ Settled c r (a - (F a - y) / D a) ∨ Inward c r (a - (F a - y) / D a) := by
  have hD := h.D_pos a
  have hmul := h.step_mul y a
  set s := (F a - y) / D a with hsdef
  have hg : 0 ≤ F a - y := by
    have := h.F_mono (le_trans hrc hca)
    linarith
  have hs0 : 0 ≤ s := div_nonneg hg hD.le
  rcases le_or_lt c (a - s) with h1 | h1
  · left
    refine ⟨h1, ?_⟩
    have hlo := h.mvi_lower (a - s) a (D (a - s)) (by linarith)
      (fun x hx1 hx2 => h.mono (a - s) x h1 hx1)
    have hg2 : 0 ≤ F (a - s) - y := by
      have := h.F_mono (le_trans hrc h1)
      linarith
    rw [abs_of_nonneg hg2]
    refine potential_quarter s _ _ hs0 (h.D_pos _) hg2 (by rw [abs_of_nonneg hg]; exact hmul) ?_
    have e : a - (a - s) = s := by ring
    rw [e] at hlo
    nlinarith
  · right
    rcases le_total (a - s) r with h2 | h2
    · exact Or.inl (Or.inr ⟨h2, hrc⟩)
    · exact Or.inr (Or.inr ⟨h2, h1.le⟩)


theorem one_le_ratio : 1 ≤ M / m := by
  rw [le_div_iff₀ h.m_pos]
  linarith [h.m_le_M]

theorem le_ratio_sq_mul {x : ℝ} (hx : 0 ≤ x) : x ≤ (M / m) ^ 2 * x :=
  le_mul_of_one_le_left hx (one_le_pow₀ h.one_le_ratio)

theorem ratio_sq_le_ratio_four {x : ℝ} (hx : 0 ≤ x) : (M / m) ^ 2 * x ≤ (M / m) ^ 4 * x := by
  have e : (M / m) ^ 4 * x = (M / m) ^ 2 * ((M / m) ^ 2 * x) := by ring
  rw [e]
  exact h.le_ratio_sq_mul (by positivity)

omit h in
/-- A step shorter than the tolerance ends the loop, whatever the fuel left. -/
theorem newtonLoop_stop {y a : ℝ} (i : Nat)
    (hs : |a - (F a - y) / D a - a| < 1 / 100) :
    ∀ n, 1 ≤ n → newtonLoop F D y n i a = a - (F a - y) / D a := by
  intro n hn
  obtain ⟨n, rfl⟩ : ∃ k, n = k + 1 := ⟨n - 1, by omega⟩
  simp only [newtonLoop, hs, if_true]

omit h in
/-- A longer step below the iteration cap hands over to the next iteration. -/
theorem newtonLoop_next {y a : ℝ} {i : Nat} (hi : i ≠ 999)
    (hs : ¬ |a - (F a - y) / D a - a| < 1 / 100) (n : Nat) :
    newtonLoop F D y (n + 1) i a = newtonLoop F D y n (i + 1) (a - (F a - y) / D a) := by
  simp only [newtonLoop, hs, if_false, hi]

/-- In the settled phase the loop converges within `f + 1` iterations when the
potential is below `m^2/100 * 4^f`: with that much fuel or more it returns one
value, within the tolerance of the root. -/
theorem settled_converges {r y : ℝ} (hr : F r = y) :
    ∀ (f i : Nat) (a : ℝ), Settled c r a →
      |F a - y| * D a < m ^ 2 / 100 * 4 ^ f → i + f ≤ 999 →
      ∃ v, |v - r| < 1 / 100 ∧ ∀ n, f + 1 ≤ n → newtonLoop F D y n i a = v := by
  intro f
  induction f with
  | zero =>
    intro i a hp hpot _
    by_cases hs : |a - (F a - y) / D a - a| < 1 / 100
    · exact ⟨_, h.accurate hr hs, fun n hn => newtonLoop_stop i hs n (by omega)⟩
    · have := h.potential_ge hs
      simp only [pow_zero, mul_one] at hpot
      linarith
  | succ f ih =>
    intro i a hp hpot hi
    by_cases hs : |a - (F a - y) / D a - a| < 1 / 100
    · exact ⟨_, h.accurate hr hs, fun n hn => newtonLoop_stop i hs n (by omega)⟩
    · have hi2 : i ≠ 999 := by omega
      obtain ⟨hp2, hq⟩ := h.settled_step hr hp
      have e : (4 : ℝ) ^ (f + 1) = 4 ^ f * 4 := pow_succ 4 f
      rw [e] at hpot
      obtain ⟨v, hv, hn⟩ := ih (i + 1) _ hp2 (by linarith) (by omega)
      refine ⟨v, hv, fun n hn2 => ?_⟩
      obtain ⟨n, rfl⟩ : ∃ k, n = k + 1 := ⟨n - 1, by omega⟩
      rw [newtonLoop_next hi2 hs]
      exact hn n (by omega)

/-- In the inward phase one more iteration may be needed. -/
theorem inward_converges {r y : ℝ} (hr : F r = y) (f i : Nat) (a : ℝ) (hp : Inward c r a)
    (hpot : (M / m) ^ 2 * (|F a - y| * D a) < m ^ 2 / 100 * 4 ^ f) (hi : i + f + 1 ≤ 999) :
    ∃ v, |v - r| < 1 / 100 ∧ ∀ n, f + 2 ≤ n → newtonLoop F D y n i a = v := by
  by_cases hs : |a - (F a - y) / D a - a| < 1 / 100
  · exact ⟨_, h.accurate hr hs, fun n hn => newtonLoop_stop i hs n (by omega)⟩
  · have hi2 : i ≠ 999 := by omega
    obtain ⟨v, hv, hn⟩ := h.settled_converges hr f (i + 1) _ (h.inward_step hr hp)
      (lt_of_le_of_lt (h.potential_any hr) hpot) (by omega)
    refine ⟨v, hv, fun n hn2 => ?_⟩
    obtain ⟨n, rfl⟩ : ∃ k, n = k + 1 := ⟨n - 1, by omega⟩
    rw [newtonLoop_next hi2 hs]
    exact hn n (by omega)

/-- From the far side of the bottom of the slope two more iterations may be
needed. -/
theorem outer_converges {r y : ℝ} (hr : F r = y) (hrc : r ≤ c) :
    ∀ (f i : Nat) (a : ℝ), c ≤ a →
      (M / m) ^ 4 * (|F a - y| * D a) < m ^ 2 / 100 * 4 ^ f → i + f + 2 ≤ 999 →
      ∃ v, |v - r| < 1 / 100 ∧ ∀ n, f + 3 ≤ n → newtonLoop F D y n i a = v := by
  intro f
  induction f with
  | zero =>
    intro i a hca hpot hi
    have hnn : 0 ≤ |F a - y| * D a := mul_nonneg (abs_nonneg _) (h.D_pos a).le
    by_cases hs : |a - (F a - y) / D a - a| < 1 / 100
    · exact ⟨_, h.accurate hr hs, fun n hn => newtonLoop_stop i hs n (by omega)⟩
    · have hge := h.potential_ge hs
      simp only [pow_zero, mul_one] at hpot
      have h1 := h.le_ratio_sq_mul hnn
      have h2 := h.ratio_sq_le_ratio_four hnn
      linarith
  | succ f ih =>
    intro i a hca hpot hi
    have hnn : 0 ≤ |F a - y| * D a := mul_nonneg (abs_nonneg _) (h.D_pos a).le
    by_cases hs : |a - (F a - y) / D a - a| < 1 / 100
    · exact ⟨_, h.accurate hr hs, fun n hn => newtonLoop_stop i hs n (by omega)⟩
    · have hi2 : i ≠ 999 := by omega
      have hany := h.potential_any (a := a) hr
      have hnext : ∃ v, |v - r| < 1 / 100
          ∧ ∀ n, f + 3 ≤ n → newtonLoop F D y n (i + 1) (a - (F a - y) / D a) = v := by
        rcases h.outer_step hr hrc hca with ⟨hc2, hq⟩ | hset | hinn
        · have e : (4 : ℝ) ^ (f + 1) = 4 ^ f * 4 := pow_succ 4 f
          rw [e] at hpot
          have h4 : 0 ≤ (M / m) ^ 4 := by positivity
          have h5 := mul_le_mul_of_nonneg_left hq h4
          exact ih (i + 1) _ hc2 (by linarith) (by omega)
        · obtain ⟨v, hv, hn⟩ := h.settled_converges hr (f + 1) (i + 1) _ hset
            (lt_of_le_of_lt hany (lt_of_le_of_lt (h.ratio_sq_le_ratio_four hnn) hpot))
            (by omega)
          exact ⟨v, hv, fun n hn2 => hn n (by omega)⟩
        · have e : (M / m) ^ 4 * (|F a - y| * D a)
              = (M / m) ^ 2 * ((M / m) ^ 2 * (|F a - y| * D a)) := by ring
          rw [e] at hpot
          obtain ⟨v, hv, hn⟩ := h.inward_converges hr (f + 1) (i + 1) _ hinn
            (lt_of_le_of_lt (mul_le_mul_of_nonneg_left hany (by positivity)) hpot) (by omega)
          exact ⟨v, hv, fun n hn2 => hn n (by omega)⟩
      obtain ⟨v, hv, hn⟩ := hnext
      refine ⟨v, hv, fun n hn2 => ?_⟩
      obtain ⟨n, rfl⟩ : ∃ k, n = k + 1 := ⟨n - 1, by omega⟩
      rw [newtonLoop_next hi2 hs]
      exact hn n (by omega)

/-- Newton's iteration from a start `a0` at or above the bottom of the slope
converges within `f + 3` iterations: with that much fuel or more the loop
returns one value, within the tolerance of the root. -/
theorem newton_converges {r y a0 : ℝ} (hr : F r = y) (hc : c ≤ a0) (f : Nat) (hf : f + 3 ≤ 999)
    (hpot : (M / m) ^ 4 * (|F a0 - y| * D a0) < m ^ 2 / 100 * 4 ^ f) :
    ∃ v, |v - r| < 1 / 100 ∧ ∀ n, f + 3 ≤ n → newtonLoop F D y n 1 a0 = v := by
  have hnn : 0 ≤ |F a0 - y| * D a0 := mul_nonneg (abs_nonneg _) (h.D_pos a0).le
  have h2 := h.ratio_sq_le_ratio_four hnn
  have h1 := h.le_ratio_sq_mul hnn
  rcases le_total r c with hrc | hcr
  · exact h.outer_converges hr hrc f 1 a0 hc hpot (by omega)
  · rcases le_total r a0 with hra | har
    · obtain ⟨v, hv, hn⟩ := h.settled_converges hr f 1 a0 (Or.inl ⟨hcr, hra⟩) (by linarith)
        (by omega)
      exact ⟨v, hv, fun n hn2 => hn n (by omega)⟩
    · obtain ⟨v, hv, hn⟩ := h.inward_converges hr f 1 a0 (Or.inl ⟨hc, har⟩) (by linarith)
        (by omega)
      exact ⟨v, hv, fun n hn2 => hn n (by omega)⟩

end NewtonCurve


/-! ## The OCV curve over the reals -/

section SlopeBounds

theorem ocvSlope_eq (s : ℝ) (h0 : 0 < s) (h1 : s < 100) :
    ocvSlope s = (1400 - 9267 / 100 * s + 16944 / 10000 * s ^ 2) / (100 * s ^ 2)
      + 146 / (10000 * (100 - s)) := by
  have h2 : (100 : ℝ) - s ≠ 0 := by linarith
  have h3 : s ≠ 0 := h0.ne'
  unfold ocvSlope
  field_simp
  ring

theorem ocvSlope_lower (s : ℝ) (h0 : 2 ≤ s) (h1 : s ≤ 98) : 1 / 1000 ≤ ocvSlope s := by
  rw [ocvSlope_eq s (by linarith) (by linarith)]
  have hs : 0 < s := by linarith
  have h2 : 0 < 146 / (10000 * (100 - s)) := by
    apply div_pos (by norm_num)
    nlinarith
  have h3 : 1 / 1000 ≤ (1400 - 9267 / 100 * s + 16944 / 10000 * s ^ 2) / (100 * s ^ 2) := by
    rw [le_div_iff₀ (by positivity)]
    nlinarith [sq_nonneg (s - 30)]
  linarith

theorem ocvSlope_upper (s : ℝ) (h0 : 2 ≤ s) (h1 : s ≤ 98) : ocvSlope s ≤ 4 := by
  rw [ocvSlope_eq s (by linarith) (by linarith)]
  have hs : 0 < s := by linarith
  have h2 : 146 / (10000 * (100 - s)) ≤ 1 / 100 := by
    rw [div_le_div_iff₀ (by nlinarith) (by norm_num)]
    nlinarith
  have h3 : (1400 - 9267 / 100 * s + 16944 / 10000 * s ^ 2) / (100 * s ^ 2) ≤ 7 / 2 := by
    rw [div_le_iff₀ (by positivity)]
    nlinarith
  linarith

end SlopeBounds

section Calculus

/-- `dmodel` is the derivative of `model` on `(0, 100)`. -/
theorem hasDerivAt_ocvModel (s : ℝ) (h0 : 0 < s) (h1 : s < 100) :
    HasDerivAt (ocvModel Real.log) (ocvSlope s) s := by
  have hx : HasDerivAt (fun t : ℝ => t / 100) (1 / 100) s := by
    simpa using (hasDerivAt_id s).div_const 100
  have hx0 : s / 100 ≠ 0 := by positivity
  have h1x : HasDerivAt (fun t : ℝ => 1 - t / 100) (-(1 / 100)) s := by
    simpa using hx.const_sub 1
  have h1x0 : 1 - s / 100 ≠ 0 := by
    have : s / 100 < 1 := by rw [div_lt_one (by norm_num)]; exact h1
    linarith
  have hl1 := hx.log hx0
  have hl2 := h1x.log h1x0
  have hinv := (hasDerivAt_const s (1400 / 10000 : ℝ)).div hx hx0
  have hall := ((((hasDerivAt_const s (25632 / 10000 : ℝ)).add
    (hl1.const_mul (-9267 / 10000 : ℝ))).add (hl2.const_mul (-146 / 10000 : ℝ))).sub hinv).sub
    (hx.const_mul (-16944 / 10000 : ℝ))
  have e : ocvSlope s = 0 + -9267 / 10000 * (1 / 100 / (s / 100))
      + -146 / 10000 * (-(1 / 100) / (1 - s / 100))
      - (0 * (s / 100) - 1400 / 10000 * (1 / 100)) / (s / 100) ^ 2
      - -16944 / 10000 * (1 / 100) := by
    unfold ocvSlope
    field_simp
    ring
  rw [e]
  exact hall


theorem ocvCurveSlope_mid (x : ℝ) (h0 : 2 ≤ x) (h1 : x ≤ 98) : ocvCurveSlope x = ocvSlope x := by
  unfold ocvCurveSlope
  rw [if_neg (not_lt.2 h1), if_neg (not_lt.2 h0)]

theorem ocvCurveSlope_low (x : ℝ) (h : x ≤ 2) : ocvCurveSlope x = ocvSlope 2 := by
  unfold ocvCurveSlope
  rw [if_neg (by linarith)]
  rcases lt_or_eq_of_le h with h2 | h2
  · rw [if_pos h2]
  · rw [if_neg (by linarith), h2]

theorem ocvCurveSlope_high (x : ℝ) (h : 98 ≤ x) : ocvCurveSlope x = ocvSlope 98 := by
  unfold ocvCurveSlope
  rcases lt_or_eq_of_le h with h2 | h2
  · rw [if_pos h2]
  · rw [if_neg (by linarith), if_neg (by linarith), ← h2]

theorem ocvCurve_mid (x : ℝ) (h0 : 2 ≤ x) (h1 : x ≤ 98) :
    ocvCurve Real.log x = ocvModel Real.log x := by
  unfold ocvCurve
  rw [if_neg (not_lt.2 h1), if_neg (not_lt.2 h0)]

theorem ocvCurve_low (x : ℝ) (h : x ≤ 2) :
    ocvCurve Real.log x = ocvSlope 2 * (x - 2) + ocvModel Real.log 2 := by
  unfold ocvCurve
  rw [if_neg (by linarith)]
  rcases lt_or_eq_of_le h with h2 | h2
  · rw [if_pos h2, ocvCurveSlope_low x h]
  · rw [if_neg (by linarith), h2]
    ring

theorem ocvCurve_high (x : ℝ) (h : 98 ≤ x) :
    ocvCurve Real.log x = ocvSlope 98 * (x - 98) + ocvModel Real.log 98 := by
  unfold ocvCurve
  rcases lt_or_eq_of_le h with h2 | h2
  · rw [if_pos h2, ocvCurveSlope_high x h]
  · rw [if_neg (by linarith), if_neg (by linarith), ← h2]
    ring

theorem ocvCurveSlope_lower (x : ℝ) : 1 / 1000 ≤ ocvCurveSlope x := by
  rcases le_total x 2 with h | h
  · rw [ocvCurveSlope_low x h]
    exact ocvSlope_lower 2 le_rfl (by norm_num)
  · rcases le_total x 98 with h2 | h2
    · rw [ocvCurveSlope_mid x h h2]
      exact ocvSlope_lower x h h2
    · rw [ocvCurveSlope_high x h2]
      exact ocvSlope_lower 98 (by norm_num) le_rfl

theorem ocvCurveSlope_upper (x : ℝ) : ocvCurveSlope x ≤ 4 := by
  rcases le_total x 2 with h | h
  · rw [ocvCurveSlope_low x h]
    exact ocvSlope_upper 2 le_rfl (by norm_num)
  · rcases le_total x 98 with h2 | h2
    · rw [ocvCurveSlope_mid x h h2]
      exact ocvSlope_upper x h h2
    · rw [ocvCurveSlope_high x h2]
      exact ocvSlope_upper 98 (by norm_num) le_rfl

theorem Sandwich.glue {a p b : ℝ} (hap : a ≤ p) (hpb : p ≤ b) (h1 : Sandwich a p)
    (h2 : Sandwich p b) : Sandwich a b := by
  intro lo hi hD
  obtain ⟨l1, u1⟩ := h1 lo hi (fun x hx1 hx2 => hD x hx1 (le_trans hx2 hpb))
  obtain ⟨l2, u2⟩ := h2 lo hi (fun x hx1 hx2 => hD x (le_trans hap hx1) hx2)
  constructor
  · nlinarith
  · nlinarith

theorem sandwich_low {a b : ℝ} (hab : a ≤ b) (hb : b ≤ 2) : Sandwich a b := by
  intro lo hi hD
  obtain ⟨l, u⟩ := hD a le_rfl hab
  rw [ocvCurveSlope_low a (le_trans hab hb)] at l u
  rw [ocvCurve_low a (le_trans hab hb), ocvCurve_low b hb]
  have : 0 ≤ b - a := sub_nonneg.2 hab
  constructor <;> nlinarith

theorem sandwich_high {a b : ℝ} (ha : 98 ≤ a) (hab : a ≤ b) : Sandwich a b := by
  intro lo hi hD
  obtain ⟨l, u⟩ := hD a le_rfl hab
  rw [ocvCurveSlope_high a ha] at l u
  rw [ocvCurve_high a ha, ocvCurve_high b (le_trans ha hab)]
  have : 0 ≤ b - a := sub_nonneg.2 hab
  constructor <;> nlinarith

theorem sandwich_mid {a b : ℝ} (ha : 2 ≤ a) (hab : a ≤ b) (hb : b ≤ 98) : Sandwich a b := by
  intro lo hi hD
  rw [ocvCurve_mid a ha (le_trans hab hb), ocvCurve_mid b (le_trans ha hab) hb]
  rcases eq_or_lt_of_le hab with rfl | hlt
  · simp
  · have hder : ∀ x ∈ Set.Ioo a b, HasDerivAt (ocvModel Real.log) (ocvSlope x) x := fun x hx =>
      hasDerivAt_ocvModel x (by linarith [hx.1]) (by linarith [hx.2])
    have hcont : ContinuousOn (ocvModel Real.log) (Set.Icc a b) := fun x hx =>
      (hasDerivAt_ocvModel x (by linarith [hx.1]) (by linarith [hx.2])).continuousAt.continuousWithinAt
    obtain ⟨ξ, hξ, hslope⟩ := exists_hasDerivAt_eq_slope (ocvModel Real.log) ocvSlope hlt hcont hder
    obtain ⟨l, u⟩ := hD ξ hξ.1.le hξ.2.le
    rw [ocvCurveSlope_mid ξ (by linarith [hξ.1]) (by linarith [hξ.2]), hslope] at l u
    have hpos : 0 < b - a := sub_pos.2 hlt
    rw [le_div_iff₀ hpos] at l
    rw [div_le_iff₀ hpos] at u
    exact ⟨l, u⟩

theorem sandwich_all {a b : ℝ} (hab : a ≤ b) : Sandwich a b := by
  rcases le_total b 2 with hb2 | hb2
  · exact sandwich_low hab hb2
  · rcases le_total 98 a with ha98 | ha98
    · exact sandwich_high ha98 hab
    · -- `2 ≤ b` and `a ≤ 98`
      rcases le_total a 2 with ha2 | ha2
      · rcases le_total b 98 with hb98 | hb98
        · exact (sandwich_low ha2 le_rfl).glue ha2 hb2 (sandwich_mid le_rfl hb2 hb98)
        · exact (sandwich_low ha2 le_rfl).glue ha2 (by linarith)
            ((sandwich_mid le_rfl (by norm_num) le_rfl).glue (by norm_num) hb98
              (sandwich_high le_rfl hb98))
      · rcases le_total b 98 with hb98 | hb98
        · exact sandwich_mid ha2 hab hb98
        · exact (sandwich_mid ha2 ha98 le_rfl).glue ha98 hb98 (sandwich_high le_rfl hb98)

end Calculus

section Regularity

/-- Two points of `[2, 98]` at most 0.02 apart have slopes within a factor two. -/
theorem ocvSlope_reg (u v : ℝ) (hu0 : 2 ≤ u) (hu1 : u ≤ 98) (hv0 : 2 ≤ v) (hv1 : v ≤ 98)
    (hd : |v - u| ≤ 2 / 100) : ocvSlope u ≤ 2 * ocvSlope v := by
  obtain ⟨hd1, hd2⟩ := abs_le.1 hd
  rw [ocvSlope_eq u (by linarith) (by linarith), ocvSlope_eq v (by linarith) (by linarith)]
  have hup : 0 < u := by linarith
  have hvp : 0 < v := by linarith
  -- the term in `1 / (100 - s)`
  have h1 : 146 / (10000 * (100 - u)) ≤ 2 * (146 / (10000 * (100 - v))) := by
    rw [← mul_div_assoc, div_le_div_iff₀ (by nlinarith) (by nlinarith)]
    nlinarith
  -- the term in `1 / s ^ 2`
  have hpu : 132 ≤ 1400 - 9267 / 100 * u + 16944 / 10000 * u ^ 2 := by
    nlinarith [sq_nonneg (u - 27)]
  have hpv : 1400 - 9267 / 100 * u + 16944 / 10000 * u ^ 2 - 9
      ≤ 1400 - 9267 / 100 * v + 16944 / 10000 * v ^ 2 := by
    have e : (1400 - 9267 / 100 * v + 16944 / 10000 * v ^ 2)
        - (1400 - 9267 / 100 * u + 16944 / 10000 * u ^ 2)
        = (v - u) * (16944 / 10000 * (u + v) - 9267 / 100) := by ring
    have hb1 : -(9267 / 100) ≤ 16944 / 10000 * (u + v) - 9267 / 100 := by nlinarith
    have hb2 : 16944 / 10000 * (u + v) - 9267 / 100 ≤ 300 := by nlinarith
    have : -9 ≤ (v - u) * (16944 / 10000 * (u + v) - 9267 / 100) := by
      rcases le_total 0 (16944 / 10000 * (u + v) - 9267 / 100) with hs | hs
      · nlinarith
      · nlinarith
    linarith
  have hv2 : v ^ 2 ≤ 103 / 100 * u ^ 2 := by nlinarith
  have h2 : (1400 - 9267 / 100 * u + 16944 / 10000 * u ^ 2) / (100 * u ^ 2)
      ≤ 2 * ((1400 - 9267 / 100 * v + 16944 / 10000 * v ^ 2) / (100 * v ^ 2)) := by
    rw [← mul_div_assoc, div_le_div_iff₀ (by positivity) (by positivity)]
    have hu2 : 0 ≤ u ^ 2 := sq_nonneg u
    generalize 1400 - 9267 / 100 * u + 16944 / 10000 * u ^ 2 = A at hpu hpv ⊢
    generalize 1400 - 9267 / 100 * v + 16944 / 10000 * v ^ 2 = B at hpv ⊢
    generalize u ^ 2 = U at hv2 hu2 ⊢
    generalize v ^ 2 = V at hv2 ⊢
    have k1 : A * V ≤ A * (103 / 100 * U) := mul_le_mul_of_nonneg_left hv2 (by linarith)
    have k2 : (A - 9) * U ≤ B * U := mul_le_mul_of_nonneg_right hpv hu2
    have k3 : 132 * U ≤ A * U := mul_le_mul_of_nonneg_right hpu hu2
    linarith
  linarith

/-- The argument `dSOC2OCV` passes to `dmodel`. -/
theorem ocvCurveSlope_clamp (x : ℝ) : ocvCurveSlope x = ocvSlope (max 2 (min x 98)) := by
  rcases le_total x 2 with h | h
  · rw [ocvCurveSlope_low x h, min_eq_left (by linarith), max_eq_left h]
  · rcases le_total x 98 with h2 | h2
    · rw [ocvCurveSlope_mid x h h2, min_eq_left h2, max_eq_right h]
    · rw [ocvCurveSlope_high x h2, min_eq_right h2, max_eq_right (by norm_num)]

theorem ocvCurveSlope_reg (a x : ℝ) (hd : |x - a| ≤ 2 / 100) :
    ocvCurveSlope a ≤ 2 * ocvCurveSlope x := by
  rw [ocvCurveSlope_clamp a, ocvCurveSlope_clamp x]
  refine ocvSlope_reg _ _ (le_max_left _ _) (max_le (by norm_num) (min_le_right _ _))
    (le_max_left _ _) (max_le (by norm_num) (min_le_right _ _)) ?_
  have h1 : |max 2 (min x 98) - max 2 (min a 98)| ≤ max |(2 : ℝ) - 2| |min x 98 - min a 98| :=
    abs_max_sub_max_le_max _ _ _ _
  have h2 : |min x 98 - min a 98| ≤ max |x - a| |(98 : ℝ) - 98| :=
    abs_min_sub_min_le_max _ _ _ _
  simp only [sub_self, abs_zero] at h1 h2
  have h3 : max |x - a| 0 = |x - a| := max_eq_left (abs_nonneg _)
  have h4 : max 0 |min x 98 - min a 98| = |min x 98 - min a 98| := max_eq_right (abs_nonneg _)
  rw [h4] at h1
  rw [h3] at h2
  linarith

end Regularity

section Valley

/-- The derivative of `dmodel` on `(0, 100)`, over a positive denominator. -/
theorem hasDerivAt_ocvSlope (s : ℝ) (h0 : 0 < s) (h1 : s < 100) :
    HasDerivAt ocvSlope
      (((9267 / 100 * s - 2800) * (100 - s) ^ 2 + 146 / 100 * s ^ 3)
        / (100 * s ^ 3 * (100 - s) ^ 2)) s := by
  have hx : HasDerivAt (fun t : ℝ => t / 100) (1 / 100) s := by
    simpa using (hasDerivAt_id s).div_const 100
  have hx0 : s / 100 ≠ 0 := by positivity
  have h1x : HasDerivAt (fun t : ℝ => 1 - t / 100) (-(1 / 100)) s := by
    simpa using hx.const_sub 1
  have h1x0 : 1 - s / 100 ≠ 0 := by
    have : s / 100 < 1 := by rw [div_lt_one (by norm_num)]; exact h1
    linarith
  have hxx := hx.mul hx
  have hxx0 : s / 100 * (s / 100) ≠ 0 := mul_ne_zero hx0 hx0
  have hA := (hasDerivAt_const s (-9267 / 10000 : ℝ)).div hx hx0
  have hB := (hasDerivAt_const s (-146 / 10000 : ℝ)).div h1x h1x0
  have hC := (hasDerivAt_const s (1400 / 10000 : ℝ)).div hxx hxx0
  have hall := (((hA.sub hB).add hC).sub (hasDerivAt_const s (-16944 / 10000 : ℝ))).div_const 100
  have h2 : (100 : ℝ) - s ≠ 0 := by linarith
  have h3 : s ≠ 0 := h0.ne'
  have e : ((9267 / 100 * s - 2800) * (100 - s) ^ 2 + 146 / 100 * s ^ 3)
        / (100 * s ^ 3 * (100 - s) ^ 2)
      = ((0 * (s / 100) - -9267 / 10000 * (1 / 100)) / (s / 100) ^ 2
          - (0 * (1 - s / 100) - -146 / 10000 * -(1 / 100)) / (1 - s / 100) ^ 2
          + (0 * (s / 100 * (s / 100)) - 1400 / 10000 * (1 / 100 * (s / 100) + s / 100 * (1 / 100)))
              / (s / 100 * (s / 100)) ^ 2
          - 0) / 100 := by
    field_simp
    ring
  rw [e]
  exact hall

theorem bend_neg (s : ℝ) (h0 : 2 ≤ s) (h1 : s ≤ 30) :
    (9267 / 100 * s - 2800) * (100 - s) ^ 2 + 146 / 100 * s ^ 3 < 0 := by
  have e : (9267 / 100 * s - 2800) * (100 - s) ^ 2 + 146 / 100 * s ^ 3
      = 9413 / 100 * s ^ 3 - 21334 * s ^ 2 + 1486700 * s - 28000000 := by ring
  have k1 : (100 - s) ^ 2 ≥ 4900 := by nlinarith
  have k2 : 9267 / 100 * s - 2800 ≤ -19 := by linarith
  have k3 : s ^ 3 ≤ 27000 := by
    have : s ^ 2 ≤ 900 := by nlinarith
    nlinarith
  nlinarith

theorem bend_pos (s : ℝ) (h0 : 3022 / 100 ≤ s) :
    0 < (9267 / 100 * s - 2800) * (100 - s) ^ 2 + 146 / 100 * s ^ 3 := by
  have k1 : 0 ≤ 9267 / 100 * s - 2800 := by linarith
  have k2 : 0 ≤ (100 - s) ^ 2 := sq_nonneg _
  have k3 : 0 < s ^ 3 := by
    have : 0 < s := by linarith
    positivity
  have := mul_nonneg k1 k2
  linarith

theorem bend_mono (s t : ℝ) (h0 : 30 ≤ s) (hst : s ≤ t) (h1 : t ≤ 3022 / 100) :
    (9267 / 100 * s - 2800) * (100 - s) ^ 2 + 146 / 100 * s ^ 3
      ≤ (9267 / 100 * t - 2800) * (100 - t) ^ 2 + 146 / 100 * t ^ 3 := by
  have e : ((9267 / 100 * t - 2800) * (100 - t) ^ 2 + 146 / 100 * t ^ 3)
      - ((9267 / 100 * s - 2800) * (100 - s) ^ 2 + 146 / 100 * s ^ 3)
      = (t - s) * (9413 / 100 * (t ^ 2 + t * s + s ^ 2) - 21334 * (t + s) + 1486700) := by ring
  have k1 : 0 ≤ t - s := sub_nonneg.2 hst
  have k2 : 0 ≤ 9413 / 100 * (t ^ 2 + t * s + s ^ 2) - 21334 * (t + s) + 1486700 := by
    have : 0 ≤ t ^ 2 + t * s + s ^ 2 := by nlinarith
    nlinarith
  have := mul_nonneg k1 k2
  linarith

/-- The slope has one bottom: the point `c` where the sign of its derivative
changes. -/
theorem exists_bottom :
    ∃ c : ℝ, 30 ≤ c ∧ c ≤ 3022 / 100
      ∧ (∀ s, 2 ≤ s → s ≤ c →
          (9267 / 100 * s - 2800) * (100 - s) ^ 2 + 146 / 100 * s ^ 3 ≤ 0)
      ∧ (∀ s, c ≤ s →
          0 ≤ (9267 / 100 * s - 2800) * (100 - s) ^ 2 + 146 / 100 * s ^ 3) := by
  have hcont : ContinuousOn
      (fun s : ℝ => (9267 / 100 * s - 2800) * (100 - s) ^ 2 + 146 / 100 * s ^ 3)
      (Set.Icc 30 (3022 / 100)) := by
    apply Continuous.continuousOn
    continuity
  have hmem : (0 : ℝ) ∈ Set.Icc
      ((fun s : ℝ => (9267 / 100 * s - 2800) * (100 - s) ^ 2 + 146 / 100 * s ^ 3) 30)
      ((fun s : ℝ => (9267 / 100 * s - 2800) * (100 - s) ^ 2 + 146 / 100 * s ^ 3)
        (3022 / 100)) := by
    constructor
    · exact (bend_neg 30 (by norm_num) le_rfl).le
    · exact (bend_pos (3022 / 100) le_rfl).le
  obtain ⟨c, hc, hc0⟩ := intermediate_value_Icc (by norm_num) hcont hmem
  simp only at hc0
  refine ⟨c, hc.1, hc.2, fun s hs0 hs1 => ?_, fun s hs => ?_⟩
  · rcases le_total s 30 with h | h
    · exact (bend_neg s hs0 h).le
    · rw [← hc0]
      exact bend_mono s c h hs1 hc.2
  · rcases le_total s (3022 / 100) with h | h
    · rw [← hc0]
      exact bend_mono c s hc.1 hs h
    · exact (bend_pos s h).le


theorem ocvSlope_antitoneOn (c : ℝ) (hc : c ≤ 98)
    (hneg : ∀ s, 2 ≤ s → s ≤ c →
      (9267 / 100 * s - 2800) * (100 - s) ^ 2 + 146 / 100 * s ^ 3 ≤ 0) :
    AntitoneOn ocvSlope (Set.Icc 2 c) := by
  refine antitoneOn_of_deriv_nonpos (convex_Icc 2 c) (fun x hx => ?_) (fun x hx => ?_)
    (fun x hx => ?_)
  · exact (hasDerivAt_ocvSlope x (by linarith [hx.1])
      (by linarith [hx.2])).continuousAt.continuousWithinAt
  · rw [interior_Icc] at hx
    exact (hasDerivAt_ocvSlope x (by linarith [hx.1])
      (by linarith [hx.2])).differentiableAt.differentiableWithinAt
  · rw [interior_Icc] at hx
    have hx0 : 0 < x := by linarith [hx.1]
    have hx1 : 0 < 100 - x := by linarith [hx.2]
    rw [(hasDerivAt_ocvSlope x hx0 (by linarith)).deriv]
    exact div_nonpos_of_nonpos_of_nonneg (hneg x hx.1.le hx.2.le) (by positivity)

theorem ocvSlope_monotoneOn (c : ℝ) (hc : 2 ≤ c)
    (hpos : ∀ s, c ≤ s →
      0 ≤ (9267 / 100 * s - 2800) * (100 - s) ^ 2 + 146 / 100 * s ^ 3) :
    MonotoneOn ocvSlope (Set.Icc c 98) := by
  refine monotoneOn_of_deriv_nonneg (convex_Icc c 98) (fun x hx => ?_) (fun x hx => ?_)
    (fun x hx => ?_)
  · exact (hasDerivAt_ocvSlope x (by linarith [hx.1])
      (by linarith [hx.2])).continuousAt.continuousWithinAt
  · rw [interior_Icc] at hx
    exact (hasDerivAt_ocvSlope x (by linarith [hx.1])
      (by linarith [hx.2])).differentiableAt.differentiableWithinAt
  · rw [interior_Icc] at hx
    have hx0 : 0 < x := by linarith [hx.1]
    have hx1 : 0 < 100 - x := by linarith [hx.2]
    rw [(hasDerivAt_ocvSlope x hx0 (by linarith)).deriv]
    exact div_nonneg (hpos x hx.1.le) (by positivity)

/-- The slope of the curve decreases up to a point `c` in `[30, 30.22]` and
increases from there on. -/
theorem exists_valley :
    ∃ c : ℝ, 30 ≤ c ∧ c ≤ 3022 / 100
      ∧ (∀ x z : ℝ, x ≤ z → z ≤ c → ocvCurveSlope z ≤ ocvCurveSlope x)
      ∧ (∀ x z : ℝ, c ≤ x → x ≤ z → ocvCurveSlope x ≤ ocvCurveSlope z) := by
  obtain ⟨c, hc0, hc1, hneg, hpos⟩ := exists_bottom
  have hanti := ocvSlope_antitoneOn c (by linarith) hneg
  have hmono := ocvSlope_monotoneOn c (by linarith) hpos
  refine ⟨c, hc0, hc1, fun x z hxz hzc => ?_, fun x z hcx hxz => ?_⟩
  · rw [ocvCurveSlope_clamp x, ocvCurveSlope_clamp z]
    have hz : max 2 (min z 98) ≤ c := max_le (by linarith) (le_trans (min_le_left _ _) hzc)
    have hxz2 : max 2 (min x 98) ≤ max 2 (min z 98) :=
      max_le_max le_rfl (min_le_min hxz le_rfl)
    exact hanti ⟨le_max_left _ _, le_trans hxz2 hz⟩ ⟨le_max_left _ _, hz⟩ hxz2
  · rw [ocvCurveSlope_clamp x, ocvCurveSlope_clamp z]
    have hx : c ≤ max 2 (min x 98) := le_trans (le_min hcx (by linarith)) (le_max_right _ _)
    have hxz2 : max 2 (min x 98) ≤ max 2 (min z 98) :=
      max_le_max le_rfl (min_le_min hxz le_rfl)
    exact hmono ⟨hx, max_le (by norm_num) (min_le_right _ _)⟩
      ⟨le_trans hx hxz2, max_le (by norm_num) (min_le_right _ _)⟩ hxz2

end Valley


/-! ## C10: the round trip through the OCV curve -/

section RoundTrip

theorem dmodel_fin (s : ℝ) (h0 : 0 < s) (h1 : s < 100) : dmodel (fin s) = fin (ocvSlope s) := by
  have hx0 : s / 100 ≠ 0 := by positivity
  have h1x0 : 1 - s / 100 ≠ 0 := by
    have : s / 100 < 1 := by rw [div_lt_one (by norm_num)]; exact h1
    linarith
  simp [dmodel, ocvSlope, hx0, h1x0]

theorem model_fin (L : Libm ℝ) (hlog : ∀ x : ℝ, 0 < x → L.logf (fin x) = fin (Real.log x))
    (s : ℝ) (h0 : 0 < s) (h1 : s < 100) : model L (fin s) = fin (ocvModel Real.log s) := by
  have hx0 : s / 100 ≠ 0 := by positivity
  have hxp : 0 < s / 100 := by positivity
  have h1xp : 0 < 1 - s / 100 := by
    have : s / 100 < 1 := by rw [div_lt_one (by norm_num)]; exact h1
    linarith
  simp [model, ocvModel, hx0, hlog _ hxp, hlog _ h1xp]

theorem dSOC2OCV_fin (a : ℝ) : dSOC2OCV (fin a) = fin (ocvCurveSlope a) := by
  unfold dSOC2OCV ocvCurveSlope
  by_cases h1 : 98 < a
  · simp [h1, dmodel_fin 98 (by norm_num) (by norm_num)]
  · by_cases h2 : a < 2
    · simp [h1, h2, dmodel_fin 2 (by norm_num) (by norm_num)]
    · simp [h1, h2, dmodel_fin a (by linarith) (by linarith)]

theorem SOC2OCV_fin (L : Libm ℝ) (hlog : ∀ x : ℝ, 0 < x → L.logf (fin x) = fin (Real.log x))
    (a : ℝ) : SOC2OCV L (fin a) = fin (ocvCurve Real.log a) := by
  unfold SOC2OCV ocvCurve
  by_cases h1 : 98 < a
  · simp [h1, dSOC2OCV_fin, model_fin L hlog 98 (by norm_num) (by norm_num)]
  · by_cases h2 : a < 2
    · simp [h1, h2, dSOC2OCV_fin, model_fin L hlog 2 (by norm_num) (by norm_num)]
    · simp [h1, h2, model_fin L hlog a (by linarith) (by linarith)]

theorem ocvCurveSlope_ne_zero (a : ℝ) : ocvCurveSlope a ≠ 0 := by
  have := ocvCurveSlope_lower a
  intro h
  rw [h] at this
  norm_num at this

/-- On finite values the loop of `OCV2SOC` computes `newtonLoop` for the curve
`ocvCurve` and its slope. -/
theorem OCV2SOC_loop_fin (L : Libm ℝ)
    (hlog : ∀ x : ℝ, 0 < x → L.logf (fin x) = fin (Real.log x)) (y : ℝ) :
    ∀ (n i : Nat) (a : ℝ),
      OCV2SOC_loop L (fin y) n i (fin a)
        = fin (newtonLoop (ocvCurve Real.log) ocvCurveSlope y n i a) := by
  intro n
  induction n with
  | zero => intro i a; rfl
  | succ n ih =>
    intro i a
    simp only [OCV2SOC_loop, newtonLoop, SOC2OCV_fin L hlog, dSOC2OCV_fin, fin_sub_fin,
      fin_div_fin _ _ (ocvCurveSlope_ne_zero a), fabsf_fin, lt_fin_fin, decide_eq_true_eq]
    by_cases hs : |a - (ocvCurve Real.log a - y) / ocvCurveSlope a - a| < 1 / 100
    · simp only [hs, if_true]
    · simp only [hs, if_false]
      by_cases hi : i = 999
      · simp [hi]
      · simp only [hi, if_false]
        exact ih (i + 1) _

/-- The OCV curve meets the requirements of the convergence proof, with the
bottom of its slope below the initial guess 90. -/
theorem ocv_newtonCurve :
    ∃ c : ℝ, c ≤ 90 ∧ NewtonCurve (ocvCurve Real.log) ocvCurveSlope (1 / 1000) 4 c := by
  obtain ⟨c, hc0, hc1, hanti, hmono⟩ := exists_valley
  refine ⟨c, by linarith, ?_⟩
  exact
    { m_pos := by norm_num
      lower := ocvCurveSlope_lower
      upper := ocvCurveSlope_upper
      mvi_lower := fun a b lo hab hlo =>
        (sandwich_all hab lo 4 (fun x hx1 hx2 => ⟨hlo x hx1 hx2, ocvCurveSlope_upper x⟩)).1
      mvi_upper := fun a b hi hab hhi =>
        (sandwich_all hab (1 / 1000) hi
          (fun x hx1 hx2 => ⟨ocvCurveSlope_lower x, hhi x hx1 hx2⟩)).2
      anti := hanti
      mono := hmono
      reg := ocvCurveSlope_reg }

/-- C10: round trip of the OCV curve in exact real arithmetic, `logf` being
the natural logarithm.  For every `soc` in `[2, 98]`, `OCV2SOC (SOC2OCV soc)`
is a finite value within `1e-2` of `soc`; the Newton iteration from the guess
90 converges within 63 iterations (any fuel from 63 on gives that same value),
so the iteration cap and its fallback 50 are never reached. -/
theorem C10_ocv_round_trip (L : Libm ℝ)
    (hlog : ∀ x : ℝ, 0 < x → L.logf (fin x) = fin (Real.log x)) (soc : ℝ) (h0 : 2 ≤ soc)
    (h1 : soc ≤ 98) :
    ∃ r : ℝ, OCV2SOC L (SOC2OCV L (fin soc)) = fin r ∧ |r - soc| < 1 / 100
      ∧ ∀ n, 63 ≤ n → OCV2SOC_loop L (SOC2OCV L (fin soc)) n 1 (fin 90) = fin r := by
  obtain ⟨c, hc, hN⟩ := ocv_newtonCurve
  have hpot : ((4 : ℝ) / (1 / 1000)) ^ 4
      * (|ocvCurve Real.log 90 - ocvCurve Real.log soc| * ocvCurveSlope 90)
      < (1 / 1000) ^ 2 / 100 * 4 ^ 60 := by
    have hD := hN.upper 90
    have hD0 := hN.D_pos 90
    have k1 : |ocvCurve Real.log 90 - ocvCurve Real.log soc| ≤ 352 := by
      rw [abs_le]
      rcases le_total soc 90 with hle | hle
      · have hu := hN.F_upper hle
        have hl := hN.F_mono hle
        constructor <;> linarith
      · have hu := hN.F_upper hle
        have hl := hN.F_mono hle
        constructor <;> linarith
    have k2 : |ocvCurve Real.log 90 - ocvCurve Real.log soc| * ocvCurveSlope 90 ≤ 352 * 4 :=
      mul_le_mul k1 hD hD0.le (by norm_num)
    have k3 : ((4 : ℝ) / (1 / 1000)) ^ 4 * (352 * 4) < (1 / 1000) ^ 2 / 100 * 4 ^ 60 := by
      norm_num
    have k4 : (0 : ℝ) ≤ ((4 : ℝ) / (1 / 1000)) ^ 4 := by positivity
    nlinarith
  obtain ⟨v, hv, hn⟩ := hN.newton_converges (r := soc) (y := ocvCurve Real.log soc) rfl hc 60
    (by norm_num) hpot
  refine ⟨v, ?_, hv, fun n hn2 => ?_⟩
  · unfold OCV2SOC
    rw [SOC2OCV_fin L hlog, OCV2SOC_loop_fin L hlog, hn 999 (by norm_num)]
  · rw [SOC2OCV_fin L hlog, OCV2SOC_loop_fin L hlog, hn n (by omega)]

/-- Witness for C10: a libm whose `logf` is the natural logarithm on finite
arguments, at `soc = 50`. -/
theorem C10_witness :
    ∃ L : Libm ℝ, (∀ x : ℝ, 0 < x → L.logf (fin x) = fin (Real.log x))
      ∧ (2 : ℝ) ≤ 50 ∧ (50 : ℝ) ≤ 98
      ∧ ∃ r : ℝ, OCV2SOC L (SOC2OCV L (fin 50)) = fin r ∧ |r - 50| < 1 / 100
        ∧ ∀ n, 63 ≤ n → OCV2SOC_loop L (SOC2OCV L (fin 50)) n 1 (fin 90) = fin r :=
  ⟨{ logf := fun x => match x with
        | fin q => fin (Real.log q)
        | _ => nan
     exp := fun x => match x with
        | fin q => fin (Real.exp q)
        | _ => nan
     M_PI_F := fin Real.pi },
    fun _ _ => rfl, by norm_num, by norm_num,
    C10_ocv_round_trip _ (fun _ _ => rfl) 50 (by norm_num) (by norm_num)⟩

end RoundTrip

/-! ## C11: the bounded Newton iteration of `OCV2SOC` -/

section NewtonCap

variable {K : Type} [LinearOrderedField K]

/-- Entered with counter `k + 1` at iterate `k`, with enough fuel to reach the
counter 999, the loop returns the first close iterate after `k`, or 50. -/
theorem OCV2SOC_loop_first_close (L : Libm K) (ocv : FVal K) :
    ∀ (n k : Nat), 1000 ≤ k + 1 + n → k ≤ 998 →
      (∀ j, j < k → closeStep L ocv j = false) →
      (∃ k2, k2 < 999 ∧ closeStep L ocv k2 = true ∧ (∀ j, j < k2 → closeStep L ocv j = false)
          ∧ OCV2SOC_loop L ocv n (k + 1) (newtonIterate L ocv k) = newtonIterate L ocv (k2 + 1))
        ∨ ((∀ j, j < 999 → closeStep L ocv j = false)
          ∧ OCV2SOC_loop L ocv n (k + 1) (newtonIterate L ocv k) = fin 50) := by
  intro n
  induction n with
  | zero => intro k h1 h2; omega
  | succ n ih =>
    intro k hfuel hk hpre
    by_cases hc : closeStep L ocv k = true
    · left
      refine ⟨k, by omega, hc, hpre, ?_⟩
      have hc2 := hc
      unfold closeStep at hc2
      simp only [newtonIterate, newtonStep] at hc2
      simp only [OCV2SOC_loop, hc2, if_true, newtonIterate, newtonStep]
    · have hc1 : closeStep L ocv k = false := by simpa using hc
      have hpre2 : ∀ j, j < k + 1 → closeStep L ocv j = false := by
        intro j hj
        rcases Nat.lt_succ_iff_lt_or_eq.1 hj with h | h
        · exact hpre j h
        · rw [h]; exact hc1
      have hc2 := hc1
      unfold closeStep at hc2
      simp only [newtonIterate, newtonStep] at hc2
      by_cases hlast : k + 1 = 1000 - 1
      · right
        refine ⟨fun j hj => hpre2 j (by omega), ?_⟩
        simp only [OCV2SOC_loop, hc2, hlast, if_true]
        simp
      · have hstep : OCV2SOC_loop L ocv (n + 1) (k + 1) (newtonIterate L ocv k)
            = OCV2SOC_loop L ocv n (k + 1 + 1) (newtonIterate L ocv (k + 1)) := by
          simp only [OCV2SOC_loop, hc2, hlast, if_false, newtonIterate, newtonStep]
          simp
        rw [hstep]
        exact ih (k + 1) (by omega) (by omega) hpre2

/-- With enough fuel to reach the counter 999 the result of the loop does not
depend on the fuel. -/
theorem OCV2SOC_loop_fuel (L : Libm K) (ocv : FVal K) :
    ∀ (n n2 i : Nat) (a : FVal K), 1000 ≤ i + n → 1000 ≤ i + n2 → i ≤ 999 →
      OCV2SOC_loop L ocv n i a = OCV2SOC_loop L ocv n2 i a := by
  intro n
  induction n with
  | zero => intro n2 i a h1 _ h3; omega
  | succ n ih =>
    intro n2 i a h1 h2 h3
    cases n2 with
    | zero => omega
    | succ n2 =>
      simp only [OCV2SOC_loop]
      split_ifs with hc hlast
      · rfl
      · rfl
      · exact ih n2 (i + 1) _ (by omega) (by omega) (by omega)

/-- For `ocv = NaN` every iterate after the guess is `NaN`. -/
theorem newtonIterate_nan (L : Libm K) (k : Nat) : newtonIterate L nan (k + 1) = nan := by
  simp [newtonIterate, newtonStep]

/-- For `ocv = NaN` no step tests as close. -/
theorem closeStep_nan (L : Libm K) (k : Nat) : closeStep L nan k = false := by
  unfold closeStep
  rw [newtonIterate_nan]
  simp [FVal.fabsf]

/-- The result of `OCV2SOC`: the first close iterate among the iterates 1 to
999, or 50. -/
theorem OCV2SOC_first_close (L : Libm K) (ocv : FVal K) :
    (∃ k, k < 999 ∧ closeStep L ocv k = true ∧ (∀ j, j < k → closeStep L ocv j = false)
        ∧ OCV2SOC L ocv = newtonIterate L ocv (k + 1))
      ∨ ((∀ j, j < 999 → closeStep L ocv j = false) ∧ OCV2SOC L ocv = fin 50) := by
  have h := OCV2SOC_loop_first_close L ocv 999 0 (by omega) (by omega)
    (fun j hj => absurd hj (Nat.not_lt_zero j))
  simpa [OCV2SOC, newtonIterate] using h

/-- C11: `OCV2SOC` on any input `ocv` (finite or not), for any `logf`.  The
loop starts from the guess 90 and its counter runs from 1 to at most 999, so
at most 999 Newton steps are made (fewer than the cap 1000): any fuel from 999
on gives the same result, the loop always leaves through one of its `break`s.
The result is the first iterate, among the iterates 1 to 999, whose distance
to the iterate before it is below `1e-2`, and exactly 50 if none of them is,
as happens for `ocv = NaN`. -/
theorem C11_OCV2SOC_bounded_iteration (L : Libm K) (ocv : FVal K) :
    (∀ n, 999 ≤ n → OCV2SOC_loop L ocv n 1 (fin 90) = OCV2SOC L ocv)
      ∧ ((∃ k, k < 999 ∧ closeStep L ocv k = true ∧ (∀ j, j < k → closeStep L ocv j = false)
            ∧ OCV2SOC L ocv = newtonIterate L ocv (k + 1))
          ∨ ((∀ j, j < 999 → closeStep L ocv j = false) ∧ OCV2SOC L ocv = fin 50))
      ∧ OCV2SOC L nan = fin 50 := by
  refine ⟨fun n hn => ?_, OCV2SOC_first_close L ocv, ?_⟩
  · unfold OCV2SOC
    exact OCV2SOC_loop_fuel L ocv n 999 1 (fin 90) (by omega) (by omega) (by omega)
  · rcases OCV2SOC_first_close L nan with ⟨k, -, hk, -⟩ | ⟨-, h⟩
    · rw [closeStep_nan] at hk
      exact absurd hk Bool.false_ne_true
    · exact h

end NewtonCap

/-! ## C12, C13, C14: the scale and the remaining fractions -/

section ScaleRule

variable {K : Type} [LinearOrderedField K]

/-- C12 (amended): `computeScale` sets the scale from the quotient
`v_full / bat_v`, `bat_v = v_empty + (v_full - v_empty) * remaining_voltage`:
a finite quotient is clamped to `[1.0, 1.3]`, a quotient that is `NaN` or
`-inf` gives exactly 1.0, and a quotient of `+inf` gives 1.3, as every
quotient above 1.3 does. -/
theorem C12_computeScale_clamps_quotient (p : Params K) (s : State K) :
    (computeScale p s)._scale
      = clampScale (p.v_full / (p.v_empty + (p.v_full - p.v_empty) * s._remaining_voltage)) := by
  unfold computeScale
  dsimp only
  generalize p.v_full / (p.v_empty + (p.v_full - p.v_empty) * s._remaining_voltage) = x
  cases x with
  | fin v =>
    by_cases h1 : 13 / 10 < v
    · have h2 : (1 : K) ≤ 13 / 10 := by norm_num
      simp [h1, clampScale, min_eq_right (le_of_lt h1), max_eq_right h2]
    · by_cases h2 : v < 1
      · simp [h1, h2, clampScale, min_eq_left (not_lt.1 h1), max_eq_left (le_of_lt h2)]
      · simp [h1, h2, clampScale, min_eq_left (not_lt.1 h1), max_eq_right (not_lt.1 h2)]
  | pinf => simp [FVal.gt, FVal.lt, clampScale]
  | ninf => simp [FVal.gt, FVal.lt, clampScale]
  | nan => simp [clampScale]

end ScaleRule

section ScaleSample

theorem zeroEmpty_first_remaining_voltage (L : Libm ℚ) (junk : Mbes ℚ) :
    (updateState L zeroEmptyPack (State.new junk) (idleCall 1000 (-1680)))._remaining_voltage
      = fin 0 := by
  rw [updateState_remaining_voltage]
  simp [estimateRemaining, State.new, idleCall, zeroEmptyPack, FVal.ofInt]
  norm_num

/-- C12, counterexample: a pack whose empty voltage is set to 0 V.  With
remaining-by-voltage at 0 the implied cell voltage `bat_v` is 0, the quotient
`v_full / bat_v` is `+inf`, not finite, and `computeScale` sets the scale to
1.3, not 1.0.  A fresh estimator is in that state after one call reading
-1680 V. -/
theorem C12_counterexample :
    zeroEmptyPack.v_empty
        + (zeroEmptyPack.v_full - zeroEmptyPack.v_empty)
          * ({ State.new zeroMbes with _remaining_voltage := fin 0 } : State ℚ)._remaining_voltage
        = fin 0
      ∧ isFinite (zeroEmptyPack.v_full
          / (zeroEmptyPack.v_empty
            + (zeroEmptyPack.v_full - zeroEmptyPack.v_empty)
              * ({ State.new zeroMbes with _remaining_voltage := fin 0 } :
                  State ℚ)._remaining_voltage)) = false
      ∧ (computeScale zeroEmptyPack
          { State.new zeroMbes with _remaining_voltage := fin 0 })._scale = fin (13 / 10)
      ∧ (updateBatteryStatus approxLibm zeroEmptyPack (State.new zeroMbes)
          (idleCall 1000 (-1680))).1._remaining_voltage = fin 0
      ∧ (updateBatteryStatus approxLibm zeroEmptyPack (State.new zeroMbes)
          (idleCall 1000 (-1680))).1._scale = fin (13 / 10) := by
  refine ⟨?_, ?_, ?_, ?_, ?_⟩
  · simp [zeroEmptyPack]
  · simp [zeroEmptyPack]
  · simp [computeScale, zeroEmptyPack]
    norm_num [FVal.gt, FVal.lt]
  · rw [updateBatteryStatus_fst]
    exact zeroEmpty_first_remaining_voltage _ _
  · rw [updateBatteryStatus_fst, updateState_scale]
    unfold computeScale
    rw [← updateState_remaining_voltage, zeroEmpty_first_remaining_voltage]
    simp [zeroEmptyPack]
    norm_num [FVal.gt, FVal.lt]

end ScaleSample

section RemainingChoice

variable {K : Type} [LinearOrderedField K]

theorem clamp01_fin (y : K) : clamp01 (fin y : FVal K) = fin (max 0 (min 1 y)) := by
  unfold clamp01
  by_cases h0 : y < 0
  · have h1 : min 1 y = y := min_eq_right (by linarith)
    simp [h0, h1, max_eq_left (le_of_lt h0)]
  · by_cases h1 : 1 < y
    · simp [h0, h1, min_eq_left (le_of_lt h1)]
    · simp [h0, h1, min_eq_right (not_lt.1 h1), max_eq_right (not_lt.1 h0)]

/-- C13 (amended): in `estimateRemaining` the unsmoothed voltage-based
fraction is the voltage argument `voltage_v` of the call, the measured
terminal voltage and not the member `_voltage_filtered_v`, normalised into the
pack range: `(voltage_v - n_cells * empty_dyn) / (n_cells * (v_full -
v_empty))`, with `empty_dyn = v_empty - current_a * r_internal` for the current
argument if `r_internal >= 0`, and otherwise `v_empty - v_load_drop * thr`,
`thr = (|throttle| + 0.1) / 1.1` when armed and 0 when disarmed.
Remaining-by-voltage becomes `0.99 * old + 0.01 * fraction` if that value is
finite and stays `old` if it is not, clamped to `[0, 1]`; the same holds of
the member after `updateBatteryStatus`.  For finite numbers the new value is
`max 0 (min 1 (0.99 * old + 0.01 * fraction))`. -/
theorem C13_remaining_voltage_from_measured_voltage (L : Libm K) (p : Params K) (s : State K)
    (voltage_v current_a throttle : FVal K) (armed : Bool) :
    (estimateRemaining L p s voltage_v current_a throttle armed)._remaining_voltage
        = clamp01
            (if isFinite
                (slowBlend s._remaining_voltage
                  (voltageFraction p voltage_v current_a throttle armed))
              then slowBlend s._remaining_voltage
                (voltageFraction p voltage_v current_a throttle armed)
              else s._remaining_voltage)
      ∧ (∀ a : UpdateArgs K,
          (updateBatteryStatus L p s a).1._remaining_voltage
            = clamp01
                (if isFinite
                    (slowBlend s._remaining_voltage
                      (voltageFraction p a.voltage_v a.current_a a.throttle_normalized a.armed))
                  then slowBlend s._remaining_voltage
                    (voltageFraction p a.voltage_v a.current_a a.throttle_normalized a.armed)
                  else s._remaining_voltage))
      ∧ ∀ old f : K, s._remaining_voltage = fin old →
          voltageFraction p voltage_v current_a throttle armed = fin f →
          (estimateRemaining L p s voltage_v current_a throttle armed)._remaining_voltage
            = fin (max 0 (min 1 (old * (99 / 100) + f * (1 / 100)))) := by
  have h1 : (estimateRemaining L p s voltage_v current_a throttle armed)._remaining_voltage
      = clamp01
          (if isFinite
              (slowBlend s._remaining_voltage
                (voltageFraction p voltage_v current_a throttle armed))
            then slowBlend s._remaining_voltage
              (voltageFraction p voltage_v current_a throttle armed)
            else s._remaining_voltage) := by
    unfold estimateRemaining clamp01 slowBlend voltageFraction dynamicEmpty
    cases armed <;> cases hr : ge p.r_internal (fin 0) <;> simp [hr]
  refine ⟨h1, fun a => ?_, fun old f hold hf => ?_⟩
  · rw [updateBatteryStatus_fst, updateState_remaining_voltage]
    unfold estimateRemaining clamp01 slowBlend voltageFraction dynamicEmpty
    cases a.armed <;> cases hr : ge p.r_internal (fin 0) <;> simp [hr]
  · rw [h1, hold, hf]
    simp only [slowBlend, fin_mul_fin, fin_add_fin, isFinite_fin, if_true]
    exact clamp01_fin _

/-- C14: after every `estimateRemaining` call, with any state, parameters and
inputs, the chosen remaining fraction `_remaining` is the capacity-based
fraction `_remaining_capacity` when the configured capacity is `> 0`, and the
voltage-based fraction `_remaining_voltage` otherwise (a capacity that is 0,
negative or `NaN`); both fractions are the clamped ones (each is `clamp01` of
some value); the same choice holds of the members after
`updateBatteryStatus`. -/
theorem C14_remaining_is_capacity_or_voltage_fraction (L : Libm K) (p : Params K) (s : State K)
    (voltage_v current_a throttle : FVal K) (armed : Bool) (a : UpdateArgs K) :
    (estimateRemaining L p s voltage_v current_a throttle armed)._remaining
        = (if gt p.capacity (fin 0) then
            (estimateRemaining L p s voltage_v current_a throttle armed)._remaining_capacity
          else (estimateRemaining L p s voltage_v current_a throttle armed)._remaining_voltage)
      ∧ (∃ x y : FVal K,
          (estimateRemaining L p s voltage_v current_a throttle armed)._remaining_capacity
              = clamp01 x
            ∧ (estimateRemaining L p s voltage_v current_a throttle armed)._remaining_voltage
              = clamp01 y)
      ∧ (updateBatteryStatus L p s a).1._remaining
        = (if gt p.capacity (fin 0) then (updateBatteryStatus L p s a).1._remaining_capacity
          else (updateBatteryStatus L p s a).1._remaining_voltage) := by
  refine ⟨?_, ?_, ?_⟩
  · unfold estimateRemaining
    dsimp only
  · unfold estimateRemaining clamp01
    exact ⟨_, _, rfl, rfl⟩
  · rw [updateBatteryStatus_fst]
    exact updateState_remaining L p s a

end RemainingChoice

section RemainingSample

theorem pack_first_remaining_voltage (L : Libm ℚ) (junk : Mbes ℚ) :
    (updateState L packParams (State.new junk) (idleCall 1000 16))._remaining_voltage
      = fin (349 / 350) := by
  rw [updateState_remaining_voltage]
  simp [estimateRemaining, State.new, idleCall, packParams, FVal.ofInt]
  norm_num

theorem pack_first_voltage (L : Libm ℚ) (junk : Mbes ℚ) :
    (updateState L packParams (State.new junk) (idleCall 1000 16))._voltage_filtered_v
      = fin 16 := by
  simp [filterVoltage, State.new, idleCall]
  norm_num

/-- C13, counterexample: a fresh estimator of a four-cell pack reads 16 V and
then 12 V.  In the second call the filtered voltage is 15.96 V; the claimed
formula with the filtered voltage gives `34796/35000` for remaining-by-voltage,
the code, which normalises the measured 12 V, leaves `34301/35000`. -/
theorem C13_counterexample :
    (updateBatteryStatus approxLibm packParams
        (updateBatteryStatus approxLibm packParams (State.new zeroMbes) (idleCall 1000 16)).1
        (idleCall 2000 12)).1._voltage_filtered_v = fin (399 / 25)
      ∧ clamp01
          (slowBlend
            (updateBatteryStatus approxLibm packParams (State.new zeroMbes)
              (idleCall 1000 16)).1._remaining_voltage
            (voltageFraction packParams
              (updateBatteryStatus approxLibm packParams
                (updateBatteryStatus approxLibm packParams (State.new zeroMbes)
                  (idleCall 1000 16)).1
                (idleCall 2000 12)).1._voltage_filtered_v
              (idleCall 2000 12).current_a (idleCall 2000 12).throttle_normalized
              (idleCall 2000 12).armed))
        = fin (34796 / 35000)
      ∧ (updateBatteryStatus approxLibm packParams
          (updateBatteryStatus approxLibm packParams (State.new zeroMbes) (idleCall 1000 16)).1
          (idleCall 2000 12)).1._remaining_voltage = fin (34301 / 35000) := by
  simp only [updateBatteryStatus_fst]
  have hv : (updateState approxLibm packParams
      (updateState approxLibm packParams (State.new zeroMbes) (idleCall 1000 16))
      (idleCall 2000 12))._voltage_filtered_v = fin (399 / 25) := by
    rw [updateState_voltage_filtered_v]
    simp only [filterVoltage, pack_first_voltage]
    simp [idleCall]
    norm_num
  refine ⟨hv, ?_, ?_⟩
  · rw [hv, pack_first_remaining_voltage]
    simp [clamp01, slowBlend, voltageFraction, dynamicEmpty, packParams, idleCall, FVal.ofInt]
    norm_num
  · rw [updateState_remaining_voltage]
    simp only [estimateRemaining, pack_first_remaining_voltage]
    simp [packParams, idleCall, FVal.ofInt]
    norm_num

/-- Witness for C13 (amended): the first call of a fresh estimator of a
four-cell pack reading 16 V: old value 1, fraction 5/7. -/
theorem C13_witness :
    (State.new zeroMbes)._remaining_voltage = fin (1 : ℚ)
      ∧ voltageFraction packParams (fin 16) (fin 0) (fin 0) true = fin (5 / 7 : ℚ)
      ∧ (estimateRemaining approxLibm packParams (State.new zeroMbes) (fin 16) (fin 0) (fin 0)
          true)._remaining_voltage
        = fin (max 0 (min 1 ((1 : ℚ) * (99 / 100) + 5 / 7 * (1 / 100)))) := by
  have hf : voltageFraction packParams (fin 16) (fin 0) (fin 0) true = fin (5 / 7 : ℚ) := by
    simp [voltageFraction, dynamicEmpty, packParams, FVal.ofInt]
    norm_num
  exact ⟨rfl, hf,
    (C13_remaining_voltage_from_measured_voltage approxLibm packParams (State.new zeroMbes)
      (fin 16) (fin 0) (fin 0) true).2.2 1 (5 / 7) rfl hf⟩

end RemainingSample

/-! ## C15: the filters start at the first sample -/

section FilterStart

variable {K : Type} [LinearOrderedField K]

theorem updateState_voltage_first (L : Libm K) (p : Params K) (junk : Mbes K) (a : UpdateArgs K)
    (v : K) (hv : a.voltage_v = fin v) :
    (updateState L p (State.new junk) a)._voltage_filtered_v = fin v := by
  simp [filterVoltage, State.new, hv]
  ring

theorem updateState_current_first (L : Libm K) (p : Params K) (junk : Mbes K) (a : UpdateArgs K)
    (i : K) (hi : motorCurrent a.motor_out = fin i) :
    (updateState L p (State.new junk) a)._current_filtered_a = fin i := by
  rw [updateState_current_filtered_a]
  simp [filterCurrent, State.new, hi]
  ring

theorem updateState_voltage_later (L : Libm K) (p : Params K) (s : State K) (a : UpdateArgs K)
    (old v : K) (hs : s._voltage_filtered_v = fin old) (hold : 0 ≤ old)
    (hv : a.voltage_v = fin v) :
    (updateState L p s a)._voltage_filtered_v = fin (old * (99 / 100) + v * (1 / 100)) := by
  simp [filterVoltage, hs, hv, not_lt.2 hold]

theorem updateState_current_later (L : Libm K) (p : Params K) (s : State K) (a : UpdateArgs K)
    (old i : K) (hs : s._current_filtered_a = fin old) (hold : 0 ≤ old)
    (hi : motorCurrent a.motor_out = fin i) :
    (updateState L p s a)._current_filtered_a = fin (old * (98 / 100) + i * (2 / 100)) := by
  rw [updateState_current_filtered_a]
  simp [filterCurrent, hs, hi, not_lt.2 hold]

theorem runUpdates_voltage_filtered (L : Libm K) (rest : List (Params K × UpdateArgs K)) :
    ∀ (s : State K) (old : K) (vs : List K), s._voltage_filtered_v = fin old → 0 ≤ old →
      rest.map (fun c => c.2.voltage_v) = vs.map fin → (∀ v ∈ vs, 0 ≤ v) →
      (runUpdates L s rest)._voltage_filtered_v
        = fin (vs.foldl (fun o v => o * (99 / 100) + v * (1 / 100)) old) := by
  induction rest with
  | nil =>
    intro s old vs hs _ hmap _
    cases vs with
    | nil => simpa [runUpdates] using hs
    | cons v vs => simp at hmap
  | cons c rest ih =>
    intro s old vs hs hold hmap hpos
    obtain ⟨p, a⟩ := c
    cases vs with
    | nil => simp at hmap
    | cons v vs =>
      simp only [List.map_cons, List.cons.injEq] at hmap
      simp only [List.mem_cons, forall_eq_or_imp] at hpos
      simp only [runUpdates, updateBatteryStatus_fst, List.foldl_cons]
      refine ih _ _ vs (updateState_voltage_later L p s a old v hs hold hmap.1) ?_ hmap.2 hpos.2
      have := hpos.1
      positivity

theorem runUpdates_current_filtered (L : Libm K) (rest : List (Params K × UpdateArgs K)) :
    ∀ (s : State K) (old : K) (cs : List K), s._current_filtered_a = fin old → 0 ≤ old →
      rest.map (fun c => motorCurrent c.2.motor_out) = cs.map fin → (∀ i ∈ cs, 0 ≤ i) →
      (runUpdates L s rest)._current_filtered_a
        = fin (cs.foldl (fun o i => o * (98 / 100) + i * (2 / 100)) old) := by
  induction rest with
  | nil =>
    intro s old cs hs _ hmap _
    cases cs with
    | nil => simpa [runUpdates] using hs
    | cons v vs => simp at hmap
  | cons c rest ih =>
    intro s old cs hs hold hmap hpos
    obtain ⟨p, a⟩ := c
    cases cs with
    | nil => simp at hmap
    | cons i cs =>
      simp only [List.map_cons, List.cons.injEq] at hmap
      simp only [List.mem_cons, forall_eq_or_imp] at hpos
      simp only [runUpdates, updateBatteryStatus_fst, List.foldl_cons]
      refine ih _ _ cs (updateState_current_later L p s a old i hs hold hmap.1) ?_ hmap.2 hpos.2
      have := hpos.1
      positivity

/-- C15: a freshly constructed estimator (filtered voltage and current at the
sentinel -1) receives a first call with voltage sample `v0 >= 0` and estimated
current `i0 >= 0`, then further calls with voltage samples `vs` and estimated
currents `cs`, all finite and not negative.  After the first call the filtered
voltage is exactly `v0` and the filtered current exactly `i0` (exact
arithmetic); every later call replaces the filtered voltage `old` by
`0.99 * old + 0.01 * v` and the filtered current `old` by
`0.98 * old + 0.02 * i`, so that after the whole sequence the members are the
folds of these updates over the samples, started at `v0` and `i0`. -/
theorem C15_filters_start_at_first_sample (L : Libm K) (junk : Mbes K) (p0 : Params K)
    (a0 : UpdateArgs K) (rest : List (Params K × UpdateArgs K)) (v0 i0 : K) (vs cs : List K)
    (hv0 : a0.voltage_v = fin v0) (hv0n : 0 ≤ v0)
    (hi0 : motorCurrent a0.motor_out = fin i0) (hi0n : 0 ≤ i0)
    (hvs : rest.map (fun c => c.2.voltage_v) = vs.map fin) (hvn : ∀ v ∈ vs, 0 ≤ v)
    (hcs : rest.map (fun c => motorCurrent c.2.motor_out) = cs.map fin)
    (hcn : ∀ i ∈ cs, 0 ≤ i) :
    (updateBatteryStatus L p0 (State.new junk) a0).1._voltage_filtered_v = fin v0
      ∧ (updateBatteryStatus L p0 (State.new junk) a0).1._current_filtered_a = fin i0
      ∧ (runUpdates L (State.new junk) ((p0, a0) :: rest))._voltage_filtered_v
          = fin (vs.foldl (fun old v => old * (99 / 100) + v * (1 / 100)) v0)
      ∧ (runUpdates L (State.new junk) ((p0, a0) :: rest))._current_filtered_a
          = fin (cs.foldl (fun old i => old * (98 / 100) + i * (2 / 100)) i0) := by
  have h1 := updateState_voltage_first L p0 junk a0 v0 hv0
  have h2 := updateState_current_first L p0 junk a0 i0 hi0
  refine ⟨by rw [updateBatteryStatus_fst]; exact h1, by rw [updateBatteryStatus_fst]; exact h2,
    ?_, ?_⟩
  · simp only [runUpdates, updateBatteryStatus_fst]
    exact runUpdates_voltage_filtered L rest _ v0 vs h1 hv0n hvs hvn
  · simp only [runUpdates, updateBatteryStatus_fst]
    exact runUpdates_current_filtered L rest _ i0 cs h2 hi0n hcs hcn

end FilterStart

section FilterSample

/-- Witness for C15: a fresh estimator reads 16 V, then 12 V, with idle motors
(1.36 A estimated) in both calls. -/
theorem C15_witness :
    (runUpdates approxLibm (State.new zeroMbes)
        [(packParams, idleCall 1000 16), (packParams, idleCall 2000 12)])._voltage_filtered_v
        = fin ((16 : ℚ) * (99 / 100) + 12 * (1 / 100))
      ∧ (runUpdates approxLibm (State.new zeroMbes)
          [(packParams, idleCall 1000 16), (packParams, idleCall 2000 12)])._current_filtered_a
        = fin ((136 / 100 : ℚ) * (98 / 100) + 136 / 100 * (2 / 100)) := by
  have h := C15_filters_start_at_first_sample approxLibm zeroMbes packParams (idleCall 1000 16)
    [(packParams, idleCall 2000 12)] 16 (136 / 100) [12] [136 / 100] rfl (by norm_num)
    motorCurrent_idle (by norm_num) rfl (by simp)
    (by simp only [List.map_cons, List.map_nil, idleCall]; rw [motorCurrent_idle])
    (by simp; norm_num)
  exact ⟨h.2.2.1, h.2.2.2⟩

end FilterSample

/-! ## C16, C17: the spliced curve and its derivative -/

section CurveSmooth

theorem hasDerivAt_lowLine (s : ℝ) :
    HasDerivAt (fun x : ℝ => ocvSlope 2 * (x - 2) + ocvModel Real.log 2) (ocvSlope 2) s := by
  have h := (((hasDerivAt_id s).sub_const 2).const_mul (ocvSlope 2)).add_const
    (ocvModel Real.log 2)
  simpa using h

theorem hasDerivAt_highLine (s : ℝ) :
    HasDerivAt (fun x : ℝ => ocvSlope 98 * (x - 98) + ocvModel Real.log 98) (ocvSlope 98) s := by
  have h := (((hasDerivAt_id s).sub_const 98).const_mul (ocvSlope 98)).add_const
    (ocvModel Real.log 98)
  simpa using h

/-- The spliced curve has the spliced slope as derivative at every point. -/
theorem hasDerivAt_ocvCurve (s : ℝ) : HasDerivAt (ocvCurve Real.log) (ocvCurveSlope s) s := by
  rcases lt_trichotomy s 2 with h | h | h
  · rw [ocvCurveSlope_low s h.le]
    refine (hasDerivAt_lowLine s).congr_of_eventuallyEq ?_
    filter_upwards [Iio_mem_nhds h] with x hx
    exact ocvCurve_low x (le_of_lt hx)
  · subst h
    rw [ocvCurveSlope_low 2 le_rfl]
    have hl : HasDerivWithinAt (ocvCurve Real.log) (ocvSlope 2) (Set.Iic 2) 2 :=
      ((hasDerivAt_lowLine 2).hasDerivWithinAt).congr (fun x hx => ocvCurve_low x hx)
        (ocvCurve_low 2 le_rfl)
    have hm : HasDerivWithinAt (ocvCurve Real.log) (ocvSlope 2) (Set.Icc 2 98) 2 :=
      ((hasDerivAt_ocvModel 2 (by norm_num) (by norm_num)).hasDerivWithinAt).congr
        (fun x hx => ocvCurve_mid x hx.1 hx.2) (ocvCurve_mid 2 le_rfl (by norm_num))
    have hr : HasDerivWithinAt (ocvCurve Real.log) (ocvSlope 2) (Set.Ici 2) 2 :=
      hm.mono_of_mem_nhdsWithin (Icc_mem_nhdsWithin_Ici ⟨le_rfl, by norm_num⟩)
    have hu := hl.union hr
    rwa [Set.Iic_union_Ici, hasDerivWithinAt_univ] at hu
  · rcases lt_trichotomy s 98 with h2 | h2 | h2
    · rw [ocvCurveSlope_mid s h.le h2.le]
      refine (hasDerivAt_ocvModel s (by linarith) (by linarith)).congr_of_eventuallyEq ?_
      filter_upwards [Ioo_mem_nhds h h2] with x hx
      exact ocvCurve_mid x hx.1.le hx.2.le
    · subst h2
      rw [ocvCurveSlope_high 98 le_rfl]
      have hh : HasDerivWithinAt (ocvCurve Real.log) (ocvSlope 98) (Set.Ici 98) 98 :=
        ((hasDerivAt_highLine 98).hasDerivWithinAt).congr (fun x hx => ocvCurve_high x hx)
          (ocvCurve_high 98 le_rfl)
      have hm : HasDerivWithinAt (ocvCurve Real.log) (ocvSlope 98) (Set.Icc 2 98) 98 :=
        ((hasDerivAt_ocvModel 98 (by norm_num) (by norm_num)).hasDerivWithinAt).congr
          (fun x hx => ocvCurve_mid x hx.1 hx.2) (ocvCurve_mid 98 (by norm_num) le_rfl)
      have hl : HasDerivWithinAt (ocvCurve Real.log) (ocvSlope 98) (Set.Iic 98) 98 :=
        hm.mono_of_mem_nhdsWithin (Icc_mem_nhdsWithin_Iic ⟨by norm_num, le_rfl⟩)
      have hu := hl.union hh
      rwa [Set.Iic_union_Ici, hasDerivWithinAt_univ] at hu
    · rw [ocvCurveSlope_high s h2.le]
      refine (hasDerivAt_highLine s).congr_of_eventuallyEq ?_
      filter_upwards [Ioi_mem_nhds h2] with x hx
      exact ocvCurve_high x (le_of_lt hx)

/-- C16: in exact real arithmetic, `logf` being the natural logarithm.
`SOC2OCV(soc)` is `model(soc)` for `soc` in `[2, 98]`,
`model(98) + dmodel(98) * (soc - 98)` for `soc > 98` and
`model(2) + dmodel(2) * (soc - 2)` for `soc < 2`.  As functions of a real
`soc`, `SOC2OCV` is a curve `F` and `dSOC2OCV` a slope `D` such that `F` is
continuous and has the derivative `D soc` at every real `soc`, the splice
points 2 and 98 included. -/
theorem C16_SOC2OCV_spliced_smoothly (L : Libm ℝ)
    (hlog : ∀ x : ℝ, 0 < x → L.logf (fin x) = fin (Real.log x)) :
    (∀ soc : ℝ, 2 ≤ soc → soc ≤ 98 → SOC2OCV L (fin soc) = model L (fin soc))
      ∧ (∀ soc : ℝ, 98 < soc →
          SOC2OCV L (fin soc) = model L (fin 98) + dmodel (fin 98) * (fin soc - fin 98))
      ∧ (∀ soc : ℝ, soc < 2 →
          SOC2OCV L (fin soc) = model L (fin 2) + dmodel (fin 2) * (fin soc - fin 2))
      ∧ ∃ F D : ℝ → ℝ, (∀ soc : ℝ, SOC2OCV L (fin soc) = fin (F soc))
          ∧ (∀ soc : ℝ, dSOC2OCV (fin soc) = fin (D soc))
          ∧ Continuous F ∧ (∀ soc : ℝ, HasDerivAt F (D soc) soc)
          ∧ ContinuousAt F 2 ∧ ContinuousAt F 98
          ∧ HasDerivAt F (D 2) 2 ∧ HasDerivAt F (D 98) 98 := by
  have e98 := model_fin L hlog 98 (by norm_num) (by norm_num)
  have e2 := model_fin L hlog 2 (by norm_num) (by norm_num)
  have d98 := dmodel_fin 98 (by norm_num) (by norm_num)
  have d2 := dmodel_fin 2 (by norm_num) (by norm_num)
  refine ⟨fun soc h0 h1 => ?_, fun soc h => ?_, fun soc h => ?_,
    ocvCurve Real.log, ocvCurveSlope, SOC2OCV_fin L hlog, dSOC2OCV_fin, ?_, hasDerivAt_ocvCurve,
    (hasDerivAt_ocvCurve 2).continuousAt, (hasDerivAt_ocvCurve 98).continuousAt,
    hasDerivAt_ocvCurve 2, hasDerivAt_ocvCurve 98⟩
  · simp [SOC2OCV, not_lt.2 h0, not_lt.2 h1]
  · simp [SOC2OCV, dSOC2OCV, h, e98, d98, add_comm]
  · have h98 : ¬ (98 : ℝ) < soc := by linarith
    simp [SOC2OCV, dSOC2OCV, h, h98, e2, d2, add_comm]
  · exact continuous_iff_continuousAt.2 (fun s => (hasDerivAt_ocvCurve s).continuousAt)

/-- C17: in exact real arithmetic, `logf` being the natural logarithm, for
every `soc` in `(0, 100)`: `model(soc)` is
`E0 + K1 * ln x + K2 * ln (1 - x) - K3 / x - K4 * x` with `x = soc / 100`,
`dmodel(soc)` is `(K1 / x - K2 / (1 - x) + K3 / x^2 - K4) / 100`, with the
same `K1 = -0.9267`, `K2 = -0.0146`, `K3 = 0.14`, `K4 = -1.6944` in both
(`E0 = 2.5632`), and the derivative of the first with respect to `soc` is the
second. -/
theorem C17_dmodel_is_derivative_of_model (L : Libm ℝ)
    (hlog : ∀ x : ℝ, 0 < x → L.logf (fin x) = fin (Real.log x)) (soc : ℝ) (h0 : 0 < soc)
    (h1 : soc < 100) :
    model L (fin soc)
        = fin (25632 / 10000 + -9267 / 10000 * Real.log (soc / 100)
            + -146 / 10000 * Real.log (1 - soc / 100) - 1400 / 10000 / (soc / 100)
            - -16944 / 10000 * (soc / 100))
      ∧ dmodel (fin soc)
        = fin ((-9267 / 10000 / (soc / 100) - -146 / 10000 / (1 - soc / 100)
            + 1400 / 10000 / (soc / 100) ^ 2 - -16944 / 10000) / 100)
      ∧ HasDerivAt
          (fun s : ℝ => 25632 / 10000 + -9267 / 10000 * Real.log (s / 100)
            + -146 / 10000 * Real.log (1 - s / 100) - 1400 / 10000 / (s / 100)
            - -16944 / 10000 * (s / 100))
          ((-9267 / 10000 / (soc / 100) - -146 / 10000 / (1 - soc / 100)
            + 1400 / 10000 / (soc / 100) ^ 2 - -16944 / 10000) / 100)
          soc := by
  have hs : ocvSlope soc
      = (-9267 / 10000 / (soc / 100) - -146 / 10000 / (1 - soc / 100)
          + 1400 / 10000 / (soc / 100) ^ 2 - -16944 / 10000) / 100 := by
    unfold ocvSlope
    rw [pow_two]
  refine ⟨model_fin L hlog soc h0 h1, ?_, ?_⟩
  · rw [dmodel_fin soc h0 h1, hs]
  · rw [← hs]
    exact hasDerivAt_ocvModel soc h0 h1

/-- Witness for C16 and C17: a libm whose `logf` is the natural logarithm on
finite arguments. -/
theorem C16_witness :
    ∃ L : Libm ℝ, (∀ x : ℝ, 0 < x → L.logf (fin x) = fin (Real.log x))
      ∧ ∃ F D : ℝ → ℝ, (∀ soc : ℝ, SOC2OCV L (fin soc) = fin (F soc))
          ∧ (∀ soc : ℝ, dSOC2OCV (fin soc) = fin (D soc))
          ∧ HasDerivAt F (D 2) 2 ∧ HasDerivAt F (D 98) 98 := by
  have hlog : ∀ x : ℝ, 0 < x →
      (Libm.mk (fun x => match x with
          | fin q => fin (Real.log q)
          | _ => nan)
        (fun x => match x with
          | fin q => fin (Real.exp q)
          | _ => nan)
        (fin Real.pi)).logf (fin x) = fin (Real.log x) :=
    fun _ _ => rfl
  obtain ⟨-, -, -, F, D, hF, hD, -, -, -, -, h2, h98⟩ := C16_SOC2OCV_spliced_smoothly _ hlog
  exact ⟨_, hlog, F, D, hF, hD, h2, h98⟩

/-- Witness for C17, at `soc = 50`. -/
theorem C17_witness :
    ∃ L : Libm ℝ, (∀ x : ℝ, 0 < x → L.logf (fin x) = fin (Real.log x))
      ∧ (0 : ℝ) < 50 ∧ (50 : ℝ) < 100
      ∧ dmodel (fin (50 : ℝ))
        = fin ((-9267 / 10000 / (50 / 100) - -146 / 10000 / (1 - 50 / 100)
            + 1400 / 10000 / (50 / 100) ^ 2 - -16944 / 10000) / 100) := by
  have hlog : ∀ x : ℝ, 0 < x →
      (Libm.mk (fun x => match x with
          | fin q => fin (Real.log q)
          | _ => nan)
        (fun x => match x with
          | fin q => fin (Real.exp q)
          | _ => nan)
        (fin Real.pi)).logf (fin x) = fin (Real.log x) :=
    fun _ _ => rfl
  exact ⟨_, hlog, by norm_num, by norm_num,
    (C17_dmodel_is_derivative_of_model _ hlog 50 (by norm_num) (by norm_num)).2.1⟩

end CurveSmooth

/-! ## C18: the two transition matrices of the Kalman filter -/

section InitMembers

variable {K : Type} [LinearOrderedField K]

theorem init_Rl (L : Libm K) (p : Params K) (m : Mbes K) (v : FVal K) (i : Fin 4)
    (hi : i ≠ 0) :
    (MBES_EKF_init L p m v)._mbes_Rl i
      = fin 8 * L.exp (fin (-33752 / 10000)) / ofInt (2 * (i : Int) - 1)
          / ofInt (2 * (i : Int) - 1) / L.M_PI_F / L.M_PI_F := by
  fin_cases i
  · exact absurd rfl hi
  · rfl
  · rfl
  · rfl

theorem init_Cl (L : Libm K) (p : Params K) (m : Mbes K) (v : FVal K) (i : Fin 4)
    (hi : i ≠ 0) :
    (MBES_EKF_init L p m v)._mbes_Cl i = L.exp (fin (61933 / 10000)) / fin 2 := by
  fin_cases i
  · exact absurd rfl hi
  · rfl
  · rfl
  · rfl

theorem init_A_diag (L : Libm K) (p : Params K) (m : Mbes K) (v : FVal K) (i : Fin 4)
    (hi : i ≠ 0) :
    (MBES_EKF_init L p m v)._mbes_A i i
      = fin (-1) / ((MBES_EKF_init L p m v)._mbes_Rl i * (MBES_EKF_init L p m v)._mbes_Cl i) := by
  fin_cases i
  · exact absurd rfl hi
  · rfl
  · rfl
  · rfl

theorem init_A0_diag (L : Libm K) (p : Params K) (m : Mbes K) (v : FVal K) (i : Fin 4)
    (hi : i ≠ 0) :
    (MBES_EKF_init L p m v)._mbes_A0 i i
      = fin 1 + fin (1 / 2) * (MBES_EKF_init L p m v)._mbes_A i i := by
  fin_cases i
  · exact absurd rfl hi
  · rfl
  · rfl
  · rfl

theorem init_B0 (L : Libm K) (p : Params K) (m : Mbes K) (v : FVal K) (i : Fin 4)
    (hi : i ≠ 0) :
    (MBES_EKF_init L p m v)._mbes_B0 i 0 = fin (1 / 2) / (MBES_EKF_init L p m v)._mbes_Cl i := by
  fin_cases i
  · exact absurd rfl hi
  · rfl
  · rfl
  · rfl

theorem init_Ad_diag (L : Libm K) (p : Params K) (m : Mbes K) (v : FVal K) (i : Fin 4) :
    (MBES_EKF_init L p m v)._mbes_Ad i i
      = L.exp ((MBES_EKF_init L p m v)._mbes_A i i * fin (1 / 2)) := by
  fin_cases i
  · rfl
  · rfl
  · rfl
  · rfl

theorem init_A_zero (L : Libm K) (p : Params K) (m : Mbes K) (v : FVal K) :
    (MBES_EKF_init L p m v)._mbes_A 0 0 = fin 0 := rfl

theorem init_A0_zero (L : Libm K) (p : Params K) (m : Mbes K) (v : FVal K) :
    (MBES_EKF_init L p m v)._mbes_A0 0 0 = fin 1 := rfl

theorem init_A0_off (L : Libm K) (p : Params K) (m : Mbes K) (v : FVal K) (i j : Fin 4)
    (h : i ≠ j) : (MBES_EKF_init L p m v)._mbes_A0 i j = m._mbes_A0 i j := by
  fin_cases i <;> fin_cases j <;> first | exact absurd rfl h | rfl

theorem init_Ad_off (L : Libm K) (p : Params K) (m : Mbes K) (v : FVal K) (i j : Fin 4)
    (h : i ≠ j) : (MBES_EKF_init L p m v)._mbes_Ad i j = m._mbes_A i j * fin (1 / 2) := by
  fin_cases i <;> fin_cases j <;> first | exact absurd rfl h | rfl

theorem fin_zero_add (d : FVal K) : fin 0 + d = d := by
  cases d
  · simp
  · rfl
  · rfl
  · rfl

/-- The state prediction of the correction step, entry by entry, when the
state matrix is diagonal and the previous estimate is finite. -/
theorem correct_xhatm (L : Libm K) (m : Mbes K) (x : Fin 4 → K)
    (hA0 : ∀ i j, i ≠ j → m._mbes_A0 i j = fin 0) (hx : ∀ k, m._mbes_xhat k 0 = fin (x k))
    (i : Fin 4) :
    (MBES_EKF_correct L m)._mbes_xhatm i 0
      = m._mbes_A0 i i * fin (x i) + m._mbes_B0 i 0 * m._mbes_um := by
  have h : (MBES_EKF_correct L m)._mbes_xhatm i 0
      = (((((fin 0 : FVal K) + m._mbes_A0 i 0 * m._mbes_xhat 0 0)
            + m._mbes_A0 i 1 * m._mbes_xhat 1 0) + m._mbes_A0 i 2 * m._mbes_xhat 2 0)
            + m._mbes_A0 i 3 * m._mbes_xhat 3 0)
          + m._mbes_B0 i 0 * m._mbes_um := rfl
  rw [h]
  fin_cases i <;>
    simp [hx, hA0, fin_zero_add, add_fin_zero]

end InitMembers

section Transition

theorem branchRl_pos (rd pi : ℝ) (hrd : 0 < rd) (hpos : 0 < pi) (i : Fin 4) (hi : i ≠ 0) :
    0 < branchRl rd pi i := by
  unfold branchRl
  fin_cases i
  · exact absurd rfl hi
  all_goals
    simp
    positivity

theorem init_Rl_fin (L : Libm ℝ) (pi : ℝ)
    (hexp : ∀ x : ℝ, L.exp (fin x) = fin (Real.exp x)) (hpi : L.M_PI_F = fin pi)
    (hpos : 0 < pi) (p : Params ℝ) (m0 : Mbes ℝ) (v : FVal ℝ) (i : Fin 4) (hi : i ≠ 0) :
    (MBES_EKF_init L p m0 v)._mbes_Rl i = fin (branchRl (Real.exp (-33752 / 10000)) pi i) := by
  have hpi0 : pi ≠ 0 := hpos.ne'
  rw [init_Rl L p m0 v i hi, hexp, hpi]
  unfold branchRl
  fin_cases i
  · exact absurd rfl hi
  all_goals
    simp [FVal.ofInt, hpi0]
    field_simp
    ring

theorem init_Cl_fin (L : Libm ℝ)
    (hexp : ∀ x : ℝ, L.exp (fin x) = fin (Real.exp x)) (p : Params ℝ) (m0 : Mbes ℝ)
    (v : FVal ℝ) (i : Fin 4) (hi : i ≠ 0) :
    (MBES_EKF_init L p m0 v)._mbes_Cl i = fin (branchCl (Real.exp (61933 / 10000))) := by
  rw [init_Cl L p m0 v i hi, hexp]
  simp [branchCl]

theorem init_A_fin (L : Libm ℝ) (pi : ℝ)
    (hexp : ∀ x : ℝ, L.exp (fin x) = fin (Real.exp x)) (hpi : L.M_PI_F = fin pi)
    (hpos : 0 < pi) (p : Params ℝ) (m0 : Mbes ℝ) (v : FVal ℝ) (i : Fin 4) (hi : i ≠ 0) :
    (MBES_EKF_init L p m0 v)._mbes_A i i
      = fin (-1 / (branchRl (Real.exp (-33752 / 10000)) pi i
          * branchCl (Real.exp (61933 / 10000)))) := by
  have h1 := branchRl_pos (Real.exp (-33752 / 10000)) pi (Real.exp_pos _) hpos i hi
  have h2 : 0 < branchCl (Real.exp (61933 / 10000)) := by
    unfold branchCl
    have := Real.exp_pos (61933 / 10000)
    positivity
  have h3 : branchRl (Real.exp (-33752 / 10000)) pi i * branchCl (Real.exp (61933 / 10000)) ≠ 0 :=
    (mul_pos h1 h2).ne'
  rw [init_A_diag L p m0 v i hi, init_Rl_fin L pi hexp hpi hpos p m0 v i hi,
    init_Cl_fin L hexp p m0 v i hi, fin_mul_fin, fin_div_fin _ _ h3]

theorem branchCl_pos : 0 < branchCl (Real.exp (61933 / 10000)) := by
  unfold branchCl
  have := Real.exp_pos (61933 / 10000)
  positivity

/-- The covariance transition after the initialisation. -/
theorem init_Ad_fin (L : Libm ℝ) (pi : ℝ)
    (hexp : ∀ x : ℝ, L.exp (fin x) = fin (Real.exp x)) (hpi : L.M_PI_F = fin pi)
    (hpos : 0 < pi) (p : Params ℝ) (m0 : Mbes ℝ) (v : FVal ℝ)
    (hA : ∀ i j, i ≠ j → m0._mbes_A i j = fin 0) (i j : Fin 4) :
    (MBES_EKF_init L p m0 v)._mbes_Ad i j
      = fin (if i = j then
          (if i = 0 then 1
            else Real.exp (-(1 / 2)
              / (branchRl (Real.exp (-33752 / 10000)) pi i
                * branchCl (Real.exp (61933 / 10000)))))
          else 0) := by
  by_cases hij : i = j
  · subst hij
    rw [init_Ad_diag, if_pos rfl]
    by_cases hi : i = 0
    · subst hi
      rw [init_A_zero, if_pos rfl, fin_mul_fin, hexp]
      simp
    · rw [init_A_fin L pi hexp hpi hpos p m0 v i hi, if_neg hi, fin_mul_fin, hexp]
      congr 2
      ring
  · rw [init_Ad_off L p m0 v i j hij, hA i j hij, if_neg hij, fin_mul_fin]
    simp

/-- The state transition after the initialisation. -/
theorem init_A0_fin (L : Libm ℝ) (pi : ℝ)
    (hexp : ∀ x : ℝ, L.exp (fin x) = fin (Real.exp x)) (hpi : L.M_PI_F = fin pi)
    (hpos : 0 < pi) (p : Params ℝ) (m0 : Mbes ℝ) (v : FVal ℝ)
    (hA0 : ∀ i j, i ≠ j → m0._mbes_A0 i j = fin 0) (i j : Fin 4) :
    (MBES_EKF_init L p m0 v)._mbes_A0 i j
      = fin (if i = j then
          (if i = 0 then 1
            else 1 - (1 / 2)
              / (branchRl (Real.exp (-33752 / 10000)) pi i
                * branchCl (Real.exp (61933 / 10000))))
          else 0) := by
  by_cases hij : i = j
  · subst hij
    rw [if_pos rfl]
    by_cases hi : i = 0
    · subst hi
      rw [init_A0_zero, if_pos rfl]
    · rw [init_A0_diag L p m0 v i hi, init_A_fin L pi hexp hpi hpos p m0 v i hi, if_neg hi,
        fin_mul_fin, fin_add_fin]
      congr 1
      ring
  · rw [init_A0_off L p m0 v i j hij, hA0 i j hij, if_neg hij]

/-- The input gains of the branches after the initialisation. -/
theorem init_B0_fin (L : Libm ℝ) (hexp : ∀ x : ℝ, L.exp (fin x) = fin (Real.exp x))
    (p : Params ℝ) (m0 : Mbes ℝ) (v : FVal ℝ) (i : Fin 4) (hi : i ≠ 0) :
    (MBES_EKF_init L p m0 v)._mbes_B0 i 0
      = fin ((1 / 2) / branchCl (Real.exp (61933 / 10000))) := by
  rw [init_B0 L p m0 v i hi, init_Cl_fin L hexp p m0 v i hi, fin_div_fin _ _ branchCl_pos.ne']

/-- The branch voltage predicted by the correction step. -/
theorem correct_branch_fin (L : Libm ℝ) (pi : ℝ)
    (hexp : ∀ x : ℝ, L.exp (fin x) = fin (Real.exp x)) (hpi : L.M_PI_F = fin pi)
    (hpos : 0 < pi) (p : Params ℝ) (m0 : Mbes ℝ) (v : FVal ℝ)
    (hA0 : ∀ i j, i ≠ j → m0._mbes_A0 i j = fin 0) (m : Mbes ℝ) (x : Fin 4 → ℝ) (u : ℝ)
    (hmA : m._mbes_A0 = (MBES_EKF_init L p m0 v)._mbes_A0)
    (hmB : m._mbes_B0 = (MBES_EKF_init L p m0 v)._mbes_B0)
    (hx : ∀ k, m._mbes_xhat k 0 = fin (x k)) (hu : m._mbes_um = fin u) (i : Fin 4)
    (hi : i ≠ 0) :
    (MBES_EKF_correct L m)._mbes_xhatm i 0
      = fin ((1 - (1 / 2)
            / (branchRl (Real.exp (-33752 / 10000)) pi i
              * branchCl (Real.exp (61933 / 10000)))) * x i
          + (1 / 2) / branchCl (Real.exp (61933 / 10000)) * u) := by
  have hoff : ∀ i j, i ≠ j → m._mbes_A0 i j = fin 0 := by
    intro i j hij
    rw [hmA, init_A0_fin L pi hexp hpi hpos p m0 v hA0 i j, if_neg hij]
  rw [correct_xhatm L m x hoff hx i, hmA, hmB, init_A0_fin L pi hexp hpi hpos p m0 v hA0 i i,
    init_B0_fin L hexp p m0 v i hi, hu, if_pos rfl, if_neg hi, fin_mul_fin, fin_mul_fin,
    fin_add_fin]

/-- C18 (amended): in exact real arithmetic, `exp` being the exponential and
`M_PI_F` a positive number `pi`, for members whose matrices `_mbes_A` and
`_mbes_A0` are zero off the diagonal before the initialisation (zero-filled
matrices).  The initialisation sets `Ts = 0.5`, `Rl_i = 8 * Rd / ((2 i - 1)^2
* pi^2)` and `Cl_i = Cd / 2` for the branches `i = 1..3`, with `Rd =
exp(-3.3752)` and `Cd = exp(6.1933)`, and two different diagonal matrices.
The matrix `_mbes_Ad`, through which the correction step propagates the
covariance (`Pm = Ad * P * Ad^T + Q`), has the SOC entry 1 and the branch
entries `exp(-Ts / (Rl_i * Cl_i))`.  The matrix `_mbes_A0`, through which the
correction step propagates the state (`xhatm = A0 * xhat + B0 * um`), has the
SOC entry 1 and the branch entries `1 - Ts / (Rl_i * Cl_i)`; `B0` has the
branch entries `Ts / Cl_i`.  The correction step leaves the three matrices as
they are, and for a finite previous estimate `x` and held input `u` the
predicted branch voltage is `(1 - Ts / (Rl_i * Cl_i)) * x_i + (Ts / Cl_i) * u`. -/
theorem C18_state_euler_covariance_exponential (L : Libm ℝ) (pi : ℝ)
    (hexp : ∀ x : ℝ, L.exp (fin x) = fin (Real.exp x)) (hpi : L.M_PI_F = fin pi)
    (hpos : 0 < pi) (p : Params ℝ) (m0 : Mbes ℝ) (v : FVal ℝ)
    (hA : ∀ i j, i ≠ j → m0._mbes_A i j = fin 0)
    (hA0 : ∀ i j, i ≠ j → m0._mbes_A0 i j = fin 0) :
    (MBES_EKF_init L p m0 v)._mbes_Ts = fin (1 / 2)
      ∧ (∀ i : Fin 4, i ≠ 0 →
          (MBES_EKF_init L p m0 v)._mbes_Rl i = fin (branchRl (Real.exp (-33752 / 10000)) pi i)
            ∧ (MBES_EKF_init L p m0 v)._mbes_Cl i = fin (branchCl (Real.exp (61933 / 10000))))
      ∧ (∀ i j : Fin 4,
          (MBES_EKF_init L p m0 v)._mbes_Ad i j
            = fin (if i = j then
                (if i = 0 then 1
                  else Real.exp (-(1 / 2)
                    / (branchRl (Real.exp (-33752 / 10000)) pi i
                      * branchCl (Real.exp (61933 / 10000)))))
                else 0))
      ∧ (∀ i j : Fin 4,
          (MBES_EKF_init L p m0 v)._mbes_A0 i j
            = fin (if i = j then
                (if i = 0 then 1
                  else 1 - (1 / 2)
                    / (branchRl (Real.exp (-33752 / 10000)) pi i
                      * branchCl (Real.exp (61933 / 10000))))
                else 0))
      ∧ (∀ i : Fin 4, i ≠ 0 →
          (MBES_EKF_init L p m0 v)._mbes_B0 i 0
            = fin ((1 / 2) / branchCl (Real.exp (61933 / 10000))))
      ∧ (∀ m : Mbes ℝ,
          (MBES_EKF_correct L m)._mbes_xhatm
              = Mat.add (Mat.mul m._mbes_A0 m._mbes_xhat) (Mat.smul m._mbes_B0 m._mbes_um)
            ∧ (MBES_EKF_correct L m)._mbes_Pm
              = Mat.add (Mat.mul (Mat.mul m._mbes_Ad m._mbes_P) (Mat.T m._mbes_Ad)) m._mbes_Q
            ∧ (MBES_EKF_correct L m)._mbes_A0 = m._mbes_A0
            ∧ (MBES_EKF_correct L m)._mbes_Ad = m._mbes_Ad
            ∧ (MBES_EKF_correct L m)._mbes_B0 = m._mbes_B0)
      ∧ ∀ (m : Mbes ℝ) (x : Fin 4 → ℝ) (u : ℝ),
          m._mbes_A0 = (MBES_EKF_init L p m0 v)._mbes_A0 →
          m._mbes_B0 = (MBES_EKF_init L p m0 v)._mbes_B0 →
          (∀ k, m._mbes_xhat k 0 = fin (x k)) → m._mbes_um = fin u →
          ∀ i : Fin 4, i ≠ 0 →
            (MBES_EKF_correct L m)._mbes_xhatm i 0
              = fin ((1 - (1 / 2)
                    / (branchRl (Real.exp (-33752 / 10000)) pi i
                      * branchCl (Real.exp (61933 / 10000)))) * x i
                  + (1 / 2) / branchCl (Real.exp (61933 / 10000)) * u) := by
  exact ⟨rfl, fun i hi => ⟨init_Rl_fin L pi hexp hpi hpos p m0 v i hi,
    init_Cl_fin L hexp p m0 v i hi⟩, init_Ad_fin L pi hexp hpi hpos p m0 v hA,
    init_A0_fin L pi hexp hpi hpos p m0 v hA0, init_B0_fin L hexp p m0 v,
    fun m => ⟨rfl, rfl, rfl, rfl, rfl⟩,
    fun m x u hmA hmB hx hu i hi =>
      correct_branch_fin L pi hexp hpi hpos p m0 v hA0 m x u hmA hmB hx hu i hi⟩

/-- With the real exponential the branch-1 entries of the two transition
matrices differ, and so does the predicted branch voltage. -/
theorem transition_mismatch (L : Libm ℝ) (hexp : ∀ x : ℝ, L.exp (fin x) = fin (Real.exp x))
    (hpi : L.M_PI_F = fin Real.pi) (p : Params ℝ) (v : FVal ℝ) :
    ∃ a0 a1 : ℝ,
      a1 = Real.exp (-(1 / 2)
          / (branchRl (Real.exp (-33752 / 10000)) Real.pi 1
            * branchCl (Real.exp (61933 / 10000))))
      ∧ (MBES_EKF_init L p clearedMbes v)._mbes_A0 1 1 = fin a0
      ∧ (MBES_EKF_init L p clearedMbes v)._mbes_Ad 1 1 = fin a1
      ∧ a0 < a1
      ∧ (MBES_EKF_correct L
            { MBES_EKF_init L p clearedMbes v with
              _mbes_xhat := fun _ _ => fin 1, _mbes_um := fin 0 })._mbes_xhatm 1 0 = fin a0
      ∧ a0 ≠ a1 * 1 + (1 / 2) / branchCl (Real.exp (61933 / 10000)) * 0 := by
  have hrl := branchRl_pos (Real.exp (-33752 / 10000)) Real.pi (Real.exp_pos _) Real.pi_pos 1
    (by decide)
  have hcl := branchCl_pos
  have hx : (1 / 2 : ℝ)
      / (branchRl (Real.exp (-33752 / 10000)) Real.pi ((1 : Fin 4) : Nat)
        * branchCl (Real.exp (61933 / 10000))) ≠ 0 := by
    have := mul_pos hrl hcl
    positivity
  have hlt : 1 - (1 / 2 : ℝ)
        / (branchRl (Real.exp (-33752 / 10000)) Real.pi ((1 : Fin 4) : Nat)
          * branchCl (Real.exp (61933 / 10000)))
      < Real.exp (-(1 / 2)
          / (branchRl (Real.exp (-33752 / 10000)) Real.pi ((1 : Fin 4) : Nat)
            * branchCl (Real.exp (61933 / 10000)))) := by
    have h := Real.add_one_lt_exp (neg_ne_zero.2 hx)
    have e : -((1 / 2 : ℝ)
        / (branchRl (Real.exp (-33752 / 10000)) Real.pi ((1 : Fin 4) : Nat)
          * branchCl (Real.exp (61933 / 10000))))
        = -(1 / 2) / (branchRl (Real.exp (-33752 / 10000)) Real.pi ((1 : Fin 4) : Nat)
          * branchCl (Real.exp (61933 / 10000))) := by ring
    rw [e] at h
    linarith
  have hval : ((1 : Fin 4) : Nat) = 1 := rfl
  rw [hval] at hlt
  refine ⟨1 - (1 / 2 : ℝ)
      / (branchRl (Real.exp (-33752 / 10000)) Real.pi 1 * branchCl (Real.exp (61933 / 10000))),
    _, rfl, ?_, ?_, hlt, ?_, ?_⟩
  · rw [init_A0_fin L Real.pi hexp hpi Real.pi_pos p clearedMbes v (fun _ _ _ => rfl) 1 1]
    simp
  · rw [init_Ad_fin L Real.pi hexp hpi Real.pi_pos p clearedMbes v (fun _ _ _ => rfl) 1 1]
    simp
  · have h := correct_branch_fin L Real.pi hexp hpi Real.pi_pos p clearedMbes v
      (fun _ _ _ => rfl)
      { MBES_EKF_init L p clearedMbes v with _mbes_xhat := fun _ _ => fin 1, _mbes_um := fin 0 }
      (fun _ => 1) 0 rfl rfl (fun _ => rfl) rfl 1 (by decide)
    rw [h]
    simp
  · rw [mul_one, mul_zero, add_zero]
    exact ne_of_lt hlt

/-- C18, counterexample: a libm with the real exponential and pi, zero-filled
members, a four-cell pack reading 16 V.  After the initialisation the branch-1
entry of the state matrix `_mbes_A0` is `a0 = 1 - Ts / (Rl_1 * Cl_1)` and that
of the covariance matrix `_mbes_Ad` is `a1 = exp(-Ts / (Rl_1 * Cl_1))`, and
`a0 < a1`: the two matrices differ.  From a previous branch voltage 1 and a
held input 0 the correction step predicts the branch voltage `a0`, not
`a1 * 1 + (Ts / Cl_1) * 0`. -/
theorem C18_counterexample :
    ∃ (L : Libm ℝ) (a0 a1 : ℝ), (∀ x : ℝ, L.exp (fin x) = fin (Real.exp x))
      ∧ L.M_PI_F = fin Real.pi
      ∧ a1 = Real.exp (-(1 / 2)
          / (branchRl (Real.exp (-33752 / 10000)) Real.pi 1
            * branchCl (Real.exp (61933 / 10000))))
      ∧ (MBES_EKF_init L
            (Params.mk (fin (35 / 10)) (fin (42 / 10)) 4 (fin 0) (fin 0) (fin (-1))
              (fin (15 / 100)) (fin (7 / 100)) (fin (5 / 100)))
            clearedMbes (fin 16))._mbes_A0 1 1 = fin a0
      ∧ (MBES_EKF_init L
            (Params.mk (fin (35 / 10)) (fin (42 / 10)) 4 (fin 0) (fin 0) (fin (-1))
              (fin (15 / 100)) (fin (7 / 100)) (fin (5 / 100)))
            clearedMbes (fin 16))._mbes_Ad 1 1 = fin a1
      ∧ a0 < a1
      ∧ (MBES_EKF_correct L
            { MBES_EKF_init L
                (Params.mk (fin (35 / 10)) (fin (42 / 10)) 4 (fin 0) (fin 0) (fin (-1))
                  (fin (15 / 100)) (fin (7 / 100)) (fin (5 / 100)))
                clearedMbes (fin 16) with
              _mbes_xhat := fun _ _ => fin 1, _mbes_um := fin 0 })._mbes_xhatm 1 0 = fin a0
      ∧ a0 ≠ a1 * 1 + (1 / 2) / branchCl (Real.exp (61933 / 10000)) * 0 := by
  have hexp : ∀ x : ℝ,
      (Libm.mk (fun x => match x with
          | fin q => fin (Real.log q)
          | _ => nan)
        (fun x => match x with
          | fin q => fin (Real.exp q)
          | pinf => pinf
          | ninf => fin 0
          | nan => nan)
        (fin Real.pi)).exp (fin x) = fin (Real.exp x) := fun _ => rfl
  obtain ⟨a0, a1, h1, h2, h3, h4, h5, h6⟩ := transition_mismatch _ hexp rfl
    (Params.mk (fin (35 / 10)) (fin (42 / 10)) 4 (fin 0) (fin 0) (fin (-1))
      (fin (15 / 100)) (fin (7 / 100)) (fin (5 / 100))) (fin 16)
  exact ⟨_, a0, a1, hexp, rfl, h1, h2, h3, h4, h5, h6⟩

/-- Witness for C18 (amended): the real exponential and pi, zero-filled
members, a four-cell pack reading 16 V; the held sampling time and the SOC
entries of the two matrices. -/
theorem C18_witness :
    ∃ L : Libm ℝ, (∀ x : ℝ, L.exp (fin x) = fin (Real.exp x)) ∧ L.M_PI_F = fin Real.pi
      ∧ (0 : ℝ) < Real.pi
      ∧ (MBES_EKF_init L
            (Params.mk (fin (35 / 10)) (fin (42 / 10)) 4 (fin 0) (fin 0) (fin (-1))
              (fin (15 / 100)) (fin (7 / 100)) (fin (5 / 100)))
            clearedMbes (fin 16))._mbes_Ts = fin (1 / 2)
      ∧ (MBES_EKF_init L
            (Params.mk (fin (35 / 10)) (fin (42 / 10)) 4 (fin 0) (fin 0) (fin (-1))
              (fin (15 / 100)) (fin (7 / 100)) (fin (5 / 100)))
            clearedMbes (fin 16))._mbes_B0 1 0
          = fin ((1 / 2) / branchCl (Real.exp (61933 / 10000))) := by
  have hexp : ∀ x : ℝ,
      (Libm.mk (fun x => match x with
          | fin q => fin (Real.log q)
          | _ => nan)
        (fun x => match x with
          | fin q => fin (Real.exp q)
          | pinf => pinf
          | ninf => fin 0
          | nan => nan)
        (fin Real.pi)).exp (fin x) = fin (Real.exp x) := fun _ => rfl
  have h := C18_state_euler_covariance_exponential _ Real.pi hexp rfl Real.pi_pos
    (Params.mk (fin (35 / 10)) (fin (42 / 10)) 4 (fin 0) (fin 0) (fin (-1))
      (fin (15 / 100)) (fin (7 / 100)) (fin (5 / 100)))
    clearedMbes (fin 16) (fun _ _ _ => rfl) (fun _ _ _ => rfl)
  exact ⟨_, hexp, rfl, Real.pi_pos, h.1, h.2.2.2.2.1 1 (by decide)⟩

end Transition

/-! ## C19: the cadence of the correction step -/

section Cadence

variable {K : Type} [LinearOrderedField K]

theorem MBES_EKF_valid_eq (L : Libm K) (p : Params K) (m : Mbes K) (a : UpdateArgs K) :
    MBES_EKF_valid L p m (motorCurrent a.motor_out) a.timestamp a.voltage_v
      = if (sampledMbes p m a)._mbes_initial_set = 0 then
          { MBES_EKF_init L p (sampledMbes p m a) a.voltage_v with
            _mbes_um := (MBES_EKF_init L p (sampledMbes p m a) a.voltage_v)._mbes_u }
        else if (sampledMbes p m a)._mbes_flag = 1 then
          { MBES_EKF_correct L (sampledMbes p m a) with
            _mbes_um := (MBES_EKF_correct L (sampledMbes p m a))._mbes_u }
        else { sampledMbes p m a with _mbes_um := (sampledMbes p m a)._mbes_u } := by
  have h : MBES_EKF_valid L p m (motorCurrent a.motor_out) a.timestamp a.voltage_v
      = (fun m2 : Mbes K => ({ m2 with _mbes_um := m2._mbes_u } : Mbes K))
          (if (sampledMbes p m a)._mbes_initial_set = 0 then
            MBES_EKF_init L p (sampledMbes p m a) a.voltage_v
          else if (sampledMbes p m a)._mbes_flag = 1 then MBES_EKF_correct L (sampledMbes p m a)
          else sampledMbes p m a) := rfl
  rw [h]
  split_ifs <;> rfl

theorem updateState_mbes (L : Libm K) (p : Params K) (s : State K) (a : UpdateArgs K) :
    (updateState L p s a).mbes
      = if lt (motorCurrent a.motor_out) (fin 0) then { s.mbes with _mbes_tm := 0 }
        else MBES_EKF_valid L p s.mbes (motorCurrent a.motor_out) a.timestamp a.voltage_v := by
  simp only [updateState, computeScale_mbes, determineWarning_mbes, estimateRemaining_mbes]
  unfold MBES_EKF
  simp only [sumDischarged_current_est, filterCurrent_current_est, estCurrentQ_current_est,
    sumDischarged_mbes, filterCurrent_mbes, estCurrentQ_mbes, filterVoltage_mbes]
  split_ifs <;> rfl

/-- The timers after a call with an invalid estimate: only `_mbes_tm` is
written. -/
theorem updateState_mbes_invalid (L : Libm K) (p : Params K) (s : State K) (a : UpdateArgs K)
    (h : lt (motorCurrent a.motor_out) (fin 0) = true) :
    (updateState L p s a).mbes = { s.mbes with _mbes_tm := 0 } := by
  rw [updateState_mbes, if_pos h]

/-- The members after the initialising call. -/
theorem updateState_mbes_init (L : Libm K) (p : Params K) (s : State K) (a : UpdateArgs K)
    (h : lt (motorCurrent a.motor_out) (fin 0) = false) (h0 : s.mbes._mbes_initial_set = 0) :
    (updateState L p s a).mbes
      = { MBES_EKF_init L p (sampledMbes p s.mbes a) a.voltage_v with
          _mbes_um := fin (-1) * motorCurrent a.motor_out } := by
  rw [updateState_mbes, MBES_EKF_valid_eq]
  have h1 : (sampledMbes p s.mbes a)._mbes_initial_set = 0 := h0
  simp only [h, h1, if_true]
  rfl

/-- The members after a call that runs the correction step. -/
theorem updateState_mbes_correct (L : Libm K) (p : Params K) (s : State K) (a : UpdateArgs K)
    (h : correctionRuns s a = true) :
    (updateState L p s a).mbes
      = { MBES_EKF_correct L (sampledMbes p s.mbes a) with
          _mbes_um := fin (-1) * motorCurrent a.motor_out } := by
  unfold correctionRuns at h
  simp only [Bool.and_eq_true, Bool.not_eq_true', decide_eq_true_eq] at h
  obtain ⟨⟨hval, hinit⟩, hflag⟩ := h
  rw [updateState_mbes, MBES_EKF_valid_eq]
  have h1 : ¬ (sampledMbes p s.mbes a)._mbes_initial_set = 0 := hinit
  have h2 : (sampledMbes p s.mbes a)._mbes_flag = 1 := hflag
  simp only [hval, h1, h2, if_true, if_false]
  rfl

/-- The members after a call with a valid estimate that neither initialises
nor corrects. -/
theorem updateState_mbes_idle (L : Libm K) (p : Params K) (s : State K) (a : UpdateArgs K)
    (h : lt (motorCurrent a.motor_out) (fin 0) = false) (h0 : s.mbes._mbes_initial_set ≠ 0)
    (hc : correctionRuns s a = false) :
    (updateState L p s a).mbes
      = { sampledMbes p s.mbes a with _mbes_um := fin (-1) * motorCurrent a.motor_out } := by
  have hflag : ¬ (sampledMbes p s.mbes a)._mbes_flag = 1 := by
    intro hf
    have : correctionRuns s a = true := by
      unfold correctionRuns
      simp only [Bool.and_eq_true, Bool.not_eq_true', decide_eq_true_eq]
      exact ⟨⟨h, h0⟩, hf⟩
    rw [hc] at this
    exact Bool.false_ne_true this
  rw [updateState_mbes, MBES_EKF_valid_eq]
  have h1 : ¬ (sampledMbes p s.mbes a)._mbes_initial_set = 0 := h0
  simp only [h, h1, hflag, if_false]
  rfl

/-- A call that runs the correction step found the accumulated time above
0.5 s, provided the flag was down before the call. -/
theorem correctionRuns_due (s : State K) (a : UpdateArgs K) (hflag : s.mbes._mbes_flag = 0)
    (h : correctionRuns s a = true) :
    gt (accumulatedTime s.mbes a.timestamp) (fin (1 / 2)) = true := by
  unfold correctionRuns at h
  simp only [Bool.and_eq_true, Bool.not_eq_true', decide_eq_true_eq] at h
  obtain ⟨-, hf⟩ := h
  by_contra hdue
  rw [if_neg hdue, hflag] at hf
  exact absurd hf (by decide)

theorem correctionRuns_valid (s : State K) (a : UpdateArgs K) (h : correctionRuns s a = true) :
    lt (motorCurrent a.motor_out) (fin 0) = false ∧ s.mbes._mbes_initial_set ≠ 0 := by
  unfold correctionRuns at h
  simp only [Bool.and_eq_true, Bool.not_eq_true', decide_eq_true_eq] at h
  exact h.1

theorem gt_zero_half : FVal.gt (fin 0 : FVal K) (fin (1 / 2)) = false := by
  simp

/-- The flag stays down along any run. -/
theorem updateState_flagDown (L : Libm K) (p : Params K) (s : State K) (a : UpdateArgs K)
    (h : FlagDown s) : FlagDown (updateState L p s a) := by
  obtain ⟨hflag, hdt, htm⟩ := h
  cases hval : lt (motorCurrent a.motor_out) (fin 0) with
  | true =>
    rw [FlagDown, updateState_mbes_invalid L p s a hval]
    exact ⟨hflag, hdt, fun _ => rfl⟩
  | false =>
    by_cases h0 : s.mbes._mbes_initial_set = 0
    · have hacc : accumulatedTime s.mbes a.timestamp = s.mbes._mbes_dt := by
        unfold accumulatedTime
        rw [if_neg (not_not.2 (htm h0))]
      rw [FlagDown, updateState_mbes_init L p s a hval h0]
      refine ⟨?_, ?_, ?_⟩
      · show (sampledMbes p s.mbes a)._mbes_flag = 0
        show (if gt (accumulatedTime s.mbes a.timestamp) (fin (1 / 2)) then 1
          else s.mbes._mbes_flag) = (0 : Int)
        rw [hacc, hdt]
        simpa using hflag
      · show gt (sampledMbes p s.mbes a)._mbes_dt (fin (1 / 2)) = false
        show gt (if gt (accumulatedTime s.mbes a.timestamp) (fin (1 / 2)) then fin 0
          else accumulatedTime s.mbes a.timestamp) (fin (1 / 2)) = false
        rw [hacc, hdt]
        simpa using hdt
      · intro h1
        have h2 : (1 : Int) = 0 := h1
        exact absurd h2 (by decide)
    · cases hc : correctionRuns s a with
      | true =>
        have hdue := correctionRuns_due s a hflag hc
        rw [FlagDown, updateState_mbes_correct L p s a hc]
        refine ⟨rfl, ?_, fun h1 => absurd h1 h0⟩
        show gt (if gt (accumulatedTime s.mbes a.timestamp) (fin (1 / 2)) then fin 0
          else accumulatedTime s.mbes a.timestamp) (fin (1 / 2)) = false
        rw [hdue]
        simp
      | false =>
        rw [FlagDown, updateState_mbes_idle L p s a hval h0 hc]
        have hnd : gt (accumulatedTime s.mbes a.timestamp) (fin (1 / 2)) = false := by
          by_contra hdue
          have hdue2 : gt (accumulatedTime s.mbes a.timestamp) (fin (1 / 2)) = true := by
            simpa using hdue
          have : correctionRuns s a = true := by
            unfold correctionRuns
            simp only [Bool.and_eq_true, Bool.not_eq_true', decide_eq_true_eq]
            exact ⟨⟨hval, h0⟩, by rw [hdue2]; rfl⟩
          rw [hc] at this
          exact Bool.false_ne_true this
        refine ⟨?_, ?_, fun h1 => absurd h1 h0⟩
        · show (if gt (accumulatedTime s.mbes a.timestamp) (fin (1 / 2)) then 1
            else s.mbes._mbes_flag) = (0 : Int)
          rw [hnd]
          simpa using hflag
        · show gt (if gt (accumulatedTime s.mbes a.timestamp) (fin (1 / 2)) then fin 0
            else accumulatedTime s.mbes a.timestamp) (fin (1 / 2)) = false
          rw [hnd]
          simpa using hnd

theorem runUpdates_flagDown (L : Libm K) (calls : List (Params K × UpdateArgs K)) :
    ∀ s : State K, FlagDown s → FlagDown (runUpdates L s calls) := by
  induction calls with
  | nil => intro s h; exact h
  | cons c rest ih =>
    intro s h
    obtain ⟨p, a⟩ := c
    simp only [runUpdates, updateBatteryStatus_fst]
    exact ih _ (updateState_flagDown L p s a h)

/-- Under the invariant the accumulated time is a number bounded by the time
since the last correction. -/
theorem accumulatedTime_inv (s : State K) (last now t : Nat) (h : TimerInv s last now)
    (hnow : now ≤ t) (hb : t < 2 ^ 64) :
    ∃ d2 : K, accumulatedTime s.mbes t = fin d2 ∧ 0 ≤ d2
      ∧ d2 * 1000000 ≤ (t : K) - (last : K) ∧ (s.mbes._mbes_tm = 0 → d2 ≤ 1 / 2) := by
  obtain ⟨-, hln, htm, -, d, hd, hd0, hd1, hd2⟩ := h
  have hcast : (now : K) ≤ (t : K) := Nat.cast_le.2 hnow
  by_cases h0 : s.mbes._mbes_tm = 0
  · refine ⟨d, ?_, hd0, by linarith, fun _ => hd1⟩
    unfold accumulatedTime
    rw [if_neg (not_not.2 h0), hd]
  · have htm2 : s.mbes._mbes_tm = now := htm.resolve_left h0
    refine ⟨d + ((t - now : Nat) : K) / 1000000, ?_, ?_, ?_, fun h1 => absurd h1 h0⟩
    · unfold accumulatedTime
      rw [if_pos h0, hd, htm2, hrt_sub_of_lt hnow hb]
      simp [FVal.ofNat]
    · have : (0 : K) ≤ ((t - now : Nat) : K) := Nat.cast_nonneg _
      positivity
    · rw [Nat.cast_sub hnow]
      have e : (d + ((t : K) - (now : K)) / 1000000) * 1000000
          = d * 1000000 + ((t : K) - (now : K)) := by
        field_simp
      rw [e]
      linarith

/-- One call under the invariant: a correction comes more than 0.5 s after
the last one and restarts the count; any other call keeps the invariant. -/
theorem updateState_timerInv (L : Libm K) (p : Params K) (s : State K) (a : UpdateArgs K)
    (last now : Nat) (h : TimerInv s last now) (hnow : now ≤ a.timestamp)
    (hb : a.timestamp < 2 ^ 64) :
    (correctionRuns s a = true →
        last + 500000 < a.timestamp
          ∧ TimerInv (updateState L p s a) a.timestamp a.timestamp)
      ∧ (correctionRuns s a = false → TimerInv (updateState L p s a) last a.timestamp) := by
  obtain ⟨d2, hacc, hd20, hd2t, hd2h⟩ := accumulatedTime_inv s last now a.timestamp h hnow hb
  obtain ⟨hflag, hln, htm, hini, d, hd, hd0, hd1, hd2⟩ := h
  have hcast : (now : K) ≤ (a.timestamp : K) := Nat.cast_le.2 hnow
  constructor
  · intro hc
    have hdue := correctionRuns_due s a hflag hc
    rw [hacc] at hdue
    have hlt : (1 / 2 : K) < d2 := by simpa using hdue
    refine ⟨?_, ?_⟩
    · have h1 : ((last + 500000 : Nat) : K) < (a.timestamp : K) := by
        push_cast
        linarith
      exact Nat.cast_lt.1 h1
    · rw [TimerInv, updateState_mbes_correct L p s a hc]
      refine ⟨rfl, le_rfl, Or.inr rfl, fun h1 => absurd h1 (correctionRuns_valid s a hc).2,
        0, ?_, le_rfl, by norm_num, by simp⟩
      show (if gt (accumulatedTime s.mbes a.timestamp) (fin (1 / 2)) then fin 0
        else accumulatedTime s.mbes a.timestamp) = fin 0
      rw [hacc, hdue]
      rfl
  · intro hc
    cases hval : lt (motorCurrent a.motor_out) (fin 0) with
    | true =>
      rw [TimerInv, updateState_mbes_invalid L p s a hval]
      exact ⟨hflag, le_trans hln hnow, Or.inl rfl, fun _ => rfl, d, hd, hd0, hd1, by linarith⟩
    | false =>
      by_cases h0 : s.mbes._mbes_initial_set = 0
      · have hle : d2 ≤ 1 / 2 := hd2h (hini h0)
        have hnd : gt (accumulatedTime s.mbes a.timestamp) (fin (1 / 2)) = false := by
          rw [hacc]
          simpa using hle
        rw [TimerInv, updateState_mbes_init L p s a hval h0]
        refine ⟨?_, le_trans hln hnow, Or.inr rfl, ?_, d2, ?_, hd20, hle, hd2t⟩
        · show (if gt (accumulatedTime s.mbes a.timestamp) (fin (1 / 2)) then 1
            else s.mbes._mbes_flag) = (0 : Int)
          rw [hnd]
          simpa using hflag
        · intro h1
          have h2 : (1 : Int) = 0 := h1
          exact absurd h2 (by decide)
        · show (if gt (accumulatedTime s.mbes a.timestamp) (fin (1 / 2)) then fin 0
            else accumulatedTime s.mbes a.timestamp) = fin d2
          rw [hnd]
          simpa using hacc
      · have hnd : gt (accumulatedTime s.mbes a.timestamp) (fin (1 / 2)) = false := by
          by_contra hdue
          have hdue2 : gt (accumulatedTime s.mbes a.timestamp) (fin (1 / 2)) = true := by
            simpa using hdue
          have : correctionRuns s a = true := by
            unfold correctionRuns
            simp only [Bool.and_eq_true, Bool.not_eq_true', decide_eq_true_eq]
            exact ⟨⟨hval, h0⟩, by rw [hdue2]; rfl⟩
          rw [hc] at this
          exact Bool.false_ne_true this
        have hle : d2 ≤ 1 / 2 := by
          rw [hacc] at hnd
          simpa using hnd
        rw [TimerInv, updateState_mbes_idle L p s a hval h0 hc]
        refine ⟨?_, le_trans hln hnow, Or.inr rfl, fun h1 => absurd h1 h0, d2, ?_, hd20, hle,
          hd2t⟩
        · show (if gt (accumulatedTime s.mbes a.timestamp) (fin (1 / 2)) then 1
            else s.mbes._mbes_flag) = (0 : Int)
          rw [hnd]
          simpa using hflag
        · show (if gt (accumulatedTime s.mbes a.timestamp) (fin (1 / 2)) then fin 0
            else accumulatedTime s.mbes a.timestamp) = fin d2
          rw [hnd]
          simpa using hacc

/-- Along a run with non-decreasing timestamps the corrections are more than
0.5 s apart. -/
theorem correctionTimes_chain (L : Libm K) (calls : List (Params K × UpdateArgs K)) :
    ∀ (s : State K) (last now : Nat), TimerInv s last now →
      List.Chain (fun t1 t2 : Nat => t1 ≤ t2) now (calls.map (fun c => c.2.timestamp)) →
      (∀ c ∈ calls, c.2.timestamp < 2 ^ 64) →
      List.Chain (fun t1 t2 : Nat => t1 + 500000 < t2) last (correctionTimes L s calls) := by
  induction calls with
  | nil => intro s last now _ _ _; exact List.Chain.nil
  | cons c rest ih =>
    intro s last now h hts hb
    obtain ⟨p, a⟩ := c
    simp only [List.map_cons, List.chain_cons] at hts
    simp only [List.mem_cons, forall_eq_or_imp] at hb
    obtain ⟨hrun, hidle⟩ := updateState_timerInv L p s a last now h hts.1 hb.1
    simp only [correctionTimes, updateBatteryStatus_fst]
    cases hc : correctionRuns s a with
    | true =>
      simp only [if_true]
      exact List.Chain.cons (hrun hc).1 (ih _ _ _ (hrun hc).2 hts.2 hb.2)
    | false =>
      simp only [Bool.false_eq_true, if_false]
      exact ih _ _ _ (hidle hc) hts.2 hb.2

/-- C19: a freshly constructed estimator whose EKF timing members start at 0
(the accumulator `_mbes_dt`, the time stamp `_mbes_tm` and the flag
`_mbes_flag`, which the constructor does not initialise) receives any
sequence of calls.  In every call, whatever the timestamps: if the correction
step runs, the time accumulated since the accumulator was last reset exceeds
0.5 s, the members are those the correction step computes and the accumulator
is 0 after the call; if the filter is initialised and the correction step does
not run, the call changes no `_mbes_*` member other than the timers
`_mbes_dt`, `_mbes_tm` and the samples `_mbes_u`, `_mbes_y`, `_mbes_um` (the
state estimate, the covariance and the model stay as they are).  When the
timestamps do not decrease (and are below `2^64` microseconds), two
consecutive corrections are more than 500000 microseconds apart. -/
theorem C19_correction_cadence (L : Libm K) (junk : Mbes K) (hdt : junk._mbes_dt = fin 0)
    (htm : junk._mbes_tm = 0) (hflag : junk._mbes_flag = 0) :
    (∀ (pre : List (Params K × UpdateArgs K)) (p : Params K) (a : UpdateArgs K),
        (correctionRuns (runUpdates L (State.new junk) pre) a = true →
          gt (accumulatedTime (runUpdates L (State.new junk) pre).mbes a.timestamp)
              (fin (1 / 2)) = true
            ∧ (updateBatteryStatus L p (runUpdates L (State.new junk) pre) a).1.mbes
              = { MBES_EKF_correct L
                    (sampledMbes p (runUpdates L (State.new junk) pre).mbes a) with
                  _mbes_um := fin (-1) * motorCurrent a.motor_out }
            ∧ (updateBatteryStatus L p (runUpdates L (State.new junk) pre) a).1.mbes._mbes_dt
              = fin 0)
          ∧ (correctionRuns (runUpdates L (State.new junk) pre) a = false →
              (runUpdates L (State.new junk) pre).mbes._mbes_initial_set ≠ 0 →
              ∃ (dt : FVal K) (tm : Nat) (u y um : FVal K),
                (updateBatteryStatus L p (runUpdates L (State.new junk) pre) a).1.mbes
                  = { (runUpdates L (State.new junk) pre).mbes with
                      _mbes_dt := dt, _mbes_tm := tm, _mbes_u := u, _mbes_y := y,
                      _mbes_um := um }))
      ∧ ∀ calls : List (Params K × UpdateArgs K),
          List.Chain' (fun t1 t2 : Nat => t1 ≤ t2) (calls.map (fun c => c.2.timestamp)) →
          (∀ c ∈ calls, c.2.timestamp < 2 ^ 64) →
          List.Chain' (fun t1 t2 : Nat => t1 + 500000 < t2)
            (correctionTimes L (State.new junk) calls) := by
  have hfd : FlagDown (State.new junk) := by
    refine ⟨hflag, ?_, fun _ => htm⟩
    show gt junk._mbes_dt (fin (1 / 2)) = false
    rw [hdt]
    exact gt_zero_half
  have hti : TimerInv (State.new junk) 0 0 :=
    ⟨hflag, le_rfl, Or.inl htm, fun _ => htm, 0, hdt, le_rfl, by norm_num, by simp⟩
  refine ⟨fun pre p a => ⟨fun hc => ?_, fun hc h0 => ?_⟩, fun calls hts hb => ?_⟩
  · have hfl := (runUpdates_flagDown L pre _ hfd).1
    have hdue := correctionRuns_due _ a hfl hc
    rw [updateBatteryStatus_fst, updateState_mbes_correct L p _ a hc]
    refine ⟨hdue, rfl, ?_⟩
    show (if gt (accumulatedTime (runUpdates L (State.new junk) pre).mbes a.timestamp)
          (fin (1 / 2)) then fin 0
        else accumulatedTime (runUpdates L (State.new junk) pre).mbes a.timestamp) = fin 0
    rw [hdue]
    rfl
  · rw [updateBatteryStatus_fst]
    cases hval : lt (motorCurrent a.motor_out) (fin 0) with
    | true =>
      rw [updateState_mbes_invalid L p _ a hval]
      exact ⟨_, 0, _, _, _, rfl⟩
    | false =>
      have hfl := (runUpdates_flagDown L pre _ hfd).1
      have hnd : gt (accumulatedTime (runUpdates L (State.new junk) pre).mbes a.timestamp)
          (fin (1 / 2)) = false := by
        by_contra hdue
        have hdue2 : gt (accumulatedTime (runUpdates L (State.new junk) pre).mbes a.timestamp)
            (fin (1 / 2)) = true := by
          simpa using hdue
        have : correctionRuns (runUpdates L (State.new junk) pre) a = true := by
          unfold correctionRuns
          simp only [Bool.and_eq_true, Bool.not_eq_true', decide_eq_true_eq]
          exact ⟨⟨hval, h0⟩, by rw [hdue2]; rfl⟩
        rw [hc] at this
        exact Bool.false_ne_true this
      rw [updateState_mbes_idle L p _ a hval h0 hc]
      refine ⟨accumulatedTime (runUpdates L (State.new junk) pre).mbes a.timestamp, a.timestamp,
        fin (-1) * motorCurrent a.motor_out, a.voltage_v / ofInt p.n_cells,
        fin (-1) * motorCurrent a.motor_out, ?_⟩
      unfold sampledMbes
      rw [hnd]
      simp
  · have hch : List.Chain (fun t1 t2 : Nat => t1 ≤ t2) 0 (calls.map (fun c => c.2.timestamp)) := by
      have : List.Chain' (fun t1 t2 : Nat => t1 ≤ t2)
          (0 :: calls.map (fun c => c.2.timestamp)) :=
        List.chain'_cons'.2 ⟨fun y _ => Nat.zero_le y, hts⟩
      exact this
    have h := correctionTimes_chain L calls (State.new junk) 0 0 hti hch hb
    exact List.Chain'.tail (l := 0 :: correctionTimes L (State.new junk) calls) h

end Cadence

section CadenceSample

theorem idle_valid : lt (motorCurrent (idleCall 1000 15).motor_out) (fin 0) = false := by
  have h : (idleCall 1000 15).motor_out = fun _ => (fin 0 : FVal ℚ) := rfl
  rw [h, motorCurrent_idle]
  simp
  norm_num

theorem idle_first_mbes :
    (updateState approxLibm packParams (State.new zeroMbes) (idleCall 1000 15)).mbes._mbes_tm
        = 1000
      ∧ (updateState approxLibm packParams (State.new zeroMbes)
          (idleCall 1000 15)).mbes._mbes_dt = fin 0
      ∧ (updateState approxLibm packParams (State.new zeroMbes)
          (idleCall 1000 15)).mbes._mbes_initial_set = 1 := by
  rw [updateState_mbes_init approxLibm packParams (State.new zeroMbes) (idleCall 1000 15)
    idle_valid rfl]
  refine ⟨rfl, ?_, rfl⟩
  show (if gt (accumulatedTime (State.new zeroMbes).mbes (idleCall 1000 15).timestamp)
      (fin (1 / 2)) then fin 0
    else accumulatedTime (State.new zeroMbes).mbes (idleCall 1000 15).timestamp) = fin 0
  simp [accumulatedTime, State.new, zeroMbes]

/-- Witness for C19: zero-filled EKF members; idle calls at 1000 and 601001
microseconds.  The first call initialises the filter, the second finds
0.600001 s accumulated and runs the correction step. -/
theorem C19_witness :
    zeroMbes._mbes_dt = fin 0 ∧ zeroMbes._mbes_tm = 0 ∧ zeroMbes._mbes_flag = 0
      ∧ correctionTimes approxLibm (State.new zeroMbes)
          [(packParams, idleCall 1000 15), (packParams, idleCall 601001 15)] = [601001]
      ∧ List.Chain' (fun t1 t2 : Nat => t1 + 500000 < t2)
          (correctionTimes approxLibm (State.new zeroMbes)
            [(packParams, idleCall 1000 15), (packParams, idleCall 601001 15)]) := by
  refine ⟨rfl, rfl, rfl, ?_,
    (C19_correction_cadence approxLibm zeroMbes rfl rfl rfl).2
      [(packParams, idleCall 1000 15), (packParams, idleCall 601001 15)] ?_ ?_⟩
  · obtain ⟨h1, h2, h3⟩ := idle_first_mbes
    have hv : lt (motorCurrent (idleCall 601001 15).motor_out) (fin 0) = false := idle_valid
    have c1 : correctionRuns (State.new zeroMbes) (idleCall 1000 15) = false := by
      simp [correctionRuns, State.new]
    have c2 : correctionRuns
        (updateState approxLibm packParams (State.new zeroMbes) (idleCall 1000 15))
        (idleCall 601001 15) = true := by
      unfold correctionRuns accumulatedTime
      rw [hv, h1, h2, h3]
      simp [idleCall, FVal.ofNat, hrt_sub]
      norm_num
    simp only [correctionTimes, updateBatteryStatus_fst, c1, c2, if_true, Bool.false_eq_true,
      if_false]
    rfl
  · simp [idleCall]
  · intro c hc
    simp only [List.mem_cons, List.mem_nil_iff, or_false] at hc
    rcases hc with rfl | rfl <;> simp [idleCall]

/-- What the hypothesis on `_mbes_flag` of C19 excludes: if the uninitialised
flag holds 1 (timers at 0), the call after the initialising call runs the
correction step although only 0.001 s has been accumulated. -/
theorem stale_flag_corrects_early :
    accumulatedTime
        (updateState approxLibm packParams (State.new { zeroMbes with _mbes_flag := 1 })
          (idleCall 1000 15)).mbes (idleCall 2000 15).timestamp = fin (1 / 1000)
      ∧ correctionRuns
          (updateState approxLibm packParams (State.new { zeroMbes with _mbes_flag := 1 })
            (idleCall 1000 15))
          (idleCall 2000 15) = true := by
  have hm : (updateState approxLibm packParams (State.new { zeroMbes with _mbes_flag := 1 })
      (idleCall 1000 15)).mbes
      = { MBES_EKF_init approxLibm packParams
            (sampledMbes packParams (State.new { zeroMbes with _mbes_flag := 1 }).mbes
              (idleCall 1000 15)) (idleCall 1000 15).voltage_v with
          _mbes_um := fin (-1) * motorCurrent (idleCall 1000 15).motor_out } :=
    updateState_mbes_init approxLibm packParams _ (idleCall 1000 15) idle_valid rfl
  have hd : (sampledMbes packParams (State.new { zeroMbes with _mbes_flag := 1 }).mbes
      (idleCall 1000 15))._mbes_dt = fin 0 := by
    simp [sampledMbes, accumulatedTime, State.new, zeroMbes]
  have hf : (sampledMbes packParams (State.new { zeroMbes with _mbes_flag := 1 }).mbes
      (idleCall 1000 15))._mbes_flag = 1 := by
    simp [sampledMbes, accumulatedTime, State.new, zeroMbes]
  have h1 : (updateState approxLibm packParams (State.new { zeroMbes with _mbes_flag := 1 })
      (idleCall 1000 15)).mbes._mbes_tm = 1000 := by rw [hm]; rfl
  have h2 : (updateState approxLibm packParams (State.new { zeroMbes with _mbes_flag := 1 })
      (idleCall 1000 15)).mbes._mbes_dt = fin 0 := by rw [hm]; exact hd
  have h3 : (updateState approxLibm packParams (State.new { zeroMbes with _mbes_flag := 1 })
      (idleCall 1000 15)).mbes._mbes_initial_set = 1 := by rw [hm]; rfl
  have h4 : (updateState approxLibm packParams (State.new { zeroMbes with _mbes_flag := 1 })
      (idleCall 1000 15)).mbes._mbes_flag = 1 := by rw [hm]; exact hf
  have hv : lt (motorCurrent (idleCall 2000 15).motor_out) (fin 0) = false := idle_valid
  constructor
  · unfold accumulatedTime
    rw [h1, h2]
    simp [idleCall, FVal.ofNat, hrt_sub]
    norm_num
  · unfold correctionRuns
    rw [hv, h3, h4]
    simp

end CadenceSample

/-! ## C20: the estimated current of normalised commands -/

section MotorCurrent

variable {K : Type} [LinearOrderedField K]

/-- The cubic of `estCurrentQ` is above the idle current on `(900, 1600]`
(it is increasing there and about 0.99 at 900). -/
theorem motor_cubic_lower (x : K) (h0 : 900 < x) (h1 : x ≤ 1600) :
    (34 / 100 : K)
      ≤ -622186 / 100000000000000 * x * x * x + 32145 / 1000000000 * x * x
          + -414685 / 10000000 * x + 168119 / 10000 := by
  have a : 0 ≤ x - 900 := by linarith
  have b : 0 ≤ 1600 - x := by linarith
  nlinarith [mul_nonneg a b, mul_nonneg (mul_nonneg a a) b, mul_nonneg a a]

/-- One pass of the loop of `estCurrentQ` on a normalised command adds at
least the idle current 0.34. -/
theorem estCurrentQ_body_lower (mot : Fin 4 → FVal K) (i : Fin 4) (m c : K)
    (hm : mot i = fin m) (h1 : m ≤ 1) :
    ∃ y : K, 34 / 100 ≤ y ∧ estCurrentQ_body mot (fin c) i = fin (c + y) := by
  by_cases hx : 900 < 800 * m + 800
  · refine ⟨_, motor_cubic_lower (800 * m + 800) hx (by linarith), ?_⟩
    simp [estCurrentQ_body, hm, hx]
  · exact ⟨34 / 100, le_rfl, by simp [estCurrentQ_body, hm, hx]⟩

/-- Four normalised commands give an estimate of at least 1.36. -/
theorem motorCurrent_lower (mot : Fin 4 → FVal K) (m : Fin 4 → K)
    (hm : ∀ i, mot i = fin (m i)) (hr : ∀ i, -1 ≤ m i ∧ m i ≤ 1) :
    ∃ c : K, 136 / 100 ≤ c ∧ motorCurrent mot = fin c := by
  obtain ⟨y0, hy0, e0⟩ := estCurrentQ_body_lower mot 0 (m 0) 0 (hm 0) (hr 0).2
  obtain ⟨y1, hy1, e1⟩ := estCurrentQ_body_lower mot 1 (m 1) (0 + y0) (hm 1) (hr 1).2
  obtain ⟨y2, hy2, e2⟩ :=
    estCurrentQ_body_lower mot 2 (m 2) (0 + y0 + y1) (hm 2) (hr 2).2
  obtain ⟨y3, hy3, e3⟩ :=
    estCurrentQ_body_lower mot 3 (m 3) (0 + y0 + y1 + y2) (hm 3) (hr 3).2
  refine ⟨0 + y0 + y1 + y2 + y3, by linarith, ?_⟩
  simp only [motorCurrent, List.foldl_cons, List.foldl_nil, e0, e1, e2, e3]

/-- C20: when the four motor commands are numbers in `[-1, 1]`, `estCurrentQ`
leaves in `_current_est` a number `c >= 1.36`, and so does
`updateBatteryStatus`.  The tests `_current_est < 0` of `sumDischarged` and of
`MBES_EKF` are then false where `updateBatteryStatus` calls them (after
`filterVoltage`, `estCurrentQ`, `filterCurrent`, and after `sumDischarged`):
their invalid-current branches are not taken, `sumDischarged` records the
timestamp of the call and `MBES_EKF` runs its body. -/
theorem C20_estimated_current_at_least_idle (L : Libm K) (p : Params K) (s : State K)
    (a : UpdateArgs K) (m : Fin 4 → K) (hm : ∀ i, a.motor_out i = fin (m i))
    (hr : ∀ i, -1 ≤ m i ∧ m i ≤ 1) :
    ∃ c : K, 136 / 100 ≤ c
      ∧ (estCurrentQ s a.current_a a.throttle_normalized a.motor_out)._current_est = fin c
      ∧ (updateBatteryStatus L p s a).1._current_est = fin c
      ∧ lt (filterCurrent
              (estCurrentQ (filterVoltage s a.voltage_v) a.current_a a.throttle_normalized
                a.motor_out)
              a.current_a)._current_est (fin 0) = false
      ∧ lt (sumDischarged
              (filterCurrent
                (estCurrentQ (filterVoltage s a.voltage_v) a.current_a a.throttle_normalized
                  a.motor_out)
                a.current_a)
              a.timestamp a.current_a)._current_est (fin 0) = false
      ∧ (updateBatteryStatus L p s a).1._last_timestamp = a.timestamp
      ∧ (updateBatteryStatus L p s a).1.mbes
          = MBES_EKF_valid L p s.mbes (fin c) a.timestamp a.voltage_v := by
  obtain ⟨c, hc, e⟩ := motorCurrent_lower a.motor_out m hm hr
  have hneg : ¬ c < 0 := by
    have : (0 : K) < 136 / 100 := by norm_num
    exact not_lt.2 (le_trans this.le hc)
  refine ⟨c, hc, by simp [e], by rw [updateBatteryStatus_fst]; simp [e], by simp [e, hneg],
    by simp [e, hneg], ?_, ?_⟩
  · rw [updateBatteryStatus_fst, updateState_last_timestamp, sumDischarged_last_timestamp_eq]
    simp [e, hneg]
  · rw [updateBatteryStatus_fst]
    simp [updateState, MBES_EKF, e, hneg]

end MotorCurrent

section MotorSample

/-- Witness for C20: all four commands at 0 (`x = 800`, below the floor 900). -/
theorem C20_witness :
    ∃ c : ℚ, 136 / 100 ≤ c
      ∧ (updateBatteryStatus approxLibm packParams (State.new zeroMbes)
          (idleCall 1000 15)).1._current_est = fin c := by
  obtain ⟨c, hc, -, h, -⟩ := C20_estimated_current_at_least_idle approxLibm packParams
    (State.new zeroMbes) (idleCall 1000 15) (fun _ => 0) (fun _ => rfl)
    (fun _ => ⟨by norm_num, by norm_num⟩)
  exact ⟨c, hc, h⟩

end MotorSample

/-! ## C21: the slope is positive and the Newton step is defined -/

section SlopePositive

/-- The slope `dSOC2OCV` is never the number zero, whatever the argument:
finite arguments give a positive number, the infinities the positive slopes at
98 and 2, and `NaN` gives `NaN`. -/
theorem dSOC2OCV_ne_zero (a : FVal ℝ) : dSOC2OCV a ≠ fin 0 := by
  cases a with
  | fin x =>
    rw [dSOC2OCV_fin]
    intro h
    exact ocvCurveSlope_ne_zero x (FVal.fin.inj h)
  | pinf =>
    have h : dSOC2OCV (pinf : FVal ℝ) = dmodel (fin 98) := by
      simp [dSOC2OCV, FVal.gt, FVal.lt]
    rw [h, dmodel_fin 98 (by norm_num) (by norm_num)]
    intro h2
    have := ocvSlope_lower 98 (by norm_num) le_rfl
    rw [FVal.fin.inj h2] at this
    norm_num at this
  | ninf =>
    have h : dSOC2OCV (ninf : FVal ℝ) = dmodel (fin 2) := by
      simp [dSOC2OCV, FVal.gt, FVal.lt]
    rw [h, dmodel_fin 2 (by norm_num) (by norm_num)]
    intro h2
    have := ocvSlope_lower 2 le_rfl (by norm_num)
    rw [FVal.fin.inj h2] at this
    norm_num at this
  | nan =>
    have h : dSOC2OCV (nan : FVal ℝ) = nan := by
      simp [dSOC2OCV, dmodel]
    rw [h]
    intro h2
    cases h2

/-- The spliced curve is strictly increasing. -/
theorem ocvCurve_strictMono : StrictMono (ocvCurve Real.log) := by
  intro a b hab
  have h := (sandwich_all hab.le (1 / 1000) 4
    (fun x _ _ => ⟨ocvCurveSlope_lower x, ocvCurveSlope_upper x⟩)).1
  have : 0 < b - a := sub_pos.2 hab
  nlinarith

/-- For a finite `ocv` every iterate of `OCV2SOC` is a number. -/
theorem newtonIterate_fin (L : Libm ℝ)
    (hlog : ∀ x : ℝ, 0 < x → L.logf (fin x) = fin (Real.log x)) (y : ℝ) :
    ∀ k : Nat, ∃ r : ℝ, newtonIterate L (fin y) k = fin r := by
  intro k
  induction k with
  | zero => exact ⟨90, rfl⟩
  | succ k ih =>
    obtain ⟨r, hr⟩ := ih
    refine ⟨r - (ocvCurve Real.log r - y) / ocvCurveSlope r, ?_⟩
    simp only [newtonIterate, newtonStep, hr, SOC2OCV_fin L hlog, dSOC2OCV_fin, fin_sub_fin,
      fin_div_fin _ _ (ocvCurveSlope_ne_zero r)]

/-- C21: in exact real arithmetic, `logf` being the natural logarithm.  For
every real `soc`, `dSOC2OCV(soc)` is a number `d > 0` (`dmodel` is at least
0.001 on `[2, 98]`, and `dSOC2OCV` is the constant `dmodel(2)` below 2 and
`dmodel(98)` above 98); `SOC2OCV` is strictly increasing on the reals; and the
divisor `dSOC2OCV(a)` of the Newton step is never zero, for any value `a`
(finite or not): for a finite `ocv` every iterate `a` of `OCV2SOC` is a number,
the divisor at it is a positive number and the step is the quotient of
numbers. -/
theorem C21_slope_positive_and_step_defined (L : Libm ℝ)
    (hlog : ∀ x : ℝ, 0 < x → L.logf (fin x) = fin (Real.log x)) :
    (∀ soc : ℝ, ∃ d : ℝ, dSOC2OCV (fin soc) = fin d ∧ 0 < d)
      ∧ (∀ soc : ℝ, 2 ≤ soc → soc ≤ 98 →
          ∃ d : ℝ, dmodel (fin soc) = fin d ∧ 0 < d ∧ dSOC2OCV (fin soc) = dmodel (fin soc))
      ∧ (∀ soc : ℝ, soc < 2 → dSOC2OCV (fin soc) = dmodel (fin 2))
      ∧ (∀ soc : ℝ, 98 < soc → dSOC2OCV (fin soc) = dmodel (fin 98))
      ∧ (∀ a b : ℝ, a < b →
          ∃ x y : ℝ, SOC2OCV L (fin a) = fin x ∧ SOC2OCV L (fin b) = fin y ∧ x < y)
      ∧ (∀ a : FVal ℝ, dSOC2OCV a ≠ fin 0)
      ∧ ∀ (ocv : ℝ) (k : Nat),
          ∃ a f d : ℝ, newtonIterate L (fin ocv) k = fin a ∧ SOC2OCV L (fin a) = fin f
            ∧ dSOC2OCV (fin a) = fin d ∧ 0 < d
            ∧ (SOC2OCV L (fin a) - fin ocv) / dSOC2OCV (fin a) = fin ((f - ocv) / d)
            ∧ newtonIterate L (fin ocv) (k + 1) = fin (a - (f - ocv) / d) := by
  have hpos : ∀ x : ℝ, 0 < ocvCurveSlope x := fun x =>
    lt_of_lt_of_le (by norm_num) (ocvCurveSlope_lower x)
  refine ⟨fun soc => ⟨_, dSOC2OCV_fin soc, hpos soc⟩, fun soc h0 h1 => ?_, fun soc h => ?_,
    fun soc h => ?_, fun a b hab => ?_, dSOC2OCV_ne_zero, fun ocv k => ?_⟩
  · refine ⟨ocvSlope soc, dmodel_fin soc (by linarith) (by linarith),
      lt_of_lt_of_le (by norm_num) (ocvSlope_lower soc h0 h1), ?_⟩
    simp [dSOC2OCV, not_lt.2 h0, not_lt.2 h1]
  · have h98 : ¬ (98 : ℝ) < soc := by linarith
    simp [dSOC2OCV, h, h98]
  · simp [dSOC2OCV, h]
  · exact ⟨_, _, SOC2OCV_fin L hlog a, SOC2OCV_fin L hlog b, ocvCurve_strictMono hab⟩
  · obtain ⟨a, ha⟩ := newtonIterate_fin L hlog ocv k
    refine ⟨a, ocvCurve Real.log a, ocvCurveSlope a, ha, SOC2OCV_fin L hlog a, dSOC2OCV_fin a,
      hpos a, ?_, ?_⟩
    · rw [SOC2OCV_fin L hlog, dSOC2OCV_fin, fin_sub_fin, fin_div_fin _ _ (ocvCurveSlope_ne_zero a)]
    · simp only [newtonIterate, newtonStep, ha, SOC2OCV_fin L hlog, dSOC2OCV_fin, fin_sub_fin,
        fin_div_fin _ _ (ocvCurveSlope_ne_zero a)]

/-- Witness for C21: a libm whose `logf` is the natural logarithm on finite
arguments; the slope at 50 and the curve at 40 and 60. -/
theorem C21_witness :
    ∃ L : Libm ℝ, (∀ x : ℝ, 0 < x → L.logf (fin x) = fin (Real.log x))
      ∧ (∃ d : ℝ, dSOC2OCV (fin (50 : ℝ)) = fin d ∧ 0 < d)
      ∧ ∃ x y : ℝ, SOC2OCV L (fin 40) = fin x ∧ SOC2OCV L (fin 60) = fin y ∧ x < y := by
  have hlog : ∀ x : ℝ, 0 < x →
      (Libm.mk (fun x => match x with
          | fin q => fin (Real.log q)
          | _ => nan)
        (fun x => match x with
          | fin q => fin (Real.exp q)
          | _ => nan)
        (fin Real.pi)).logf (fin x) = fin (Real.log x) :=
    fun _ _ => rfl
  have h := C21_slope_positive_and_step_defined _ hlog
  exact ⟨_, hlog, h.1 50, h.2.2.2.2.1 40 60 (by norm_num)⟩

end SlopePositive

/-! ## C22: the capacity-based estimate does not read the voltage -/

section VoltageIndependence

variable {K : Type} [LinearOrderedField K]

/-- With `armed = true`, remaining-by-capacity after `estimateRemaining` is
computed from the old value, the accumulator and the capacity alone. -/
theorem estimateRemaining_capacity_armed (L : Libm K) (p : Params K) (s : State K)
    (v c t : FVal K) :
    (estimateRemaining L p s v c t true)._remaining_capacity
      = clamp01
          (if isFinite (slowBlend s._remaining_capacity (fin 1 - s._discharged_mah / p.capacity))
            then slowBlend s._remaining_capacity (fin 1 - s._discharged_mah / p.capacity)
            else s._remaining_capacity) := by
  unfold estimateRemaining clamp01 slowBlend
  simp

/-- The accumulator after an armed call does not read the voltage. -/
theorem updateState_discharged_armed (L : Libm K) (p : Params K) (s : State K)
    (a : UpdateArgs K) (harmed : a.armed = true) :
    (updateState L p s a)._discharged_mah
      = (sumDischarged (estCurrentQ s a.current_a a.throttle_normalized a.motor_out)
          a.timestamp a.current_a)._discharged_mah := by
  rw [updateState_discharged_mah, harmed]
  rfl

/-- Remaining-by-capacity after an armed call does not read the voltage. -/
theorem updateState_remaining_capacity_armed (L : Libm K) (p : Params K) (s : State K)
    (a : UpdateArgs K) (harmed : a.armed = true) :
    (updateState L p s a)._remaining_capacity
      = clamp01
          (if isFinite
              (slowBlend s._remaining_capacity
                (fin 1
                  - (sumDischarged (estCurrentQ s a.current_a a.throttle_normalized a.motor_out)
                      a.timestamp a.current_a)._discharged_mah / p.capacity))
            then
              slowBlend s._remaining_capacity
                (fin 1
                  - (sumDischarged (estCurrentQ s a.current_a a.throttle_normalized a.motor_out)
                      a.timestamp a.current_a)._discharged_mah / p.capacity)
            else s._remaining_capacity) := by
  rw [updateState_remaining_capacity, harmed, estimateRemaining_capacity_armed]
  simp

theorem updateState_remaining_error (L : Libm K) (p : Params K) (s : State K)
    (a : UpdateArgs K) : (updateState L p s a)._remaining_error = s._remaining_error := by
  simp [updateState]

omit [LinearOrderedField K] in
/-- Two states that agree on the eight members below differ at most in the
filtered voltage, remaining-by-voltage, the scale and the `_mbes_*` members. -/
theorem State.eq_up_to_voltage (x y : State K) (h1 : x._current_est = y._current_est)
    (h2 : x._current_filtered_a = y._current_filtered_a)
    (h3 : x._discharged_mah = y._discharged_mah)
    (h4 : x._remaining_capacity = y._remaining_capacity) (h5 : x._remaining = y._remaining)
    (h6 : x._remaining_error = y._remaining_error) (h7 : x._warning = y._warning)
    (h8 : x._last_timestamp = y._last_timestamp) :
    x = { y with
          _voltage_filtered_v := x._voltage_filtered_v
          _remaining_voltage := x._remaining_voltage
          _scale := x._scale
          mbes := x.mbes } := by
  cases x
  cases y
  simp_all

/-- C22: two `updateBatteryStatus` calls from the same state, with the same
parameters and arguments except for the measured voltage (`voltage_v` and
`v2`), `armed = true` and a configured capacity `> 0`.  The estimator ends
with the same discharged charge, remaining-by-capacity, chosen remaining
fraction and warning level (and the same estimated and filtered current,
remaining error and time stamp); only the filtered voltage, remaining-by-voltage,
the scale and the `_mbes_*` members can differ.  The records carry the same
discharged charge, remaining fraction and warning level whenever the filtered
voltage is on the same side of the validity floor 2.1 V after both calls. -/
theorem C22_capacity_estimate_ignores_voltage (L : Libm K) (p : Params K) (s : State K)
    (a : UpdateArgs K) (v2 : FVal K) (harmed : a.armed = true)
    (hcap : gt p.capacity (fin 0) = true) :
    (updateBatteryStatus L p s { a with voltage_v := v2 }).1._discharged_mah
        = (updateBatteryStatus L p s a).1._discharged_mah
      ∧ (updateBatteryStatus L p s { a with voltage_v := v2 }).1._remaining_capacity
        = (updateBatteryStatus L p s a).1._remaining_capacity
      ∧ (updateBatteryStatus L p s { a with voltage_v := v2 }).1._remaining
        = (updateBatteryStatus L p s a).1._remaining
      ∧ (updateBatteryStatus L p s { a with voltage_v := v2 }).1._warning
        = (updateBatteryStatus L p s a).1._warning
      ∧ (updateBatteryStatus L p s { a with voltage_v := v2 }).1
        = { (updateBatteryStatus L p s a).1 with
            _voltage_filtered_v :=
              (updateBatteryStatus L p s { a with voltage_v := v2 }).1._voltage_filtered_v
            _remaining_voltage :=
              (updateBatteryStatus L p s { a with voltage_v := v2 }).1._remaining_voltage
            _scale := (updateBatteryStatus L p s { a with voltage_v := v2 }).1._scale
            mbes := (updateBatteryStatus L p s { a with voltage_v := v2 }).1.mbes }
      ∧ (gt (updateBatteryStatus L p s { a with voltage_v := v2 }).1._voltage_filtered_v
            (fin (21 / 10))
          = gt (updateBatteryStatus L p s a).1._voltage_filtered_v (fin (21 / 10)) →
          (updateBatteryStatus L p s { a with voltage_v := v2 }).2.discharged_mah
              = (updateBatteryStatus L p s a).2.discharged_mah
            ∧ (updateBatteryStatus L p s { a with voltage_v := v2 }).2.remaining
              = (updateBatteryStatus L p s a).2.remaining
            ∧ (updateBatteryStatus L p s { a with voltage_v := v2 }).2.warning
              = (updateBatteryStatus L p s a).2.warning) := by
  have hd : (updateState L p s { a with voltage_v := v2 })._discharged_mah
      = (updateState L p s a)._discharged_mah := by
    rw [updateState_discharged_armed L p s a harmed,
      updateState_discharged_armed L p s { a with voltage_v := v2 } harmed]
  have hc : (updateState L p s { a with voltage_v := v2 })._remaining_capacity
      = (updateState L p s a)._remaining_capacity := by
    rw [updateState_remaining_capacity_armed L p s a harmed,
      updateState_remaining_capacity_armed L p s { a with voltage_v := v2 } harmed]
  have hr : (updateState L p s { a with voltage_v := v2 })._remaining
      = (updateState L p s a)._remaining := by
    rw [updateState_remaining, updateState_remaining L p s a, hcap, if_pos rfl, if_pos rfl, hc]
  have hw : (updateState L p s { a with voltage_v := v2 })._warning
      = (updateState L p s a)._warning := by
    rw [updateState_warning_eq, updateState_warning_eq L p s a, hr]
  have he : (updateState L p s { a with voltage_v := v2 })._current_est
      = (updateState L p s a)._current_est := by
    rw [updateState_current_est, updateState_current_est]
  have hf : (updateState L p s { a with voltage_v := v2 })._current_filtered_a
      = (updateState L p s a)._current_filtered_a := by
    rw [updateState_current_filtered_a, updateState_current_filtered_a]
  have hre : (updateState L p s { a with voltage_v := v2 })._remaining_error
      = (updateState L p s a)._remaining_error := by
    rw [updateState_remaining_error, updateState_remaining_error]
  have hl : (updateState L p s { a with voltage_v := v2 })._last_timestamp
      = (updateState L p s a)._last_timestamp := by
    rw [updateState_last_timestamp, updateState_last_timestamp]
  simp only [updateBatteryStatus_fst]
  refine ⟨hd, hc, hr, hw, State.eq_up_to_voltage _ _ he hf hd hc hr hre hw hl, fun hg => ?_⟩
  unfold updateBatteryStatus
  dsimp only
  rw [hg]
  cases hg2 : gt (updateState L p s a)._voltage_filtered_v (fin (21 / 10)) with
  | true =>
    simp only [if_true]
    exact ⟨hd, hr, hw⟩
  | false =>
    simp only [Bool.false_eq_true, if_false, and_self]

end VoltageIndependence

section VoltageSample

/-- Witness for C22: a 5000 mAh pack, a fresh estimator, one armed call
reading 15 V or 12 V. -/
theorem C22_witness :
    (idleCall 1000 15).armed = true ∧ gt loadedPack.capacity (fin 0) = true
      ∧ (updateBatteryStatus approxLibm loadedPack (State.new zeroMbes)
          { idleCall 1000 15 with voltage_v := fin 12 }).1._remaining
        = (updateBatteryStatus approxLibm loadedPack (State.new zeroMbes)
            (idleCall 1000 15)).1._remaining
      ∧ (updateBatteryStatus approxLibm loadedPack (State.new zeroMbes)
          { idleCall 1000 15 with voltage_v := fin 12 }).1._warning
        = (updateBatteryStatus approxLibm loadedPack (State.new zeroMbes)
            (idleCall 1000 15)).1._warning := by
  have hcap : gt loadedPack.capacity (fin 0) = true := by
    simp [loadedPack]
  have h := C22_capacity_estimate_ignores_voltage approxLibm loadedPack (State.new zeroMbes)
    (idleCall 1000 15) (fin 12) rfl hcap
  exact ⟨rfl, hcap, h.2.2.1, h.2.2.2.1⟩

end VoltageSample

end Battery
